import Mathlib

/-!
A verification development for the `segypy` SEG-Y reader/writer
(file `segypy.py`).  The Python module is shallowly embedded:

* a byte buffer (`bytes` object / file contents) is a `List Nat`
  whose elements are intended to lie in `[0, 256)`;
* `struct.pack`/`struct.unpack` with the big-endian formats
  `l, h, H, L, B, c, f, d` used by the module become executable
  functions on integers; IEEE-754 `float32`/`float64` sample values
  are modelled by their bit patterns (a `Nat` below `2^32` resp.
  `2^64`), which `struct` transports bijectively, so packing a
  float32 and unpacking it is the identity on patterns exactly as
  it is on values;
* fallible operations (`struct.error`, `KeyError`, `ValueError`,
  `TypeError`, `IndexError`, numpy reshape errors) return
  `Except String`;
* Python dictionaries keyed by strings become association lists.

Numbers in comments such as `segypy.py:627` refer to source lines.
-/

namespace Segypy

/-! ## Bytes and big-endian integers -/

/-- Big-endian byte list (length `w`) of `n % 256^w`. -/
def bytesOfNat : Nat → Nat → List Nat
  | 0, _ => []
  | w + 1, n => bytesOfNat w (n / 256) ++ [n % 256]

/-- Big-endian value of a byte list. -/
def natOfBytes (bs : List Nat) : Nat :=
  bs.foldl (fun acc b => acc * 256 + b) 0

theorem natOfBytes_aux (bs : List Nat) (a : Nat) :
    bs.foldl (fun acc b => acc * 256 + b) a = a * 256 ^ bs.length + natOfBytes bs := by
  induction bs generalizing a with
  | nil =>
    simp only [List.foldl_nil, natOfBytes, List.length_nil, pow_zero, Nat.mul_one]
    omega
  | cons x xs ih =>
    have hx : natOfBytes (x :: xs) = x * 256 ^ xs.length + natOfBytes xs := by
      show List.foldl _ 0 (x :: xs) = _
      rw [List.foldl_cons]
      simpa using ih (0 * 256 + x)
    rw [List.foldl_cons, ih (a * 256 + x), hx, List.length_cons]
    ring

theorem natOfBytes_cons (x : Nat) (xs : List Nat) :
    natOfBytes (x :: xs) = x * 256 ^ xs.length + natOfBytes xs := by
  simp only [natOfBytes, List.foldl_cons]
  simpa using natOfBytes_aux xs x

theorem natOfBytes_append (xs ys : List Nat) :
    natOfBytes (xs ++ ys) = natOfBytes xs * 256 ^ ys.length + natOfBytes ys := by
  simp only [natOfBytes, List.foldl_append]
  exact natOfBytes_aux ys _

@[simp] theorem length_bytesOfNat (w n : Nat) : (bytesOfNat w n).length = w := by
  induction w generalizing n with
  | zero => rfl
  | succ w ih => simp [bytesOfNat, ih]

theorem mem_bytesOfNat_lt {w n b : Nat} (h : b ∈ bytesOfNat w n) : b < 256 := by
  induction w generalizing n with
  | zero => simp [bytesOfNat] at h
  | succ w ih =>
    simp only [bytesOfNat, List.mem_append, List.mem_singleton] at h
    rcases h with h | h
    · exact ih h
    · subst h; exact Nat.mod_lt _ (by norm_num)

theorem natOfBytes_bytesOfNat (w n : Nat) :
    natOfBytes (bytesOfNat w n) = n % 256 ^ w := by
  induction w generalizing n with
  | zero => simp [bytesOfNat, natOfBytes, Nat.mod_one]
  | succ w ih =>
    rw [bytesOfNat, natOfBytes_append, ih]
    have h256 : (256 : Nat) ^ (w + 1) = 256 * 256 ^ w := by ring
    simp only [List.length_singleton, pow_one, natOfBytes, List.foldl_cons, List.foldl_nil,
      Nat.zero_mul, Nat.zero_add, h256]
    rw [Nat.mod_mul]
    ring

theorem natOfBytes_bytesOfNat_of_lt {w n : Nat} (h : n < 256 ^ w) :
    natOfBytes (bytesOfNat w n) = n := by
  rw [natOfBytes_bytesOfNat, Nat.mod_eq_of_lt h]

theorem natOfBytes_lt {bs : List Nat} (h : ∀ b ∈ bs, b < 256) :
    natOfBytes bs < 256 ^ bs.length := by
  induction bs with
  | nil => simp [natOfBytes]
  | cons x xs ih =>
    have hx : x < 256 := h x (by simp)
    have hxs := ih (fun b hb => h b (by simp [hb]))
    rw [natOfBytes_cons]
    have h1 : x * 256 ^ xs.length + natOfBytes xs < (x + 1) * 256 ^ xs.length := by
      have := Nat.pos_pow_of_pos (n := 256) xs.length (by norm_num)
      nlinarith
    have h2 : (x + 1) * 256 ^ xs.length ≤ 256 * 256 ^ xs.length :=
      Nat.mul_le_mul_right _ hx
    have h3 : (256 : Nat) ^ (x :: xs).length = 256 * 256 ^ xs.length := by
      simp [List.length_cons, pow_succ]; ring
    omega

/-- Two's-complement reading of a `w`-byte big-endian unsigned value. -/
def toSigned (w : Nat) (n : Nat) : Int :=
  if n < 2 ^ (8 * w - 1) then (n : Int) else (n : Int) - 2 ^ (8 * w)

/-- Total slice `data[i : i+n]` (defined via `getD`; only used under
an explicit bounds check, where it agrees with the Python slice). -/
def sliceAt (d : List Nat) (i n : Nat) : List Nat :=
  (List.range n).map (fun k => d.getD (i + k) 0)

@[simp] theorem length_sliceAt (d : List Nat) (i n : Nat) : (sliceAt d i n).length = n := by
  simp [sliceAt]

theorem getD_append_left {xs ys : List Nat} {k : Nat} (h : k < xs.length) :
    (xs ++ ys).getD k 0 = xs.getD k 0 := by
  simp [List.getD, List.getElem?_append_left h]

theorem getD_append_right (xs ys : List Nat) (k : Nat) :
    (xs ++ ys).getD (xs.length + k) 0 = ys.getD k 0 := by
  simp [List.getD, List.getElem?_append_right (Nat.le_add_right xs.length k)]

/-- Slicing entirely inside the middle segment of `P ++ X ++ S`. -/
theorem sliceAt_middle (P X S : List Nat) (j n : Nat) (h : j + n ≤ X.length) :
    sliceAt (P ++ X ++ S) (P.length + j) n = sliceAt X j n := by
  unfold sliceAt
  apply List.map_congr_left
  intro k hk
  simp only [List.mem_range] at hk
  rw [List.append_assoc, Nat.add_assoc, getD_append_right,
    getD_append_left (by omega)]

theorem sliceAt_eq_self (X : List Nat) : sliceAt X 0 X.length = X := by
  apply List.ext_getElem (by simp)
  intro i h1 h2
  simp only [sliceAt, List.getElem_map, List.getElem_range, Nat.zero_add]
  simp only [length_sliceAt] at h1
  simp [List.getD, List.getElem?_eq_getElem (by omega : i < X.length)]

/-! ## The dtype tables (segypy.py:28-48) and the `struct` codec

`dtype2csize` and `dtype2ctype` are the two module-level dictionaries.
`packValue` (segypy.py:732-748) and the scalar case of `getValue`
(segypy.py:750-795) go through `struct` with the big-endian character
format from `dtype2ctype`; here the two-step table lookup plus
`struct.pack`/`struct.unpack` is fused into one match per dtype
string.  Float formats are modelled on bit patterns (see the header
comment). -/

def dtype2csize : List (String × Nat) :=
  [("int32", 4), ("uint32", 4), ("int16", 2), ("uint16", 2),
   ("float32", 4), ("double", 8), ("char", 1), ("uchar", 1)]

def dtype2ctype : List (String × String) :=
  [("int32", "l"), ("uint32", "L"), ("int16", "h"), ("uint16", "H"),
   ("float32", "f"), ("double", "d"), ("char", "c"), ("uchar", "B")]

def structErr : String := "struct.error: unpack requires a buffer of the format size"

def packErr : String := "struct.error: argument out of range"

/-- Decode one big-endian scalar from a byte list of the right width.
`char` is never used by the module; it is decoded as its raw byte. -/
def decodeFixed (ty : String) (bs : List Nat) : Int :=
  match ty with
  | "int32" => toSigned 4 (natOfBytes bs)
  | "int16" => toSigned 2 (natOfBytes bs)
  | _ => (natOfBytes bs : Int)

/-- `struct.unpack(endian + dtype2ctype[ty], data[i : i + dtype2csize[ty]])`
for one scalar: `KeyError` on an unknown dtype string, `struct.error`
when the slice is short (a Python slice truncates at the end of the
buffer, and `struct.unpack` rejects a buffer of the wrong size). -/
def structUnpack1 (d : List Nat) (i : Nat) (ty : String) : Except String Int :=
  match dtype2csize.lookup ty with
  | none => .error "KeyError: unknown data type"
  | some cs =>
    if i + cs ≤ d.length then .ok (decodeFixed ty (sliceAt d i cs))
    else .error structErr

/-- `struct.pack(endian + dtype2ctype[ty], v)` for one scalar.
Integer formats raise `struct.error` when the value is out of range;
`B` (from dtype `uchar`) accepts exactly `[0, 255]`.  Bit-pattern
floats always lie in range for a well-formed numpy array. -/
def structPack1 (v : Int) (ty : String) : Except String (List Nat) :=
  match ty with
  | "int32" =>
    if -(2 ^ 31) ≤ v ∧ v < 2 ^ 31 then .ok (bytesOfNat 4 (v.emod (2 ^ 32)).toNat)
    else .error packErr
  | "int16" =>
    if -(2 ^ 15) ≤ v ∧ v < 2 ^ 15 then .ok (bytesOfNat 2 (v.emod (2 ^ 16)).toNat)
    else .error packErr
  | "uint32" =>
    if 0 ≤ v ∧ v < 2 ^ 32 then .ok (bytesOfNat 4 v.toNat) else .error packErr
  | "uint16" =>
    if 0 ≤ v ∧ v < 2 ^ 16 then .ok (bytesOfNat 2 v.toNat) else .error packErr
  | "uchar" =>
    if 0 ≤ v ∧ v < 2 ^ 8 then .ok [v.toNat] else .error packErr
  | "float32" =>
    if 0 ≤ v ∧ v < 2 ^ 32 then .ok (bytesOfNat 4 v.toNat) else .error packErr
  | "double" =>
    if 0 ≤ v ∧ v < 2 ^ 64 then .ok (bytesOfNat 8 v.toNat) else .error packErr
  | "char" => .error "struct.error: char format requires a bytes object of length 1"
  | _ => .error "KeyError: unknown data type"

/-- Unpacking at position `|P|` of `P ++ X ++ S` when `X` has exactly
the width of the dtype decodes `X` itself. -/
theorem structUnpack1_middle (P X S : List Nat) (ty : String) (cs : Nat)
    (hlook : dtype2csize.lookup ty = some cs) (hX : X.length = cs) :
    structUnpack1 (P ++ X ++ S) P.length ty = .ok (decodeFixed ty X) := by
  unfold structUnpack1
  simp only [hlook]
  have hle : P.length + cs ≤ (P ++ X ++ S).length := by
    simp [List.length_append]; omega
  rw [if_pos hle]
  have hslice : sliceAt (P ++ X ++ S) P.length cs = X := by
    have := sliceAt_middle P X S 0 cs (by omega)
    rw [Nat.add_zero] at this
    rw [this, ← hX, sliceAt_eq_self]
  rw [hslice]

/-- Signed big-endian roundtrip at any positive width. -/
theorem toSigned_roundtrip (w : Nat) (hw : 1 ≤ w) (v : Int)
    (h1 : -(2 ^ (8 * w - 1)) ≤ v) (h2 : v < 2 ^ (8 * w - 1)) :
    toSigned w (natOfBytes (bytesOfNat w (v.emod (2 ^ (8 * w))).toNat)) = v := by
  have hpow : (256 : Nat) ^ w = 2 ^ (8 * w) := by
    rw [show (256 : Nat) = 2 ^ 8 from rfl, ← pow_mul]
  have hsplit : (2 : Int) ^ (8 * w) = 2 * 2 ^ (8 * w - 1) := by
    rw [← pow_succ']
    congr 1
    omega
  have hm0 : (0 : Int) ≤ v.emod (2 ^ (8 * w)) := Int.emod_nonneg v (by positivity)
  have hmlt : v.emod (2 ^ (8 * w)) < 2 ^ (8 * w) := Int.emod_lt_of_pos v (by positivity)
  have hnat : ((v.emod (2 ^ (8 * w))).toNat : Int) = v.emod (2 ^ (8 * w)) :=
    Int.toNat_of_nonneg hm0
  have hlt256 : (v.emod (2 ^ (8 * w))).toNat < 256 ^ w := by
    rw [hpow]
    have : ((v.emod (2 ^ (8 * w))).toNat : Int) < ((2 ^ (8 * w) : Nat) : Int) := by
      rw [hnat]; push_cast; exact hmlt
    exact_mod_cast this
  rw [natOfBytes_bytesOfNat_of_lt hlt256]
  unfold toSigned
  rcases le_or_lt 0 v with hv | hv
  · have hveq : v.emod (2 ^ (8 * w)) = v := Int.emod_eq_of_lt hv (by omega)
    have hlt : (v.emod (2 ^ (8 * w))).toNat < 2 ^ (8 * w - 1) := by
      have : ((v.emod (2 ^ (8 * w))).toNat : Int) < ((2 ^ (8 * w - 1) : Nat) : Int) := by
        rw [hnat, hveq]; push_cast; exact h2
      exact_mod_cast this
    rw [if_pos hlt, hnat, hveq]
  · have hveq : v.emod (2 ^ (8 * w)) = v + 2 ^ (8 * w) := by
      have hcongr : (v + 2 ^ (8 * w)).emod (2 ^ (8 * w)) = v.emod (2 ^ (8 * w)) := by
        have h5 : (v + 2 ^ (8 * w) * 1).emod (2 ^ (8 * w)) = v.emod (2 ^ (8 * w)) :=
          Int.add_mul_emod_self_left v (2 ^ (8 * w)) 1
        rw [Int.mul_one] at h5
        exact h5
      rw [← hcongr]
      exact Int.emod_eq_of_lt (by omega) (by omega)
    have hge : ¬ (v.emod (2 ^ (8 * w))).toNat < 2 ^ (8 * w - 1) := by
      intro hcon
      have : ((v.emod (2 ^ (8 * w))).toNat : Int) < ((2 ^ (8 * w - 1) : Nat) : Int) := by
        exact_mod_cast hcon
      rw [hnat, hveq] at this
      push_cast at this
      omega
    rw [if_neg hge]
    push_cast [hnat, hveq]
    omega

theorem decode_int32_roundtrip (v : Int) (h1 : -(2 ^ 31) ≤ v) (h2 : v < 2 ^ 31) :
    decodeFixed "int32" (bytesOfNat 4 (v.emod (2 ^ 32)).toNat) = v := by
  unfold decodeFixed
  rw [natOfBytes_bytesOfNat]
  have := toSigned_roundtrip 4 (by norm_num) v (by norm_num; omega) (by norm_num; omega)
  rw [natOfBytes_bytesOfNat] at this
  simpa using this

theorem decode_int16_roundtrip (v : Int) (h1 : -(2 ^ 15) ≤ v) (h2 : v < 2 ^ 15) :
    decodeFixed "int16" (bytesOfNat 2 (v.emod (2 ^ 16)).toNat) = v := by
  unfold decodeFixed
  rw [natOfBytes_bytesOfNat]
  have := toSigned_roundtrip 2 (by norm_num) v (by norm_num; omega) (by norm_num; omega)
  rw [natOfBytes_bytesOfNat] at this
  simpa using this

theorem decode_uint16_roundtrip (v : Int) (h1 : 0 ≤ v) (h2 : v < 2 ^ 16) :
    decodeFixed "uint16" (bytesOfNat 2 v.toNat) = v := by
  show ((natOfBytes (bytesOfNat 2 v.toNat) : Nat) : Int) = v
  rw [natOfBytes_bytesOfNat_of_lt (by omega : v.toNat < 256 ^ 2)]
  omega

theorem decode_float32_roundtrip (v : Int) (h1 : 0 ≤ v) (h2 : v < 2 ^ 32) :
    decodeFixed "float32" (bytesOfNat 4 v.toNat) = v := by
  show ((natOfBytes (bytesOfNat 4 v.toNat) : Nat) : Int) = v
  rw [natOfBytes_bytesOfNat_of_lt (by omega : v.toNat < 256 ^ 4)]
  omega

theorem decode_uchar_roundtrip (v : Int) (h1 : 0 ≤ v) (h2 : v < 2 ^ 8) :
    decodeFixed "uchar" [v.toNat] = v := by
  show ((natOfBytes [v.toNat] : Nat) : Int) = v
  unfold natOfBytes
  simp only [List.foldl_cons, List.foldl_nil, Nat.zero_mul, Nat.zero_add]
  omega

/-! ## Python dictionaries

Header dictionaries (`SH`) are association lists; `dictSet` models
`d[k] = v` by shadowing (lookup-equivalent to the Python dict), and
`dictGet` models `d[k]` where every modelled access is to a present
key. -/

def dictGet (d : List (String × Int)) (k : String) : Int :=
  (d.lookup k).getD 0

def dictSet (d : List (String × Int)) (k : String) (v : Int) : List (String × Int) :=
  (k, v) :: d

@[simp] theorem dictGet_dictSet_same (d : List (String × Int)) (k : String) (v : Int) :
    dictGet (dictSet d k v) k = v := by
  simp [dictGet, dictSet, List.lookup]

theorem dictGet_dictSet_ne (d : List (String × Int)) (k k2 : String) (v : Int)
    (h : k2 ≠ k) : dictGet (dictSet d k v) k2 = dictGet d k2 := by
  simp [dictGet, dictSet, List.lookup, beq_eq_false_iff_ne.mpr h.symm]
  rcases h2 : (k2 == k) with _ | _
  · rfl
  · exact absurd (beq_iff_eq.mp h2) h

/-! ## Byte-count constants (segypy.py:50-55) -/

def bytes_STFH : Nat := 3200
def bytes_SBFH : Nat := 400
def bytes_SFH : Nat := 3600
def bytes_STH : Nat := 240

/-- 100 million samples per block for unpack (segypy.py:55). -/
def nspb : Nat := 100000000

/-! ## The header schemas (segypy.py:57-341)

One descriptor per schema entry.  `dflt` is the `"def"` key (absent
entries of `STH_def` use the structure default `0`, matching
`getDefaultSegyHeader`, which substitutes `0` when `"def"` is
missing); `rep` is the `"n"` key, which no code path ever reads
except as documentation.  The enumeration description tables
(`descr`) of individual trace-header fields are not consulted by any
modelled operation and are omitted; the `DataSampleFormat`
`descr`/`bps`/`datatype` tables, which the codec does consult, are
`dsfDescr`/`dsfBps`/`dsfDatatype` below. -/

structure FieldDef where
  name : String
  pos : Nat
  ty : String
  dflt : Int := 0
  rep : Nat := 1
  deriving Repr, DecidableEq

def SH_def : List FieldDef :=
  [{ name := "Job", pos := 3200, ty := "int32" },
   { name := "Line", pos := 3204, ty := "int32" },
   { name := "Reel", pos := 3208, ty := "int32" },
   { name := "DataTracePerEnsemble", pos := 3212, ty := "int16" },
   { name := "AuxiliaryTracePerEnsemble", pos := 3214, ty := "int16" },
   { name := "dt", pos := 3216, ty := "uint16", dflt := 1000 },
   { name := "dtOrig", pos := 3218, ty := "uint16" },
   { name := "ns", pos := 3220, ty := "uint16" },
   { name := "nsOrig", pos := 3222, ty := "uint16" },
   { name := "DataSampleFormat", pos := 3224, ty := "int16", dflt := 5 },
   { name := "EnsembleFold", pos := 3226, ty := "int16" },
   { name := "TraceSorting", pos := 3228, ty := "int16" },
   { name := "VerticalSumCode", pos := 3230, ty := "int16" },
   { name := "SweepFrequencyEnd", pos := 3234, ty := "int16" },
   { name := "SweepLength", pos := 3236, ty := "int16" },
   { name := "SweepType", pos := 3238, ty := "int16" },
   { name := "SweepChannel", pos := 3240, ty := "int16" },
   { name := "SweepTaperlengthStart", pos := 3242, ty := "int16" },
   { name := "SweepTaperLengthEnd", pos := 3244, ty := "int16" },
   { name := "TaperType", pos := 3246, ty := "int16" },
   { name := "CorrelatedDataTraces", pos := 3248, ty := "int16" },
   { name := "BinaryGain", pos := 3250, ty := "int16" },
   { name := "AmplitudeRecoveryMethod", pos := 3252, ty := "int16" },
   { name := "MeasurementSystem", pos := 3254, ty := "int16" },
   { name := "ImpulseSignalPolarity", pos := 3256, ty := "int16" },
   { name := "VibratoryPolarityCode", pos := 3258, ty := "int16" },
   { name := "Unassigned1", pos := 3260, ty := "int16", rep := 120 },
   { name := "SegyFormatRevisionNumber", pos := 3500, ty := "uint16", dflt := 100 },
   { name := "FixedLengthTraceFlag", pos := 3502, ty := "uint16" },
   { name := "NumberOfExtTextualHeaders", pos := 3504, ty := "uint16" },
   { name := "Unassigned2", pos := 3506, ty := "int16", rep := 47 }]

/-- `SH_def["DataSampleFormat"]["descr"]` (segypy.py:69-81). -/
def dsfDescr : List (Int × List (Int × String)) :=
  [(0, [(1, "IBM Float"),
        (2, "32 bit Integer"),
        (3, "16 bit Integer"),
        (8, "8 bit Integer")]),
   (1, [(1, "4-byte IBM floating point"),
        (2, "4-byte, twos complement integer"),
        (3, "2-byte, twos complement integer"),
        (4, "4-byte, fixed-point with gain (obsolete)"),
        (5, "4-byte IEEE floating point"),
        (8, "1-byte Integer")])]

/-- `SH_def["DataSampleFormat"]["bps"]` (segypy.py:83-94). -/
def dsfBps : List (Int × List (Int × Nat)) :=
  [(0, [(1, 4), (2, 4), (3, 2), (8, 1)]),
   (1, [(1, 4), (2, 4), (3, 2), (5, 4), (8, 1)])]

/-- `SH_def["DataSampleFormat"]["datatype"]` (segypy.py:96-107). -/
def dsfDatatype : List (Int × List (Int × String)) :=
  [(0, [(1, "ibm"), (2, "int32"), (3, "int16"), (8, "uchar")]),
   (1, [(1, "ibm"), (2, "int32"), (3, "int16"), (5, "float32"), (8, "uchar")])]

/-- Two-level dictionary access `table[r][c]` with `KeyError` failure. -/
def lookup2 {α : Type} (t : List (Int × List (Int × α))) (r c : Int) :
    Except String α :=
  match t.lookup r with
  | none => .error "KeyError: revision"
  | some row =>
    match row.lookup c with
    | none => .error "KeyError: data sample format"
    | some v => .ok v

set_option maxHeartbeats 2000000 in
def STH_def : List FieldDef :=
  [{ name := "TraceSequenceLine", pos := 0, ty := "int32" },
   { name := "TraceSequenceFile", pos := 4, ty := "int32" },
   { name := "FieldRecord", pos := 8, ty := "int32" },
   { name := "TraceNumber", pos := 12, ty := "int32" },
   { name := "EnergySourcePoint", pos := 16, ty := "int32" },
   { name := "cdp", pos := 20, ty := "int32" },
   { name := "cdpTrace", pos := 24, ty := "int32" },
   { name := "TraceIdenitifactionCode", pos := 28, ty := "uint16" },
   { name := "NSummedTraces", pos := 30, ty := "int16" },
   { name := "NStackedTraces", pos := 32, ty := "int16" },
   { name := "DataUse", pos := 34, ty := "int16" },
   { name := "offset", pos := 36, ty := "int32" },
   { name := "ReceiverGroupElevation", pos := 40, ty := "int32" },
   { name := "SourceSurfaceElevation", pos := 44, ty := "int32" },
   { name := "SourceDepth", pos := 48, ty := "int32" },
   { name := "ReceiverDatumElevation", pos := 52, ty := "int32" },
   { name := "SourceDatumElevation", pos := 56, ty := "int32" },
   { name := "SourceWaterDepth", pos := 60, ty := "int32" },
   { name := "GroupWaterDepth", pos := 64, ty := "int32" },
   { name := "ElevationScalar", pos := 68, ty := "int16" },
   { name := "SourceGroupScalar", pos := 70, ty := "int16" },
   { name := "SourceX", pos := 72, ty := "int32" },
   { name := "SourceY", pos := 76, ty := "int32" },
   { name := "GroupX", pos := 80, ty := "int32" },
   { name := "GroupY", pos := 84, ty := "int32" },
   { name := "CoordinateUnits", pos := 88, ty := "int16" },
   { name := "WeatheringVelocity", pos := 90, ty := "int16" },
   { name := "SubWeatheringVelocity", pos := 92, ty := "int16" },
   { name := "SourceUpholeTime", pos := 94, ty := "int16" },
   { name := "GroupUpholeTime", pos := 96, ty := "int16" },
   { name := "SourceStaticCorrection", pos := 98, ty := "int16" },
   { name := "GroupStaticCorrection", pos := 100, ty := "int16" },
   { name := "TotalStaticApplied", pos := 102, ty := "int16" },
   { name := "LagTimeA", pos := 104, ty := "int16" },
   { name := "LagTimeB", pos := 106, ty := "int16" },
   { name := "DelayRecordingTime", pos := 108, ty := "int16" },
   { name := "MuteTimeStart", pos := 110, ty := "int16" },
   { name := "MuteTimeEND", pos := 112, ty := "int16" },
   { name := "ns", pos := 114, ty := "uint16" },
   { name := "dt", pos := 116, ty := "uint16" },
   { name := "GainType", pos := 119, ty := "int16" },
   { name := "InstrumentGainConstant", pos := 120, ty := "int16" },
   { name := "InstrumentInitialGain", pos := 122, ty := "int16" },
   { name := "Correlated", pos := 124, ty := "int16" },
   { name := "SweepFrequenceStart", pos := 126, ty := "int16" },
   { name := "SweepFrequenceEnd", pos := 128, ty := "int16" },
   { name := "SweepLength", pos := 130, ty := "int16" },
   { name := "SweepType", pos := 132, ty := "int16" },
   { name := "SweepTraceTaperLengthStart", pos := 134, ty := "int16" },
   { name := "SweepTraceTaperLengthEnd", pos := 136, ty := "int16" },
   { name := "TaperType", pos := 138, ty := "int16" },
   { name := "AliasFilterFrequency", pos := 140, ty := "int16" },
   { name := "AliasFilterSlope", pos := 142, ty := "int16" },
   { name := "NotchFilterFrequency", pos := 144, ty := "int16" },
   { name := "NotchFilterSlope", pos := 146, ty := "int16" },
   { name := "LowCutFrequency", pos := 148, ty := "int16" },
   { name := "HighCutFrequency", pos := 150, ty := "int16" },
   { name := "LowCutSlope", pos := 152, ty := "int16" },
   { name := "HighCutSlope", pos := 154, ty := "int16" },
   { name := "YearDataRecorded", pos := 156, ty := "int16" },
   { name := "DayOfYear", pos := 158, ty := "int16" },
   { name := "HourOfDay", pos := 160, ty := "int16" },
   { name := "MinuteOfHour", pos := 162, ty := "int16" },
   { name := "SecondOfMinute", pos := 164, ty := "int16" },
   { name := "TimeBaseCode", pos := 166, ty := "int16" },
   { name := "TraceWeightningFactor", pos := 168, ty := "int16" },
   { name := "GeophoneGroupNumberRoll1", pos := 170, ty := "int16" },
   { name := "GeophoneGroupNumberFirstTraceOrigField", pos := 172, ty := "int16" },
   { name := "GeophoneGroupNumberLastTraceOrigField", pos := 174, ty := "int16" },
   { name := "GapSize", pos := 176, ty := "int16" },
   { name := "OverTravel", pos := 178, ty := "int16" },
   { name := "cdpX", pos := 180, ty := "int32" },
   { name := "cdpY", pos := 184, ty := "int32" },
   { name := "Inline3D", pos := 188, ty := "int32" },
   { name := "Crossline3D", pos := 192, ty := "int32" },
   { name := "ShotPoint", pos := 192, ty := "int32" },
   { name := "ShotPointScalar", pos := 200, ty := "int16" },
   { name := "TraceValueMeasurementUnit", pos := 202, ty := "int16" },
   { name := "TransductionConstantMantissa", pos := 204, ty := "int32" },
   { name := "TransductionConstantPower", pos := 208, ty := "int16" },
   { name := "TransductionUnit", pos := 210, ty := "int16" },
   { name := "TraceIdentifier", pos := 212, ty := "int16" },
   { name := "ScalarTraceHeader", pos := 214, ty := "int16" },
   { name := "SourceType", pos := 216, ty := "int16" },
   { name := "SourceEnergyDirectionMantissa", pos := 218, ty := "int32" },
   { name := "SourceEnergyDirectionExponent", pos := 222, ty := "int16" },
   { name := "SourceMeasurementMantissa", pos := 224, ty := "int32" },
   { name := "SourceMeasurementExponent", pos := 228, ty := "int16" },
   { name := "SourceMeasurementUnit", pos := 230, ty := "int16" },
   { name := "UnassignedInt1", pos := 232, ty := "int32" },
   { name := "UnassignedInt2", pos := 236, ty := "int32" }]

/-! ## The legacy IBM float decoder (segypy.py:797-814) -/

/-- `ibm2ieee`.  The argument is the 4-byte slice passed by `getValue`.
The source guard `if ibm_float == 0: return 0.0` compares a Python 3
`bytes` object with the integer `0`, which is always `False`, so the
guard is dead code and every input goes through `struct.unpack` and the
formula; a slice shorter than 4 bytes makes `struct.unpack` raise.
Python float arithmetic is exact for every reachable value of the
formula (a 24-bit mantissa scaled by a power of two), so the value is
computed in `ℚ`. -/
def ibm2ieeeVal (b : List Nat) : ℚ :=
  let istic := b.getD 0 0
  let a := b.getD 1 0
  let b2 := b.getD 2 0
  let c := b.getD 3 0
  let sign : ℚ := if 128 ≤ istic then -1 else 1
  let istic2 : Nat := if 128 ≤ istic then istic - 128 else istic
  let mant : ℚ := ((a * 2 ^ 16 + b2 * 2 ^ 8 + c : Nat) : ℚ)
  sign * (16 : ℚ) ^ ((istic2 : Int) - 64) * (mant / 16 ^ 6)

def ibm2ieee (b : List Nat) : Except String ℚ :=
  if b.length = 4 then .ok (ibm2ieeeVal b)
  else .error structErr

/-! ## Revision resolution (segypy.py:826-851) -/

def revErr : String := "ValueError: Unknown revno number"

/-- `getRevisionNumber(SH)`: raw codes 0, 100, 1 and 256 all normalize
to revision 1, anything else raises `ValueError`. -/
def getRevisionNumber (SH : List (String × Int)) : Except String Int :=
  let raw := dictGet SH "SegyFormatRevisionNumber"
  if raw = 0 then .ok 1
  else if raw = 100 then .ok 1
  else if raw = 1 then .ok 1
  else if raw = 256 then .ok 1
  else .error revErr

/-- `getBytePerSample(SH)` (segypy.py:816-824). -/
def getBytePerSample (SH : List (String × Int)) : Except String Nat := do
  let revno ← getRevisionNumber SH
  lookup2 dsfBps revno (dictGet SH "DataSampleFormat")

/-! ## IEEE-754 single-precision rounding

`getValue` stores decoded legacy floats into a `float32` numpy array,
and `struct.pack` with format `f` narrows a Python float (a double)
to single precision.  Both are round-to-nearest, ties-to-even.  The
functions below implement that rounding on exact rational values /
bit patterns. -/

/-- Round a non-negative rational to the nearest integer, ties to even. -/
def roundHalfEven (q : ℚ) : Nat :=
  let f : Int := ⌊q⌋
  let r : ℚ := q - (f : ℚ)
  if 1 / 2 < r then (f + 1).toNat
  else if r < 1 / 2 then f.toNat
  else if f % 2 = 0 then f.toNat else (f + 1).toNat

/-- `⌊log₂ q⌋` for positive rationals not smaller than `2^-300`
(smaller values only ever reach the flush-to-subnormal branch, where
any exponent below `-300` acts the same). -/
def ratLog2Floor (q : ℚ) : Int :=
  (Nat.log2 (q.num.toNat * 2 ^ 300 / q.den) : Int) - 300

/-- The IEEE-754 binary32 bit pattern nearest a rational value
(ties to even); overflow gives the infinity pattern, as in a C
`double`-to-`float` cast. -/
def f32bitsOfRat (q : ℚ) : Nat :=
  if q = 0 then 0
  else
    let s : Nat := if q < 0 then 1 else 0
    let a : ℚ := |q|
    let e : Int := ratLog2Floor a
    if -126 ≤ e then
      let sig := roundHalfEven (a * (2 : ℚ) ^ (23 - e))
      let e2 : Int := if sig = 2 ^ 24 then e + 1 else e
      let sig2 : Nat := if sig = 2 ^ 24 then 2 ^ 23 else sig
      if 127 < e2 then s * 2 ^ 31 + 255 * 2 ^ 23
      else s * 2 ^ 31 + (e2 + 127).toNat * 2 ^ 23 + (sig2 - 2 ^ 23)
    else
      let sig := roundHalfEven (a * (2 : ℚ) ^ (149 : Nat))
      s * 2 ^ 31 + sig

/-- Exact value of a finite IEEE-754 binary64 bit pattern. -/
def f64RatOfBits (b : Nat) : ℚ :=
  let s : Nat := b / 2 ^ 63
  let e : Nat := b / 2 ^ 52 % 2 ^ 11
  let m : Nat := b % 2 ^ 52
  let mag : ℚ :=
    if e = 0 then (m : ℚ) * (2 : ℚ) ^ (-(1074 : Int))
    else ((2 ^ 52 + m : Nat) : ℚ) * (2 : ℚ) ^ ((e : Int) - 1075)
  if s = 1 then -mag else mag

def overflowF : String := "OverflowError: float too large to pack with f format"

/-- `struct.pack(">f", x)` where `x` is a double with bit pattern `b`,
returning the bit pattern of the packed single (CPython
`_PyFloat_Pack4`): round to nearest/even; infinities and NaNs pack to
single-precision infinities/NaNs; a finite double that overflows
single precision raises `OverflowError`. -/
def f32ofF64 (b : Int) : Except String Int :=
  if b < 0 ∨ (2 : Int) ^ 64 ≤ b then
    .error "ValueError: not a float64 bit pattern"
  else
    let n : Nat := b.toNat
    let s : Nat := n / 2 ^ 63
    let e : Nat := n / 2 ^ 52 % 2 ^ 11
    let m : Nat := n % 2 ^ 52
    if e = 2047 then
      if m = 0 then .ok ((s * 2 ^ 31 + 255 * 2 ^ 23 : Nat) : Int)
      else .ok ((s * 2 ^ 31 + 255 * 2 ^ 23 + 2 ^ 22 : Nat) : Int)
    else
      let p := f32bitsOfRat (f64RatOfBits n)
      if p % 2 ^ 31 = 255 * 2 ^ 23 then .error overflowF
      else .ok (p : Int)

/-! ## Vector decode: `getValue` with `number > 1` (segypy.py:750-795) -/

/-- The Python slice `data[i : i + n]` (truncating at the end). -/
def pySlice (d : List Nat) (i n : Nat) : List Nat :=
  (d.drop i).take n

/-- Decode `n` consecutive scalars starting at byte `i`; elementwise
equivalent of `struct.unpack(endian + ctype * n, data[i : i + n * cs])`,
with the same failure condition (the Python slice is short exactly
when the last element here reads out of bounds, and either way the
whole call fails). -/
def unpackSeqGo (d : List Nat) (ty : String) (cs : Nat) : Nat → Nat → Except String (List Int)
  | _, 0 => .ok []
  | i, n + 1 => do
    let v ← structUnpack1 d i ty
    let vs ← unpackSeqGo d ty cs (i + cs) n
    .ok (v :: vs)

def unpackSeq (d : List Nat) (i : Nat) (ty : String) (n : Nat) : Except String (List Int) :=
  match dtype2csize.lookup ty with
  | none => .error "KeyError: unknown data type"
  | some cs => unpackSeqGo d ty cs i n

/-- The block loop of `getValue` (segypy.py:777-790): `nblock - 1`
full blocks of `nspb` samples, then a final block of `number % nspb`
samples. -/
def unpackBlocks (d : List Nat) (ty : String) (cs : Nat) :
    Nat → Nat → Nat → Except String (List Int)
  | i, 0, rem => unpackSeqGo d ty cs i rem
  | i, f + 1, rem => do
    let v ← unpackSeqGo d ty cs i nspb
    let vs ← unpackBlocks d ty cs (i + nspb * cs) f rem
    .ok (v ++ vs)

/-- Which of the module's dtype strings `numpy` accepts as a dtype
name.  `np.empty(number, dtype=dtype)` at segypy.py:769 parses the
string with `np.dtype`; `int32`, `uint32`, `int16`, `uint16`,
`float32` and `double` are valid numpy dtype names, while `char` and
`uchar` are C-style names that numpy does not recognise and rejects
with `TypeError: data type not understood`. -/
def npValidDtype (ty : String) : Bool :=
  ty = "int32" || ty = "uint32" || ty = "int16" || ty = "uint16"
    || ty = "float32" || ty = "double"

/-- The `TypeError` raised by `np.dtype` on an unknown dtype name. -/
def npDtypeErr (ty : String) : String :=
  "TypeError: data type " ++ ty ++ " not understood"

/-- `getValue(data, index, dtype, endian, number)` for a vector.
For the legacy `ibm` dtype the loop at segypy.py:762-764 slices four
bytes per element, converts through `ibm2ieee` and stores the result
into a `float32` numpy array (rounding the exact value to single
precision).  Every other dtype looks up `dtype2ctype`/`dtype2csize`,
allocates `Value = np.empty(number, dtype=dtype)` (segypy.py:769) —
which raises `TypeError` when the dtype string, such as `uchar`, is
not a numpy dtype name — and then goes through `struct` in blocks of
`nspb`. -/
def getValueVec (d : List Nat) (i : Nat) (ty : String) (n : Nat) : Except String (List Int) :=
  if ty = "ibm" then
    (List.range n).mapM (fun k => do
      let q ← ibm2ieee (pySlice d (i + k * 4) 4)
      pure ((f32bitsOfRat q : Nat) : Int))
  else
    match dtype2csize.lookup ty with
    | none => .error "KeyError: unknown data type"
    | some cs =>
      if npValidDtype ty then unpackBlocks d ty cs i (n / nspb) (n % nspb)
      else .error (npDtypeErr ty)

@[simp] theorem ok_bind {α β : Type} (v : α) (f : α → Except String β) :
    (Except.ok v >>= f) = f v := rfl

@[simp] theorem error_bind {α β : Type} (e : String) (f : α → Except String β) :
    ((Except.error e : Except String α) >>= f) = Except.error e := rfl

@[simp] theorem pure_eq_ok {α : Type} (v : α) :
    (pure v : Except String α) = Except.ok v := rfl

theorem unpackSeqGo_split (d : List Nat) (ty : String) (cs : Nat) (i a b : Nat) :
    unpackSeqGo d ty cs i (a + b) = (do
      let x ← unpackSeqGo d ty cs i a
      let y ← unpackSeqGo d ty cs (i + a * cs) b
      pure (x ++ y)) := by
  have hstep : ∀ j m, unpackSeqGo d ty cs j (m + 1) = (do
      let v ← structUnpack1 d j ty
      let vs ← unpackSeqGo d ty cs (j + cs) m
      pure (v :: vs)) := fun j m => rfl
  induction a generalizing i with
  | zero =>
    show unpackSeqGo d ty cs i (0 + b) = _
    rw [Nat.zero_add, show unpackSeqGo d ty cs i 0 = .ok [] from rfl]
    simp only [ok_bind, Nat.zero_mul, Nat.add_zero]
    cases h : unpackSeqGo d ty cs i b <;> simp [h]
  | succ a ih =>
    have harith : i + cs + a * cs = i + (a + 1) * cs := by ring
    rw [show a + 1 + b = (a + b) + 1 from by ring]
    rw [hstep i (a + b), hstep i a]
    cases h : structUnpack1 d i ty with
    | error e => simp [h]
    | ok v =>
      simp only [h, ok_bind, pure_eq_ok]
      rw [ih (i + cs)]
      cases h2 : unpackSeqGo d ty cs (i + cs) a with
      | error e => simp [h2]
      | ok x =>
        simp only [h2, ok_bind, pure_eq_ok]
        rw [harith]
        cases h3 : unpackSeqGo d ty cs (i + (a + 1) * cs) b <;> simp [h3]

theorem unpackBlocks_eq (d : List Nat) (ty : String) (cs : Nat) (i f rem : Nat) :
    unpackBlocks d ty cs i f rem = unpackSeqGo d ty cs i (f * nspb + rem) := by
  induction f generalizing i with
  | zero => simp [unpackBlocks]
  | succ f ih =>
    unfold unpackBlocks
    rw [ih (i + nspb * cs)]
    rw [show (f + 1) * nspb + rem = nspb + (f * nspb + rem) from by ring]
    rw [unpackSeqGo_split d ty cs i nspb (f * nspb + rem)]
    rw [show i + nspb * cs = i + cs * nspb from by ring]
    cases h : unpackSeqGo d ty cs i nspb with
    | error e => simp [h]
    | ok v =>
      simp only [h, ok_bind]
      rw [show cs * nspb = nspb * cs from by ring]
      cases h2 : unpackSeqGo d ty cs (i + nspb * cs) (f * nspb + rem) <;> simp [h2]

/-- For a dtype string numpy accepts, the block loop decodes the same
vector as one flat decode. -/
theorem getValueVec_eq_unpackSeq (d : List Nat) (i : Nat) (ty : String) (n : Nat)
    (hty : ty ≠ "ibm") (hnp : npValidDtype ty = true) :
    getValueVec d i ty n = unpackSeq d i ty n := by
  unfold getValueVec unpackSeq
  rw [if_neg hty]
  cases h : dtype2csize.lookup ty with
  | none => rfl
  | some cs =>
    show (if npValidDtype ty then unpackBlocks d ty cs i (n / nspb) (n % nspb)
        else .error (npDtypeErr ty)) = unpackSeqGo d ty cs i n
    rw [if_pos hnp, unpackBlocks_eq]
    congr 1
    rw [Nat.mul_comm]
    exact Nat.div_add_mod n nspb

/-- The `uchar` dtype string is rejected by `np.empty` before any
sample is decoded. -/
theorem getValueVec_uchar_err (d : List Nat) (i n : Nat) :
    getValueVec d i "uchar" n = .error (npDtypeErr "uchar") := rfl

/-- An in-bounds vector decode succeeds and yields one `decodeFixed`
per element. -/
theorem unpackSeqGo_eq_map {ty : String} {cs : Nat}
    (hlook : dtype2csize.lookup ty = some cs) (d : List Nat) :
    ∀ (n i : Nat), i + n * cs ≤ d.length →
    unpackSeqGo d ty cs i n =
      .ok ((List.range n).map (fun k => decodeFixed ty (sliceAt d (i + k * cs) cs))) := by
  intro n
  induction n with
  | zero => intro i _; simp [unpackSeqGo]
  | succ n ih =>
    intro i h
    have hcs : i + cs ≤ d.length := by
      have : (n + 1) * cs = n * cs + cs := by ring
      omega
    have h1 : structUnpack1 d i ty = .ok (decodeFixed ty (sliceAt d i cs)) := by
      unfold structUnpack1
      simp only [hlook]
      rw [if_pos hcs]
    have h2 : (i + cs) + n * cs ≤ d.length := by
      have : (n + 1) * cs = n * cs + cs := by ring
      omega
    have hstep : unpackSeqGo d ty cs i (n + 1) = (do
        let v ← structUnpack1 d i ty
        let vs ← unpackSeqGo d ty cs (i + cs) n
        pure (v :: vs)) := rfl
    rw [hstep, h1, ih (i + cs) h2]
    simp only [ok_bind, pure_eq_ok, List.range_succ_eq_map, List.map_cons, List.map_map]
    rw [Nat.zero_mul, Nat.add_zero]
    have hcong :
        List.map ((fun k => decodeFixed ty (sliceAt d (i + k * cs) cs)) ∘ Nat.succ)
            (List.range n) =
          List.map (fun k => decodeFixed ty (sliceAt d (i + cs + k * cs) cs))
            (List.range n) := by
      apply List.map_congr_left
      intro k _
      simp only [Function.comp_apply]
      congr 2
      show i + (k + 1) * cs = i + cs + k * cs
      ring
    rw [hcong]

/-! ## Trace-header values

`getSegyTraceHeader` (segypy.py:470-508) returns either a numpy array
(one value per trace, `itrace = 0`) or a single numpy scalar
(`itrace ≥ 1`). -/

inductive THVal where
  | arr : List Int → THVal
  | scalar : Int → THVal
  deriving Repr, DecidableEq

/-- `getSegyHeader` (segypy.py:609-630) on an in-memory buffer: decode
every `SH_def` field at its declared position, then derive `ntraces`
from the buffer length.  The `filename` entry is a string, never read
by the codec, and is omitted from the integer-valued dictionary.
`int(x)` on the CPython float quotient truncates toward zero, which is
`Int.div`; a zero `traceByteSize` is unreachable (`ns ≥ 0` and
`bps ≥ 1` give `traceByteSize ≥ 240`). -/
def getSegyHeaderSH (data : List Nat) : Except String (List (String × Int)) := do
  let fields ← SH_def.mapM (fun e => do
    let v ← structUnpack1 data e.pos e.ty
    pure (e.name, v))
  let bps ← getBytePerSample fields
  let ns := dictGet fields "ns"
  let traceByteSize : Int := (bytes_STH : Int) + ns * (bps : Int)
  let ntraces : Int := Int.tdiv ((data.length : Int) - (bytes_SFH : Int)) traceByteSize
  pure (dictSet fields "ntraces" ntraces)

/-- `getSegyTraceHeader(SH, data, TH_name, TH_dict, itrace)`
(segypy.py:470-508) for the schema entry `e`.  With `itrace = 0` it
decodes the field for every trace into an array; with a 1-based
`itrace` it decodes one scalar.  For the field `"dt"` the source then
evaluates `TH_value[0]`: on the array that is the first element (an
`IndexError` when there are zero traces); on a numpy scalar
subscripting raises `IndexError: invalid index to scalar variable`.
When the first decoded `dt` is zero, `TH_value[:] = SH["dt"]`
broadcasts the file-level `dt` into the `uint16` array (the
assignment casts modulo `2^16`). -/
def getSegyTraceHeader (SH : List (String × Int)) (data : List Nat) (e : FieldDef)
    (itrace : Nat) : Except String THVal := do
  let ntraces : Nat := (dictGet SH "ntraces").toNat
  let ns := dictGet SH "ns"
  let bps ← getBytePerSample SH
  let traceByteSize : Nat := bytes_STH + ns.toNat * bps
  let v ← (if itrace = 0 then do
      let vals ← (List.range ntraces).mapM (fun j =>
        structUnpack1 data (bytes_SFH + traceByteSize * j + e.pos) e.ty)
      pure (THVal.arr vals)
    else do
      let x ← structUnpack1 data (bytes_SFH + traceByteSize * (itrace - 1) + e.pos) e.ty
      pure (THVal.scalar x))
  if e.name = "dt" then
    match v with
    | .scalar _ => .error "IndexError: invalid index to scalar variable"
    | .arr [] => .error "IndexError: index 0 is out of bounds"
    | .arr (x :: xs) =>
      if x = 0 then pure (THVal.arr (List.replicate ntraces ((dictGet SH "dt").emod (2 ^ 16))))
      else pure (THVal.arr (x :: xs))
  else pure v

/-- `getSegyTraceHeaders` (segypy.py:510-529) with the default
`TH_dict = None`, i.e. over all of `STH_def`. -/
def getSegyTraceHeaders (SH : List (String × Int)) (data : List Nat) (itrace : Nat) :
    Except String (List (String × THVal)) :=
  STH_def.mapM (fun e => do
    let v ← getSegyTraceHeader SH data e itrace
    pure (e.name, v))

/-- `np.reshape(flat, (r, c))` — fails unless the sizes match exactly.
A negative first dimension other than `-1` is rejected by numpy, and
`-1` is unreachable here (see `getSegyHeaderSH`). -/
def chunkList : Nat → Nat → List Int → List (List Int)
  | 0, _, _ => []
  | r + 1, c, l => l.take c :: chunkList r c (l.drop c)

def npReshape (l : List Int) (r : Int) (c : Nat) : Except String (List (List Int)) :=
  if 0 ≤ r ∧ l.length = r.toNat * c then .ok (chunkList r.toNat c l)
  else .error "ValueError: cannot reshape array"

/-- `Data[Data > 128] -= 256` on the decoded unsigned 8-bit array
(segypy.py:584).  Under value-based numpy casting the in-place
subtraction is computed in a wider type and cast back into the
unsigned `uint8` array, i.e. reduced modulo `2^8`, which leaves every
stored value unchanged; NEP-50 numpy instead raises `OverflowError`.
Under no numpy semantics does a stored value become negative.  The
line is in fact unreachable: the format-8 decode aborts earlier when
`np.empty` rejects the dtype string `uchar` (see `getValueVec`). -/
def ucharAdjust (v : Int) : Int :=
  if 128 < v then (v - 256).emod 256 else v

/-- The decoded result of `readSegy`: the traces-by-samples grid, the
binary file header dictionary and the trace-header dictionary. -/
structure SegyRead where
  data2d : List (List Int)
  SH : List (String × Int)
  STH : List (String × THVal)
  deriving Repr

/-- `readSegy(filename)` (segypy.py:531-586) with `TH_only = False`
on an in-memory buffer.  For data-sample-format 8 the table supplies
the dtype string `"uchar"`, which `np.empty` inside `getValue`
rejects with `TypeError` before any sample is decoded (see
`getValueVec`); the post-processing at segypy.py:583-584 is therefore
unreachable for that format.  `np.empty` with a negative element
count raises inside `getValue`, modelled by the explicit `nd < 0`
check. -/
def readSegy (data : List Nat) : Except String SegyRead := do
  let SH ← getSegyHeaderSH data
  let STH ← getSegyTraceHeaders SH data 0
  let bps ← getBytePerSample SH
  let ndummy : Nat := bytes_STH / bps
  let nd : Int := Int.tdiv ((data.length : Int) - (bytes_SFH : Int)) (bps : Int)
  let revno ← getRevisionNumber SH
  let dsf := dictGet SH "DataSampleFormat"
  let _DataDescr ← lookup2 dsfDescr revno dsf
  let dtype ← lookup2 dsfDatatype revno dsf
  if nd < 0 then .error "ValueError: negative dimensions are not allowed"
  else do
    let flat ← getValueVec data bytes_SFH dtype nd.toNat
    let ntraces := dictGet SH "ntraces"
    let nsDummyTrace : Nat := (dictGet SH "ns").toNat + ndummy
    let data2 ← npReshape flat ntraces nsDummyTrace
    let rows := data2.map (fun row => row.drop ndummy)
    let rows2 := if dsf = 8 then rows.map (fun row => row.map ucharAdjust) else rows
    pure ⟨rows2, SH, STH⟩

/-! ## The write path (segypy.py:632-748) -/

/-- The numpy element dtypes an input array can have.  Integer-dtyped
arrays hold integers of the dtype range; `float32`/`float64` arrays
are modelled by bit patterns (see the header comment). -/
inductive NpDtype where
  | int8 | int16 | int32 | int64
  | uint8 | uint16 | uint32
  | float32 | float64
  deriving Repr, DecidableEq

/-- A 2-D numpy array as `writeSegy` receives it: shape
`(ns, ntraces)`, stored here as the list of its `ntraces` columns
`Data[:, 0], Data[:, 1], ...` (each of length `ns` — numpy arrays are
rectangular by construction), which is exactly how
`writeSegyStructure` traverses it. -/
structure NpGrid where
  dtype : NpDtype
  ns : Nat
  cols : List (List Int)
  deriving Repr

def typeErr : String := "TypeError: Cannot handle data type"

/-- `getDSF_fromDataType(Data)` (segypy.py:398-419).  The `float64`
branch emits a (non-fatal) downcast warning and rebinds the *local*
`Data` to a `float32` copy — the caller's array keeps dtype
`float64` — so the function then selects code 5. -/
def getDSF_fromDataType (dty : NpDtype) : Except String Int :=
  let dty2 := if dty = NpDtype.float64 then NpDtype.float32 else dty
  if dty2 = NpDtype.int32 then .ok 2
  else if dty2 = NpDtype.int16 then .ok 3
  else if dty2 = NpDtype.float32 then .ok 5
  else if dty2 = NpDtype.int8 then .ok 8
  else .error typeErr

/-- `getDefaultSegyHeader()` (segypy.py:383-396): every `SH_def` key
at its `"def"` value (`0` when absent). -/
def getDefaultSegyHeader : List (String × Int) :=
  SH_def.map (fun e => (e.name, e.dflt))

/-- `setSegyHeaders(SH, ntraces, ns, dt, dsf)` (segypy.py:421-438). -/
def setSegyHeaders (SH : List (String × Int)) (ntraces ns dt dsf : Int) :
    List (String × Int) :=
  dictSet (dictSet (dictSet (dictSet SH "ntraces" ntraces) "ns" ns) "dt" dt)
    "DataSampleFormat" dsf

/-- Storage into the `np.int32` arrays of `setSegyTraceHeaders`
wraps to the int32 range (identity for every value the module
stores when `ntraces < 2^31` and `ns, dt < 2^16`). -/
def wrap32 (v : Int) : Int := (v + 2 ^ 31).emod (2 ^ 32) - 2 ^ 31

/-- `setSegyTraceHeaders(None, ntraces, ns, dt)` (segypy.py:440-468)
as a function from key and 0-based trace number to the stored value:
sequence numbers count from 1, `FieldRecord` is fixed at 1000, `ns`
and `dt` are broadcast, every other key is zero. -/
def sthSynthValue (ns dt : Int) (key : String) (a : Nat) : Int :=
  wrap32 <|
    if key = "TraceSequenceLine" then (a : Int) + 1
    else if key = "TraceSequenceFile" then (a : Int) + 1
    else if key = "FieldRecord" then 1000
    else if key = "TraceNumber" then (a : Int) + 1
    else if key = "ns" then ns
    else if key = "dt" then dt
    else 0

/-! ### The binary file model

`open(filename, "wb")` starts from an empty file; `f.seek(p)` then
`f.write(bs)` overwrites `len(bs)` bytes at offset `p`, zero-filling
any gap between the current end of file and `p`. -/

structure PyFile where
  buf : List Nat
  pos : Nat

def overwriteAt (buf : List Nat) (p : Nat) (bs : List Nat) : List Nat :=
  buf.take p ++ List.replicate (p - buf.length) 0 ++ bs ++ buf.drop (p + bs.length)

def fwrite (f : PyFile) (bs : List Nat) : PyFile :=
  ⟨overwriteAt f.buf f.pos bs, f.pos + bs.length⟩

def fseek (f : PyFile) (p : Nat) : PyFile := ⟨f.buf, p⟩

/-- Pack a list of schema fields back-to-back (the
`bytearray.extend` loops at segypy.py:686-691 and 713-718), via
`packValue` = `structPack1`. -/
def packFields (L : List FieldDef) (val : FieldDef → Int) : Except String (List Nat) := do
  let parts ← L.mapM (fun e => structPack1 (val e) e.ty)
  pure parts.flatten

/-- One sample through `struct.pack(endian + str(ns) + ctype, ...)`:
`ctype = dtype2ctype[dtypeStr]` and the pack itself are fused (as in
`structPack1`); packing a `float64` array element with format `f`
narrows the double to single precision first. -/
def packSampleOne (dtypeStr : String) (src : NpDtype) (v : Int) : Except String (List Nat) :=
  if dtypeStr = "float32" ∧ src = NpDtype.float64 then do
    let w ← f32ofF64 v
    structPack1 w "float32"
  else structPack1 v dtypeStr

/-- `struct.pack(cformat, *aray1d)` for one trace column
(segypy.py:720-722); `struct.error` when the column does not have
exactly `ns` values. -/
def packSamples (dtypeStr : String) (src : NpDtype) (ns : Nat) (vals : List Int) :
    Except String (List Nat) := do
  if vals.length = ns then do
    let parts ← vals.mapM (packSampleOne dtypeStr src)
    pure parts.flatten
  else .error "struct.error: pack expected ns items"

/-- `Data[:, itrace]` — numpy raises `IndexError` past the last column. -/
def colAt (cols : List (List Int)) (i : Nat) : Except String (List Int) :=
  match cols.get? i with
  | some c => .ok c
  | none => .error "IndexError: index out of bounds"

/-- The per-trace loop `for itrace in range(ntraces)` of
`writeSegyStructure` (segypy.py:702-728): pack the 91 trace-header
fields and the `ns` samples of column `itrace`, then one positioned
write per trace at `index`, advancing by `traceByteSize`.  `remaining`
counts the loop iterations left; `a` is `itrace`. -/
def writeTraces (src : NpDtype) (sthVal : String → Nat → Int) (dtypeStr : String)
    (ns tbs : Nat) (cols : List (List Int)) :
    Nat → Nat → Nat → PyFile → Except String PyFile
  | 0, _, _, f => .ok f
  | r + 1, a, idx, f => do
    let thBytes ← packFields STH_def (fun e => sthVal e.name a)
    let col ← colAt cols a
    let smp ← packSamples dtypeStr src ns col
    let f2 := fwrite (fseek f idx) (thBytes ++ smp)
    writeTraces src sthVal dtypeStr ns tbs cols r (a + 1) (idx + tbs) f2

/-- `writeSegyStructure(filename, Data, STFH, SH, STH)`
(segypy.py:658-730), producing the final file contents.
`STFH.encode("ascii")` rejects non-ASCII text. -/
def writeSegyStructure (Data : NpGrid) (STFH : List Nat) (SH : List (String × Int))
    (sthVal : String → Nat → Int) : Except String (List Nat) := do
  if STFH.all (fun b => b < 128) then do
    let f : PyFile := ⟨[], 0⟩
    let f := fwrite f STFH
    let revno ← getRevisionNumber SH
    let dsf := dictGet SH "DataSampleFormat"
    let ntraces : Nat := (dictGet SH "ntraces").toNat
    let ns : Nat := (dictGet SH "ns").toNat
    let _descr ← lookup2 dsfDescr revno dsf
    let shBlock ← packFields SH_def (fun e => dictGet SH e.name)
    let f := fwrite (fseek f bytes_STFH) shBlock
    let dtypeStr ← lookup2 dsfDatatype revno dsf
    let bps ← lookup2 dsfBps revno dsf
    let tbs : Nat := bytes_STH + ns * bps
    let fN ← writeTraces Data.dtype sthVal dtypeStr ns tbs Data.cols ntraces 0
      (bytes_STFH + bytes_SBFH) f
    pure fN.buf
  else .error "UnicodeEncodeError: ascii codec cannot encode character"

/-- `writeSegy(filename, Data, dt, STFH)` (segypy.py:632-656) with
`mySTH = None`. -/
def writeSegy (Data : NpGrid) (dt : Int) (STFH : List Nat) : Except String (List Nat) := do
  let ns := Data.ns
  let ntraces := Data.cols.length
  let SH := getDefaultSegyHeader
  let dsf ← getDSF_fromDataType Data.dtype
  let SH := setSegyHeaders SH ntraces ns dt dsf
  writeSegyStructure Data STFH SH (sthSynthValue ns dt)

/-! ## Generic success / value lemmas for the decode side -/

/-- Width of a dtype string per `dtype2csize` (0 for unknown strings,
which never reach a read). -/
def csizeD (ty : String) : Nat := (dtype2csize.lookup ty).getD 0

/-- The value a single in-bounds field read produces. -/
def headerVal (data : List Nat) (e : FieldDef) : Int :=
  decodeFixed e.ty (sliceAt data e.pos (csizeD e.ty))

/-- The binary-file-header dictionary as decoded field values. -/
def decodedSH (data : List Nat) : List (String × Int) :=
  SH_def.map (fun e => (e.name, headerVal data e))

theorem structUnpack1_ok {data : List Nat} {p : Nat} {ty : String}
    (hsome : (dtype2csize.lookup ty).isSome)
    (hle : p + csizeD ty ≤ data.length) :
    structUnpack1 data p ty = .ok (decodeFixed ty (sliceAt data p (csizeD ty))) := by
  unfold structUnpack1
  cases h : dtype2csize.lookup ty with
  | none => rw [h] at hsome; simp at hsome
  | some cs =>
    have : csizeD ty = cs := by simp [csizeD, h]
    rw [this] at hle
    simp only [hle, if_pos, this]

/-- Every `SH_def` read stays below byte 3508. -/
theorem SH_def_bounds :
    ∀ e ∈ SH_def, (dtype2csize.lookup e.ty).isSome ∧ e.pos + csizeD e.ty ≤ 3508 := by
  decide

/-- Every `STH_def` read stays inside the 240-byte trace header. -/
theorem STH_def_bounds :
    ∀ e ∈ STH_def, (dtype2csize.lookup e.ty).isSome ∧ e.pos + csizeD e.ty ≤ 240 := by
  decide

theorem mapM_fields_ok (L : List FieldDef) (data : List Nat)
    (h : ∀ e ∈ L, (dtype2csize.lookup e.ty).isSome ∧ e.pos + csizeD e.ty ≤ data.length) :
    (L.mapM (fun e => do
      let v ← structUnpack1 data e.pos e.ty
      pure (e.name, v))) = .ok (L.map (fun e => (e.name, headerVal data e))) := by
  induction L with
  | nil => rfl
  | cons e L ih =>
    have he := h e (by simp)
    have hu := @structUnpack1_ok data e.pos e.ty he.1 he.2
    rw [List.mapM_cons, hu]
    simp only [ok_bind]
    rw [ih (fun x hx => h x (by simp [hx]))]
    simp [headerVal]

/-- `mapM` over `range n` of elementwise-`ok` computations. -/
theorem mapM_range_ok {α : Type} (n : Nat) (f : Nat → Except String α) (g : Nat → α)
    (h : ∀ j < n, f j = .ok (g j)) :
    (List.range n).mapM f = .ok ((List.range n).map g) := by
  induction n with
  | zero => rfl
  | succ n ih =>
    rw [List.range_succ, List.mapM_append, List.map_append]
    rw [ih (fun j hj => h j (by omega))]
    simp only [List.mapM_cons, List.mapM_nil, h n (by omega), ok_bind, pure_eq_ok]
    simp

/-- The value decoded at byte `p` with format `H` (big-endian uint16). -/
def uint16At (data : List Nat) (p : Nat) : Int :=
  (natOfBytes (sliceAt data p 2) : Int)

/-- The value decoded at byte `p` with format `h` (big-endian int16). -/
def int16At (data : List Nat) (p : Nat) : Int :=
  toSigned 2 (natOfBytes (sliceAt data p 2))

theorem dictGet_decodedSH_ns (data : List Nat) :
    dictGet (decodedSH data) "ns" = uint16At data 3220 := rfl

theorem dictGet_decodedSH_dt (data : List Nat) :
    dictGet (decodedSH data) "dt" = uint16At data 3216 := rfl

theorem dictGet_decodedSH_dsf (data : List Nat) :
    dictGet (decodedSH data) "DataSampleFormat" = int16At data 3224 := rfl

theorem dictGet_decodedSH_rev (data : List Nat) :
    dictGet (decodedSH data) "SegyFormatRevisionNumber" = uint16At data 3500 := rfl

theorem uint16At_nonneg (data : List Nat) (p : Nat) : 0 ≤ uint16At data p := by
  exact Int.natCast_nonneg _

theorem uint16At_lt (data : List Nat) (p : Nat) (h : ∀ b ∈ data, b < 256) :
    uint16At data p < 2 ^ 16 := by
  unfold uint16At
  have hb : ∀ b ∈ sliceAt data p 2, b < 256 := by
    intro b hbm
    simp only [sliceAt, List.mem_map, List.mem_range] at hbm
    obtain ⟨k, _, hk⟩ := hbm
    by_cases hcase : p + k < data.length
    · have hget : data.getD (p + k) 0 = data[p + k] := List.getD_eq_getElem data 0 hcase
      have hmem : data[p + k] ∈ data := List.getElem_mem hcase
      rw [← hk, hget]
      exact h _ hmem
    · rw [← hk, List.getD_eq_default]
      · norm_num
      · omega
  have := natOfBytes_lt hb
  rw [length_sliceAt] at this
  have h2 : (256 : Nat) ^ 2 = 2 ^ 16 := by norm_num
  rw [h2] at this
  exact_mod_cast this

/-- `getSegyHeaderSH` in closed form once every field read is in
bounds. -/
theorem getSegyHeaderSH_eq (data : List Nat) (h : 3508 ≤ data.length) :
    getSegyHeaderSH data = (do
      let bps ← getBytePerSample (decodedSH data)
      pure (dictSet (decodedSH data) "ntraces"
        (Int.tdiv ((data.length : Int) - (bytes_SFH : Int))
          ((bytes_STH : Int) + dictGet (decodedSH data) "ns" * (bps : Int))))) := by
  unfold getSegyHeaderSH
  rw [mapM_fields_ok SH_def data
    (fun e he => ⟨(SH_def_bounds e he).1, le_trans (SH_def_bounds e he).2 h⟩)]
  simp only [ok_bind]
  rfl

theorem lookup_mem {α : Type} (l : List (Int × α)) (k : Int) (v : α)
    (h : l.lookup k = some v) : (k, v) ∈ l := by
  induction l with
  | nil => simp [List.lookup] at h
  | cons p l ih =>
    obtain ⟨k2, v2⟩ := p
    by_cases hk : k = k2
    · subst hk
      simp only [List.lookup, beq_self_eq_true] at h
      cases h
      simp
    · simp only [List.lookup, beq_eq_false_iff_ne.mpr hk] at h
      exact List.mem_cons_of_mem _ (ih h)

/-- Every entry of the bytes-per-sample table is 1, 2 or 4 (and so
divides 240). -/
theorem dsfBps_vals : ∀ p ∈ dsfBps, ∀ q ∈ p.2, q.2 = 1 ∨ q.2 = 2 ∨ q.2 = 4 := by
  decide

theorem getBytePerSample_vals {SH : List (String × Int)} {bps : Nat}
    (h : getBytePerSample SH = .ok bps) : bps = 1 ∨ bps = 2 ∨ bps = 4 := by
  unfold getBytePerSample at h
  cases hrev : getRevisionNumber SH with
  | error e => rw [hrev] at h; simp at h
  | ok revno =>
    rw [hrev] at h
    simp only [ok_bind] at h
    unfold lookup2 at h
    split at h
    · simp at h
    · rename_i row hrow
      split at h
      · simp at h
      · rename_i v hcell
        cases h
        exact dsfBps_vals _ (lookup_mem _ _ _ hrow) _ (lookup_mem _ _ _ hcell)

/-- The `"dt"` entry of `STH_def`. -/
def dtFieldEntry : FieldDef := { name := "dt", pos := 116, ty := "uint16" }

theorem dtFieldEntry_mem : dtFieldEntry ∈ STH_def := by decide

/-- An all-traces trace-header read of a field other than `dt`:
one decode per trace at `3600 + traceByteSize * j + fieldPos`. -/
theorem getSegyTraceHeader_arr_ne_dt (SH : List (String × Int)) (data : List Nat)
    (e : FieldDef) (bps : Nat)
    (hbps : getBytePerSample SH = .ok bps)
    (hsome : (dtype2csize.lookup e.ty).isSome)
    (hb : ∀ j < (dictGet SH "ntraces").toNat,
      bytes_SFH + (bytes_STH + (dictGet SH "ns").toNat * bps) * j + e.pos + csizeD e.ty
        ≤ data.length)
    (hname : e.name ≠ "dt") :
    getSegyTraceHeader SH data e 0 = .ok (.arr
      ((List.range (dictGet SH "ntraces").toNat).map (fun j =>
        decodeFixed e.ty (sliceAt data
          (bytes_SFH + (bytes_STH + (dictGet SH "ns").toNat * bps) * j + e.pos)
          (csizeD e.ty))))) := by
  unfold getSegyTraceHeader
  rw [hbps]
  simp only [ok_bind, reduceIte]
  rw [mapM_range_ok _ _
    (fun j => decodeFixed e.ty (sliceAt data
      (bytes_SFH + (bytes_STH + (dictGet SH "ns").toNat * bps) * j + e.pos) (csizeD e.ty)))
    (fun j hj => structUnpack1_ok hsome (hb j hj))]
  simp only [ok_bind, pure_eq_ok, if_neg hname]

/-- An all-traces read of the `dt` field, with at least one trace:
the decoded values, except that a zero first value broadcasts the
file-level `dt` (stored through the `uint16` array). -/
theorem getSegyTraceHeader_arr_dt (SH : List (String × Int)) (data : List Nat) (bps : Nat)
    (hbps : getBytePerSample SH = .ok bps)
    (hb : ∀ j < (dictGet SH "ntraces").toNat,
      bytes_SFH + (bytes_STH + (dictGet SH "ns").toNat * bps) * j + 116 + 2 ≤ data.length)
    (hpos : 1 ≤ (dictGet SH "ntraces").toNat) :
    getSegyTraceHeader SH data dtFieldEntry 0 = .ok (.arr
      (if uint16At data (bytes_SFH + (bytes_STH + (dictGet SH "ns").toNat * bps) * 0 + 116) = 0
       then List.replicate (dictGet SH "ntraces").toNat ((dictGet SH "dt").emod (2 ^ 16))
       else (List.range (dictGet SH "ntraces").toNat).map (fun j =>
         uint16At data (bytes_SFH + (bytes_STH + (dictGet SH "ns").toNat * bps) * j + 116)))) := by
  unfold getSegyTraceHeader
  rw [hbps]
  simp only [ok_bind, reduceIte]
  rw [mapM_range_ok _ _
    (fun j => uint16At data
      (bytes_SFH + (bytes_STH + (dictGet SH "ns").toNat * bps) * j + 116))
    (by
      intro j hj
      rw [structUnpack1_ok (by decide) (by simpa [csizeD] using hb j hj)]
      rfl)]
  simp only [ok_bind, pure_eq_ok]
  obtain ⟨m, hm⟩ : ∃ m, (dictGet SH "ntraces").toNat = m + 1 :=
    ⟨(dictGet SH "ntraces").toNat - 1, by omega⟩
  rw [hm, List.range_succ_eq_map, List.map_cons]
  rw [if_pos (show dtFieldEntry.name = "dt" from rfl)]
  simp only [Nat.mul_zero, Nat.add_zero]
  by_cases hc : uint16At data (bytes_SFH + 116) = 0
  · simp [hc]
  · simp [hc]

/-- A single-trace read (`itrace ≥ 1`) of a field other than `dt`:
the scalar decoded at `3600 + traceByteSize * (itrace - 1) + fieldPos`. -/
theorem getSegyTraceHeader_single_ne_dt (SH : List (String × Int)) (data : List Nat)
    (e : FieldDef) (bps : Nat) (itrace : Nat)
    (hbps : getBytePerSample SH = .ok bps)
    (hsome : (dtype2csize.lookup e.ty).isSome)
    (hi : 1 ≤ itrace)
    (hb : bytes_SFH + (bytes_STH + (dictGet SH "ns").toNat * bps) * (itrace - 1) + e.pos
        + csizeD e.ty ≤ data.length)
    (hname : e.name ≠ "dt") :
    getSegyTraceHeader SH data e itrace = .ok (.scalar
      (decodeFixed e.ty (sliceAt data
        (bytes_SFH + (bytes_STH + (dictGet SH "ns").toNat * bps) * (itrace - 1) + e.pos)
        (csizeD e.ty)))) := by
  unfold getSegyTraceHeader
  rw [hbps]
  simp only [ok_bind, if_neg (by omega : ¬ itrace = 0)]
  rw [structUnpack1_ok hsome hb]
  simp only [ok_bind, pure_eq_ok, if_neg hname]

/-- The header dictionary `getSegyHeaderSH` returns (when it
succeeds): the decoded fields plus the derived `ntraces`. -/
def shOf (data : List Nat) (bps : Nat) : List (String × Int) :=
  dictSet (decodedSH data) "ntraces"
    (Int.tdiv ((data.length : Int) - (bytes_SFH : Int))
      ((bytes_STH : Int) + uint16At data 3220 * (bps : Int)))

theorem getSegyHeaderSH_ok (data : List Nat) (bps : Nat) (hlen : 3600 ≤ data.length)
    (hbps : getBytePerSample (decodedSH data) = .ok bps) :
    getSegyHeaderSH data = .ok (shOf data bps) := by
  rw [getSegyHeaderSH_eq data (by omega), hbps]
  simp only [ok_bind, pure_eq_ok]
  rw [dictGet_decodedSH_ns]
  rfl

theorem getBytePerSample_dictSet_ntraces (D : List (String × Int)) (v : Int) :
    getBytePerSample (dictSet D "ntraces" v) = getBytePerSample D := by
  unfold getBytePerSample getRevisionNumber
  rw [dictGet_dictSet_ne _ _ _ _ (by decide), dictGet_dictSet_ne _ _ _ _ (by decide)]

theorem dictGet_shOf_ntraces (data : List Nat) (bps : Nat) :
    dictGet (shOf data bps) "ntraces" =
      Int.tdiv ((data.length : Int) - (bytes_SFH : Int))
        ((bytes_STH : Int) + uint16At data 3220 * (bps : Int)) := by
  unfold shOf
  exact dictGet_dictSet_same _ _ _

theorem dictGet_shOf_ns (data : List Nat) (bps : Nat) :
    dictGet (shOf data bps) "ns" = uint16At data 3220 := by
  unfold shOf
  rw [dictGet_dictSet_ne _ _ _ _ (by decide), dictGet_decodedSH_ns]

theorem dictGet_shOf_dt (data : List Nat) (bps : Nat) :
    dictGet (shOf data bps) "dt" = uint16At data 3216 := by
  unfold shOf
  rw [dictGet_dictSet_ne _ _ _ _ (by decide), dictGet_decodedSH_dt]

theorem getBytePerSample_shOf (data : List Nat) (bps : Nat)
    (hbps : getBytePerSample (decodedSH data) = .ok bps) :
    getBytePerSample (shOf data bps) = .ok bps := by
  unfold shOf
  rw [getBytePerSample_dictSet_ntraces]
  exact hbps

/-- Every whole trace block of the derived trace count lies inside
the buffer. -/
theorem shOf_block_bound (data : List Nat) (bps : Nat) (hlen : 3600 ≤ data.length) :
    ∀ j < (dictGet (shOf data bps) "ntraces").toNat,
      bytes_SFH + (bytes_STH + (dictGet (shOf data bps) "ns").toNat * bps) * j + bytes_STH
        ≤ data.length := by
  intro j hj
  rw [dictGet_shOf_ntraces] at hj
  rw [dictGet_shOf_ns]
  set ns : Int := uint16At data 3220 with hns
  have hns0 : 0 ≤ ns := uint16At_nonneg data 3220
  set A : Int := (data.length : Int) - (bytes_SFH : Int) with hA
  have hA0 : 0 ≤ A := by
    simp only [hA, bytes_SFH]
    omega
  set tbsI : Int := (bytes_STH : Int) + ns * (bps : Int) with htbsI
  have htbsN : tbsI = ((bytes_STH + ns.toNat * bps : Nat) : Int) := by
    simp only [htbsI]
    push_cast
    rw [Int.toNat_of_nonneg hns0]
  have htbs0 : 0 < tbsI := by
    rw [htbsN]
    have : 240 ≤ bytes_STH + ns.toNat * bps := by
      simp [bytes_STH]
    omega
  have hdiv : A.tdiv tbsI = A / tbsI := Int.tdiv_eq_ediv hA0 (by omega)
  have hmul : tbsI * (A / tbsI) ≤ A := by
    have hsplit := Int.ediv_add_emod A tbsI
    have hpos := Int.emod_nonneg A (by omega : tbsI ≠ 0)
    omega
  have hq0 : 0 ≤ A / tbsI := Int.ediv_nonneg hA0 (by omega)
  rw [hdiv] at hj
  set tbsN : Nat := bytes_STH + ns.toNat * bps with htbsNdef
  have hjq : (j : Int) + 1 ≤ A / tbsI := by
    have h1 : (j : Int) < ((A / tbsI).toNat : Int) := by exact_mod_cast hj
    rw [Int.toNat_of_nonneg hq0] at h1
    omega
  have hfin : (tbsN : Int) * ((j : Int) + 1) ≤ A := by
    calc (tbsN : Int) * ((j : Int) + 1)
        = tbsI * ((j : Int) + 1) := by rw [htbsN]
      _ ≤ tbsI * (A / tbsI) := by
          apply mul_le_mul_of_nonneg_left hjq
          omega
      _ ≤ A := hmul
  have hexp : (tbsN : Int) * ((j : Int) + 1) = (tbsN : Int) * (j : Int) + (tbsN : Int) := by
    ring
  rw [hexp] at hfin
  have hA' : A = (data.length : Int) - 3600 := by
    simp only [hA, bytes_SFH]
    norm_num
  have hnatfin : tbsN * j + tbsN + 3600 ≤ data.length := by
    have : ((tbsN * j + tbsN + 3600 : Nat) : Int) ≤ (data.length : Int) := by
      push_cast
      omega
    exact_mod_cast this
  have htbsbig : 240 ≤ tbsN := by
    simp [htbsNdef, bytes_STH]
  show bytes_SFH + tbsN * j + bytes_STH ≤ data.length
  simp only [bytes_SFH, bytes_STH]
  simp only [bytes_STH] at htbsbig
  omega

/-- A single-trace read of the `dt` field always fails: the source
subscripts the decoded numpy scalar with `[0]` (segypy.py:505). -/
theorem getSegyTraceHeader_single_dt (SH : List (String × Int)) (data : List Nat)
    (bps : Nat) (itrace : Nat)
    (hbps : getBytePerSample SH = .ok bps)
    (hi : 1 ≤ itrace)
    (hb : bytes_SFH + (bytes_STH + (dictGet SH "ns").toNat * bps) * (itrace - 1) + 116 + 2
        ≤ data.length) :
    getSegyTraceHeader SH data dtFieldEntry itrace =
      .error "IndexError: invalid index to scalar variable" := by
  unfold getSegyTraceHeader
  rw [hbps]
  simp only [ok_bind, if_neg (by omega : ¬ itrace = 0)]
  rw [structUnpack1_ok (by decide) (by simpa [csizeD] using hb)]
  simp only [ok_bind, pure_eq_ok]
  rfl

/-- Inverting a successful `getSegyHeaderSH`. -/
theorem getSegyHeaderSH_ok_inv {data : List Nat} {sh : List (String × Int)}
    (hlen : 3600 ≤ data.length) (hsh : getSegyHeaderSH data = .ok sh) :
    ∃ bps, getBytePerSample (decodedSH data) = .ok bps ∧ sh = shOf data bps := by
  rw [getSegyHeaderSH_eq data (by omega)] at hsh
  cases hb : getBytePerSample (decodedSH data) with
  | error e => rw [hb] at hsh; simp at hsh
  | ok bps =>
    rw [hb] at hsh
    simp only [ok_bind, pure_eq_ok, Except.ok.injEq] at hsh
    refine ⟨bps, rfl, ?_⟩
    rw [← hsh]
    unfold shOf
    rw [dictGet_decodedSH_ns]

/-- **C4.**  Reading the per-trace `dt` header field over all traces
of a decoded file: when the decoded `dt` of the first trace is 0,
every returned value is the file-header-level `dt`; otherwise every
trace's decoded value (the `uint16` at
`3600 + traceByteSize * j + 116`) is returned verbatim. -/
theorem claim_C4_dt_fallback (data : List Nat) (sh : List (String × Int)) (bps : Nat)
    (hwf : ∀ b ∈ data, b < 256)
    (hlen : 3600 ≤ data.length)
    (hsh : getSegyHeaderSH data = .ok sh)
    (hbps : getBytePerSample sh = .ok bps)
    (hpos : 1 ≤ dictGet sh "ntraces") :
    getSegyTraceHeader sh data dtFieldEntry 0 = .ok (.arr
      (if uint16At data
          (bytes_SFH + (bytes_STH + (dictGet sh "ns").toNat * bps) * 0 + 116) = 0
       then List.replicate (dictGet sh "ntraces").toNat (dictGet sh "dt")
       else (List.range (dictGet sh "ntraces").toNat).map (fun j =>
         uint16At data
           (bytes_SFH + (bytes_STH + (dictGet sh "ns").toNat * bps) * j + 116)))) := by
  obtain ⟨bps2, hbps2, hshof⟩ := getSegyHeaderSH_ok_inv hlen hsh
  subst hshof
  have hbeq : bps = bps2 := by
    rw [getBytePerSample_shOf data bps2 hbps2] at hbps
    cases hbps
    rfl
  subst hbeq
  have hbound := shOf_block_bound data bps hlen
  have hb : ∀ j < (dictGet (shOf data bps) "ntraces").toNat,
      bytes_SFH + (bytes_STH + (dictGet (shOf data bps) "ns").toNat * bps) * j + 116 + 2
        ≤ data.length := by
    intro j hj
    have := hbound j hj
    simp only [bytes_STH] at this ⊢
    omega
  have hdt_lt : (dictGet (shOf data bps) "dt").emod (2 ^ 16) = dictGet (shOf data bps) "dt" := by
    rw [dictGet_shOf_dt]
    exact Int.emod_eq_of_lt (uint16At_nonneg _ _) (uint16At_lt _ _ hwf)
  have h := getSegyTraceHeader_arr_dt (shOf data bps) data bps
    (getBytePerSample_shOf data bps hbps2) hb (by omega)
  rw [h, hdt_lt]

/-! ## Toolkit for concrete buffers

Concrete buffers are built from `List.replicate` segments and short
explicit byte runs; the lemmas below evaluate `getD`, `sliceAt` and
the small decoders on such buffers without deep kernel reduction. -/

theorem getD_append (xs ys : List Nat) (k : Nat) :
    (xs ++ ys).getD k 0 = if k < xs.length then xs.getD k 0 else ys.getD (k - xs.length) 0 := by
  by_cases h : k < xs.length
  · rw [if_pos h, getD_append_left h]
  · rw [if_neg h]
    have : k = xs.length + (k - xs.length) := by omega
    rw [this, getD_append_right]
    congr 1
    omega

theorem getD_replicate (n c k : Nat) :
    (List.replicate n c).getD k 0 = if k < n then c else 0 := by
  by_cases h : k < n
  · rw [if_pos h, List.getD_eq_getElem _ _ (by simpa using h), List.getElem_replicate]
  · rw [if_neg h, List.getD_eq_default]
    simpa using h

theorem sliceAt_one (d : List Nat) (p : Nat) : sliceAt d p 1 = [d.getD p 0] := by
  simp [sliceAt, List.range_succ]

theorem sliceAt_two (d : List Nat) (p : Nat) :
    sliceAt d p 2 = [d.getD p 0, d.getD (p + 1) 0] := by
  simp [sliceAt, List.range_succ]

theorem sliceAt_four (d : List Nat) (p : Nat) :
    sliceAt d p 4 = [d.getD p 0, d.getD (p + 1) 0, d.getD (p + 2) 0, d.getD (p + 3) 0] := by
  simp [sliceAt, List.range_succ]

theorem natOfBytes_two (a b : Nat) : natOfBytes [a, b] = a * 256 + b := by
  simp [natOfBytes]

theorem uint16At_eq (d : List Nat) (p : Nat) :
    uint16At d p = ((d.getD p 0 * 256 + d.getD (p + 1) 0 : Nat) : Int) := by
  rw [uint16At, sliceAt_two, natOfBytes_two]

/-- `mapM` over field descriptors when each read merely succeeds. -/
theorem mapM_fields_exists (L : List FieldDef) (f : FieldDef → Except String THVal)
    (h : ∀ e ∈ L, ∃ v, f e = .ok v) :
    ∃ out, (L.mapM (fun e => do
      let v ← f e
      pure (e.name, v))) = .ok out := by
  induction L with
  | nil => exact ⟨[], rfl⟩
  | cons e L ih =>
    obtain ⟨v, hv⟩ := h e (by simp)
    obtain ⟨out, hout⟩ := ih (fun x hx => h x (by simp [hx]))
    refine ⟨(e.name, v) :: out, ?_⟩
    rw [List.mapM_cons, hv]
    simp only [ok_bind]
    rw [hout]
    rfl

/-- The only entry of `STH_def` named `dt` is `dtFieldEntry`. -/
theorem STH_def_dt_unique : ∀ e ∈ STH_def, e.name = "dt" → e = dtFieldEntry := by
  decide

/-- With at least one trace and every trace block in bounds, reading
all 91 trace headers succeeds. -/
theorem getSegyTraceHeaders_ok (SH : List (String × Int)) (data : List Nat) (bps : Nat)
    (hbps : getBytePerSample SH = .ok bps)
    (hblock : ∀ j < (dictGet SH "ntraces").toNat,
      bytes_SFH + (bytes_STH + (dictGet SH "ns").toNat * bps) * j + bytes_STH ≤ data.length)
    (hpos : 1 ≤ (dictGet SH "ntraces").toNat) :
    ∃ out, getSegyTraceHeaders SH data 0 = .ok out := by
  apply mapM_fields_exists
  intro e he
  have hbounds := STH_def_bounds e he
  have hb : ∀ j < (dictGet SH "ntraces").toNat,
      bytes_SFH + (bytes_STH + (dictGet SH "ns").toNat * bps) * j + e.pos + csizeD e.ty
        ≤ data.length := by
    intro j hj
    have h1 := hblock j hj
    have h2 := hbounds.2
    simp only [bytes_STH] at h1 h2 ⊢
    omega
  by_cases hname : e.name = "dt"
  · have hedt : e = dtFieldEntry := STH_def_dt_unique e he hname
    subst hedt
    refine ⟨_, getSegyTraceHeader_arr_dt SH data bps hbps ?_ hpos⟩
    intro j hj
    have := hb j hj
    simpa [csizeD] using this
  · exact ⟨_, getSegyTraceHeader_arr_ne_dt SH data e bps hbps hbounds.1 hb hname⟩

/-! ## Reshaping the flat sample vector -/

theorem map_range_drop {α : Type} (g : Nat → α) (a b : Nat) :
    ((List.range (a + b)).map g).drop a = (List.range b).map (fun s => g (a + s)) := by
  rw [List.range_add, List.map_append]
  have h1 : ((List.range a).map g).length = a := by simp
  rw [List.drop_left' h1, List.map_map]
  rfl

theorem chunkList_map_range (f : Nat → Int) (r c : Nat) :
    chunkList r c ((List.range (r * c)).map f) =
      (List.range r).map (fun t => (List.range c).map (fun s => f (t * c + s))) := by
  induction r generalizing f with
  | zero => simp [chunkList]
  | succ r ih =>
    have hsize : (r + 1) * c = c + r * c := by ring
    rw [hsize, List.range_add, List.map_append]
    have hlen : ((List.range c).map f).length = c := by simp
    show (_ : List (List Int)) = _
    rw [chunkList, List.take_left' hlen, List.drop_left' hlen, List.map_map]
    have ih2 := ih (fun i => f (c + i))
    rw [show ((List.range (r * c)).map fun i => f (c + i)) =
        (List.range (r * c)).map (f ∘ fun i => c + i) from rfl] at ih2
    rw [ih2, List.range_succ_eq_map, List.map_cons, List.map_map]
    congr 1
    · apply List.map_congr_left
      intro s _
      simp only [Nat.zero_mul, Nat.zero_add]
    · apply List.map_congr_left
      intro t _
      simp only [Function.comp_apply]
      apply List.map_congr_left
      intro s _
      congr 1
      show c + (t * c + s) = (t + 1) * c + s
      ring

/-- `getRevisionNumber` can only normalize to 1. -/
theorem getRevisionNumber_ok_eq {SH : List (String × Int)} {r : Int}
    (h : getRevisionNumber SH = .ok r) : r = 1 := by
  simp only [getRevisionNumber] at h
  split_ifs at h <;> cases h <;> rfl

/-- Inverting `getBytePerSample`. -/
theorem getBytePerSample_inv {SH : List (String × Int)} {bps : Nat}
    (h : getBytePerSample SH = .ok bps) :
    getRevisionNumber SH = .ok 1 ∧
      lookup2 dsfBps 1 (dictGet SH "DataSampleFormat") = .ok bps := by
  unfold getBytePerSample at h
  cases hrev : getRevisionNumber SH with
  | error e => rw [hrev] at h; simp at h
  | ok r =>
    have hr := getRevisionNumber_ok_eq hrev
    subst hr
    rw [hrev] at h
    simp only [ok_bind] at h
    exact ⟨rfl, h⟩

/-- The revision-1 bytes-per-sample row, case by case. -/
theorem dsf_cases {d : Int} {bps : Nat} (h : lookup2 dsfBps 1 d = .ok bps) :
    (d = 1 ∧ bps = 4) ∨ (d = 2 ∧ bps = 4) ∨ (d = 3 ∧ bps = 2) ∨
      (d = 5 ∧ bps = 4) ∨ (d = 8 ∧ bps = 1) := by
  unfold lookup2 at h
  split at h
  · rename_i hcell
    rw [show dsfBps.lookup (1 : Int) =
      some [(1, 4), (2, 4), (3, 2), (5, 4), (8, 1)] from rfl] at hcell
    cases hcell
  · rename_i row hcell
    rw [show dsfBps.lookup (1 : Int) =
      some [(1, 4), (2, 4), (3, 2), (5, 4), (8, 1)] from rfl] at hcell
    injection hcell with hrow
    subst hrow
    split at h
    · simp at h
    · rename_i w hcell2
      have hw : w = bps := by simpa using h
      subst hw
      have hm := lookup_mem _ _ _ hcell2
      simp only [List.mem_cons, List.not_mem_nil, or_false, Prod.mk.injEq] at hm
      tauto

/-- The datatype string each data-sample-format selects at revision 1. -/
theorem dsfDatatype_1_1 : lookup2 dsfDatatype 1 1 = .ok "ibm" := rfl

theorem dsfDatatype_1_2 : lookup2 dsfDatatype 1 2 = .ok "int32" := rfl

theorem dsfDatatype_1_3 : lookup2 dsfDatatype 1 3 = .ok "int16" := rfl

theorem dsfDatatype_1_5 : lookup2 dsfDatatype 1 5 = .ok "float32" := rfl

theorem dsfDatatype_1_8 : lookup2 dsfDatatype 1 8 = .ok "uchar" := rfl

/-- The raw decoded sample at byte `p` for data-sample-format `d`. -/
def rawDecodeAt (data : List Nat) (d : Int) (p : Nat) : Int :=
  if d = 1 then ((f32bitsOfRat (ibm2ieeeVal (sliceAt data p 4)) : Nat) : Int)
  else if d = 2 then decodeFixed "int32" (sliceAt data p 4)
  else if d = 3 then decodeFixed "int16" (sliceAt data p 2)
  else if d = 5 then decodeFixed "float32" (sliceAt data p 4)
  else decodeFixed "uchar" (sliceAt data p 1)

/-- The decoded (and, for format 8, sign-adjust-processed) sample at
byte `p` for data-sample-format `d` — the value `readSegy` places
in the output grid. -/
def sampleDecodeAt (data : List Nat) (d : Int) (p : Nat) : Int :=
  if d = 8 then ucharAdjust (rawDecodeAt data d p) else rawDecodeAt data d p

/-- The datatype string revision 1 selects for format `d` (defined on
the five supported codes). -/
def dsfTyStr (d : Int) : String :=
  if d = 1 then "ibm"
  else if d = 2 then "int32"
  else if d = 3 then "int16"
  else if d = 5 then "float32"
  else "uchar"

theorem dictGet_decodedSH_dsf2 (data : List Nat) (bps : Nat) :
    dictGet (shOf data bps) "DataSampleFormat" = int16At data 3224 := by
  unfold shOf
  rw [dictGet_dictSet_ne _ _ _ _ (by decide), dictGet_decodedSH_dsf]

theorem pySlice_eq_sliceAt (d : List Nat) (i n : Nat) (h : i + n ≤ d.length) :
    pySlice d i n = sliceAt d i n := by
  apply List.ext_getElem
  · simp [pySlice, length_sliceAt]
    omega
  · intro k h1 h2
    simp only [pySlice, length_sliceAt] at h2 ⊢
    rw [List.getElem_take, List.getElem_drop]
    simp only [sliceAt, List.getElem_map, List.getElem_range]
    rw [List.getD_eq_getElem d 0 (by omega)]

theorem getValueVec_ibm_eq_map (d : List Nat) (i n : Nat) (h : i + n * 4 ≤ d.length) :
    getValueVec d i "ibm" n = .ok ((List.range n).map (fun k =>
      ((f32bitsOfRat (ibm2ieeeVal (sliceAt d (i + k * 4) 4)) : Nat) : Int))) := by
  unfold getValueVec
  rw [if_pos rfl]
  apply mapM_range_ok
  intro j hj
  have hb : i + j * 4 + 4 ≤ d.length := by
    have h4 : j * 4 + 4 ≤ n * 4 := by omega
    omega
  have hsl : pySlice d (i + j * 4) 4 = sliceAt d (i + j * 4) 4 :=
    pySlice_eq_sliceAt d _ 4 hb
  rw [hsl]
  unfold ibm2ieee
  rw [if_pos (length_sliceAt d _ 4)]
  rfl

/-- The five possible (data-sample-format, bytes-per-sample) pairs at
revision 1. -/
def DsfCase (d : Int) (bps : Nat) : Prop :=
  (d = 1 ∧ bps = 4) ∨ (d = 2 ∧ bps = 4) ∨ (d = 3 ∧ bps = 2) ∨
    (d = 5 ∧ bps = 4) ∨ (d = 8 ∧ bps = 1)

theorem dsfDatatype_dsfTyStr {d : Int} {bps : Nat} (h : DsfCase d bps) :
    lookup2 dsfDatatype 1 d = .ok (dsfTyStr d) := by
  rcases h with ⟨hd, _⟩ | ⟨hd, _⟩ | ⟨hd, _⟩ | ⟨hd, _⟩ | ⟨hd, _⟩ <;> subst hd <;> rfl

theorem dsfDescr_isOk {d : Int} {bps : Nat} (h : DsfCase d bps) :
    ∃ descr, lookup2 dsfDescr 1 d = .ok descr := by
  rcases h with ⟨hd, _⟩ | ⟨hd, _⟩ | ⟨hd, _⟩ | ⟨hd, _⟩ | ⟨hd, _⟩ <;> subst hd <;>
    exact ⟨_, rfl⟩

/-- The flat sample decode of `readSegy`, case-uniformly for the four
numpy-readable formats: one `rawDecodeAt` per sample at stride `bps`.
Format 8 is excluded: its dtype string `uchar` makes `np.empty` raise
before any sample is decoded (`getValueVec_uchar_err`). -/
theorem getValueVec_dsf (data : List Nat) (d : Int) (bps : Nat) (n : Nat)
    (hcase : DsfCase d bps) (hne8 : d ≠ 8)
    (hb : bytes_SFH + n * bps ≤ data.length) :
    getValueVec data bytes_SFH (dsfTyStr d) n =
      .ok ((List.range n).map (fun k => rawDecodeAt data d (bytes_SFH + k * bps))) := by
  rcases hcase with ⟨hd, hbps⟩ | ⟨hd, hbps⟩ | ⟨hd, hbps⟩ | ⟨hd, hbps⟩ | ⟨hd, hbps⟩ <;>
    subst hd <;> subst hbps
  · rw [show dsfTyStr 1 = "ibm" from rfl, getValueVec_ibm_eq_map data bytes_SFH n hb]
    exact congrArg Except.ok (List.map_congr_left (fun k _ => rfl))
  · rw [show dsfTyStr 2 = "int32" from rfl,
      getValueVec_eq_unpackSeq data bytes_SFH "int32" n (by decide) rfl]
    unfold unpackSeq
    rw [show dtype2csize.lookup "int32" = some 4 from rfl]
    show unpackSeqGo data "int32" 4 bytes_SFH n = _
    rw [unpackSeqGo_eq_map (show dtype2csize.lookup "int32" = some 4 from rfl)
      data n bytes_SFH hb]
    exact congrArg Except.ok (List.map_congr_left (fun k _ => rfl))
  · rw [show dsfTyStr 3 = "int16" from rfl,
      getValueVec_eq_unpackSeq data bytes_SFH "int16" n (by decide) rfl]
    unfold unpackSeq
    rw [show dtype2csize.lookup "int16" = some 2 from rfl]
    show unpackSeqGo data "int16" 2 bytes_SFH n = _
    rw [unpackSeqGo_eq_map (show dtype2csize.lookup "int16" = some 2 from rfl)
      data n bytes_SFH hb]
    exact congrArg Except.ok (List.map_congr_left (fun k _ => rfl))
  · rw [show dsfTyStr 5 = "float32" from rfl,
      getValueVec_eq_unpackSeq data bytes_SFH "float32" n (by decide) rfl]
    unfold unpackSeq
    rw [show dtype2csize.lookup "float32" = some 4 from rfl]
    show unpackSeqGo data "float32" 4 bytes_SFH n = _
    rw [unpackSeqGo_eq_map (show dtype2csize.lookup "float32" = some 4 from rfl)
      data n bytes_SFH hb]
    exact congrArg Except.ok (List.map_congr_left (fun k _ => rfl))
  · exact absurd rfl hne8

theorem npReshape_map_range (elem : Nat → Int) (rI : Int) (c n : Nat)
    (hr : 0 ≤ rI) (hn : n = rI.toNat * c) :
    npReshape ((List.range n).map elem) rI c =
      .ok ((List.range rI.toNat).map (fun t =>
        (List.range c).map (fun s => elem (t * c + s)))) := by
  unfold npReshape
  rw [if_pos ⟨hr, by simp [hn]⟩]
  rw [hn, chunkList_map_range]

/-- **The decode pipeline, fully characterized.**  On a buffer whose
header decodes (`getBytePerSample` succeeds on the decoded fields),
with at least one derived trace and with fewer trailing bytes than
one sample, `readSegy` succeeds and returns the grid of
`traceCount × ns` samples decoded at
`3600 + traceByteSize * t + 240 + s * bps`. -/
theorem readSegy_ok (data : List Nat) (bps : Nat)
    (hlen : 3600 ≤ data.length)
    (hbps : getBytePerSample (decodedSH data) = .ok bps)
    (hne8 : int16At data 3224 ≠ 8)
    (hpos : 1 ≤ dictGet (shOf data bps) "ntraces")
    (hrem : (data.length - 3600) % (bytes_STH + (uint16At data 3220).toNat * bps) < bps) :
    ∃ sth, readSegy data = .ok
      ⟨(List.range (dictGet (shOf data bps) "ntraces").toNat).map (fun t =>
          (List.range (uint16At data 3220).toNat).map (fun s =>
            sampleDecodeAt data (int16At data 3224)
              (bytes_SFH + (bytes_STH + (uint16At data 3220).toNat * bps) * t + bytes_STH
                + s * bps))),
        shOf data bps, sth⟩ := by
  have hsh := getSegyHeaderSH_ok data bps hlen hbps
  have hbps2 := getBytePerSample_shOf data bps hbps
  have hinv := getBytePerSample_inv hbps2
  have hdsfd : dictGet (shOf data bps) "DataSampleFormat" = int16At data 3224 :=
    dictGet_decodedSH_dsf2 data bps
  have hcase : DsfCase (int16At data 3224) bps := by
    have h2 := hinv.2
    rw [hdsfd] at h2
    exact dsf_cases h2
  have hbvals : bps = 1 ∨ bps = 2 ∨ bps = 4 := getBytePerSample_vals hbps2
  have hbps_pos : 0 < bps := by omega
  have hdn : (bytes_STH / bps) * bps = 240 := by
    rcases hbvals with h | h | h <;> subst h <;> decide
  have hnsg : dictGet (shOf data bps) "ns" = uint16At data 3220 := dictGet_shOf_ns data bps
  -- the Nat form of the derived trace count
  have hns_cast : ((uint16At data 3220).toNat : Int) = uint16At data 3220 :=
    Int.toNat_of_nonneg (uint16At_nonneg data 3220)
  have hntr_cast :
      dictGet (shOf data bps) "ntraces" =
        (((data.length - 3600) / (bytes_STH + (uint16At data 3220).toNat * bps) : Nat) : Int) := by
    rw [dictGet_shOf_ntraces]
    have hA : ((data.length : Int) - (bytes_SFH : Int)) = ((data.length - 3600 : Nat) : Int) := by
      simp only [bytes_SFH]
      push_cast
      omega
    have hT : ((bytes_STH : Int) + uint16At data 3220 * (bps : Int)) =
        ((bytes_STH + (uint16At data 3220).toNat * bps : Nat) : Int) := by
      push_cast
      rw [hns_cast]
    rw [hA, hT]
    exact (Int.ofNat_tdiv _ _).symm
  have hntrN : (dictGet (shOf data bps) "ntraces").toNat =
      (data.length - 3600) / (bytes_STH + (uint16At data 3220).toNat * bps) := by
    rw [hntr_cast]
    exact Int.toNat_natCast _
  -- block bounds, with ns rewritten
  have hblock : ∀ j < (dictGet (shOf data bps) "ntraces").toNat,
      bytes_SFH + (bytes_STH + (uint16At data 3220).toNat * bps) * j + bytes_STH
        ≤ data.length := by
    intro j hj
    have := shOf_block_bound data bps hlen j hj
    rw [hnsg] at this
    exact this
  obtain ⟨sth, hsth⟩ := getSegyTraceHeaders_ok (shOf data bps) data bps hbps2
    (by
      intro j hj
      have := hblock j hj
      rw [hnsg]
      exact this)
    (by omega)
  refine ⟨sth, ?_⟩
  -- the Nat form of nd
  have hnd_cast : Int.tdiv ((data.length : Int) - (bytes_SFH : Int)) ((bps : Nat) : Int) =
      (((data.length - 3600) / bps : Nat) : Int) := by
    have hA : ((data.length : Int) - (bytes_SFH : Int)) = ((data.length - 3600 : Nat) : Int) := by
      simp only [bytes_SFH]
      push_cast
      omega
    rw [hA]
    exact (Int.ofNat_tdiv _ _).symm
  -- size bookkeeping
  have hsplit : data.length - 3600 =
      (dictGet (shOf data bps) "ntraces").toNat *
        (bytes_STH + (uint16At data 3220).toNat * bps) +
        (data.length - 3600) % (bytes_STH + (uint16At data 3220).toNat * bps) := by
    rw [hntrN, Nat.mul_comm]
    exact (Nat.div_add_mod _ _).symm
  have hndN : (data.length - 3600) / bps =
      (dictGet (shOf data bps) "ntraces").toNat *
        (bytes_STH / bps + (uint16At data 3220).toNat) := by
    have htb : bytes_STH + (uint16At data 3220).toNat * bps =
        (bytes_STH / bps + (uint16At data 3220).toNat) * bps := by
      have : (bytes_STH / bps + (uint16At data 3220).toNat) * bps =
          bytes_STH / bps * bps + (uint16At data 3220).toNat * bps := by ring
      rw [this, hdn]
      simp [bytes_STH]
    rw [hsplit, htb]
    rw [show (dictGet (shOf data bps) "ntraces").toNat *
        ((bytes_STH / bps + (uint16At data 3220).toNat) * bps) =
        bps * ((dictGet (shOf data bps) "ntraces").toNat *
          (bytes_STH / bps + (uint16At data 3220).toNat)) from by ring]
    have hR0 : (data.length - 3600) %
        ((bytes_STH / bps + (uint16At data 3220).toNat) * bps) / bps = 0 := by
      apply Nat.div_eq_of_lt
      rw [← htb]
      exact hrem
    rw [Nat.mul_add_div hbps_pos, hR0]
    omega
  -- unfold the pipeline
  unfold readSegy
  rw [hsh]
  simp only [ok_bind]
  rw [hsth]
  simp only [ok_bind]
  rw [hbps2]
  simp only [ok_bind]
  rw [hinv.1]
  simp only [ok_bind]
  obtain ⟨descr, hdescr⟩ := dsfDescr_isOk hcase
  rw [hdsfd, hdescr]
  simp only [ok_bind]
  rw [dsfDatatype_dsfTyStr hcase]
  simp only [ok_bind]
  rw [hnd_cast]
  rw [if_neg (by omega : ¬ (((data.length - 3600) / bps : Nat) : Int) < 0)]
  rw [Int.toNat_natCast]
  have hflatbound : bytes_SFH + ((data.length - 3600) / bps) * bps ≤ data.length := by
    have := Nat.div_mul_le_self (data.length - 3600) bps
    simp only [bytes_SFH]
    omega
  rw [getValueVec_dsf data (int16At data 3224) bps _ hcase hne8 hflatbound]
  simp only [ok_bind]
  rw [hntr_cast, hnsg]
  have hc_comm : (((data.length - 3600) /
        (bytes_STH + (uint16At data 3220).toNat * bps) : Nat) : Int).toNat *
        (bytes_STH / bps + (uint16At data 3220).toNat) = (data.length - 3600) / bps := by
    rw [Int.toNat_natCast, ← hntrN, ← hndN]
  rw [npReshape_map_range _ _ _ _ (Int.natCast_nonneg _)
    (by rw [Int.toNat_natCast, ← hntrN]
        rw [hndN]
        ring)]
  simp only [ok_bind, Int.toNat_natCast]
  rw [← hntrN]
  -- strip the dummy columns of each row
  have hrow : ∀ t : Nat,
      ((List.range ((uint16At data 3220).toNat + bytes_STH / bps)).map (fun s =>
        rawDecodeAt data (int16At data 3224)
          (bytes_SFH + (t * ((uint16At data 3220).toNat + bytes_STH / bps) + s) * bps))).drop
        (bytes_STH / bps) =
      (List.range (uint16At data 3220).toNat).map (fun s =>
        rawDecodeAt data (int16At data 3224)
          (bytes_SFH + (bytes_STH + (uint16At data 3220).toNat * bps) * t + bytes_STH
            + s * bps)) := by
    intro t
    rw [show (uint16At data 3220).toNat + bytes_STH / bps =
      bytes_STH / bps + (uint16At data 3220).toNat from by ring]
    rw [map_range_drop]
    apply List.map_congr_left
    intro s _
    refine congrArg (rawDecodeAt data (int16At data 3224)) ?_
    have h1 : (bytes_STH / bps) * bps = 240 := hdn
    have h2 : (t * (bytes_STH / bps + (uint16At data 3220).toNat) + (bytes_STH / bps + s)) * bps
        = t * (bytes_STH / bps * bps + (uint16At data 3220).toNat * bps)
          + bytes_STH / bps * bps + s * bps := by ring
    rw [h2, h1]
    simp only [bytes_STH]
    ring
  refine congrArg (fun r => Except.ok (SegyRead.mk r (shOf data bps) sth)) ?_
  rw [if_neg hne8, List.map_map]
  apply List.map_congr_left
  intro t _
  simp only [Function.comp_apply]
  rw [hrow t]
  apply List.map_congr_left
  intro s _
  show rawDecodeAt data (int16At data 3224) _ =
    sampleDecodeAt data (int16At data 3224) _
  unfold sampleDecodeAt
  rw [if_neg hne8]

/-! ## The encode side

`writeSegy` packs the header block and the per-trace blocks with
`structPack1` and assembles the file through positioned writes.  The
lemmas below characterize each packing step and the final buffer. -/

theorem structPack1_int32 (v : Int) (h1 : -(2 ^ 31) ≤ v) (h2 : v < 2 ^ 31) :
    structPack1 v "int32" = .ok (bytesOfNat 4 (v.emod (2 ^ 32)).toNat) := by
  show (if -(2 ^ 31) ≤ v ∧ v < 2 ^ 31 then
      (Except.ok (bytesOfNat 4 (v.emod (2 ^ 32)).toNat) : Except String (List Nat))
    else .error packErr) = Except.ok (bytesOfNat 4 (v.emod (2 ^ 32)).toNat)
  rw [if_pos ⟨h1, h2⟩]

theorem structPack1_int16 (v : Int) (h1 : -(2 ^ 15) ≤ v) (h2 : v < 2 ^ 15) :
    structPack1 v "int16" = .ok (bytesOfNat 2 (v.emod (2 ^ 16)).toNat) := by
  show (if -(2 ^ 15) ≤ v ∧ v < 2 ^ 15 then
      (Except.ok (bytesOfNat 2 (v.emod (2 ^ 16)).toNat) : Except String (List Nat))
    else .error packErr) = Except.ok (bytesOfNat 2 (v.emod (2 ^ 16)).toNat)
  rw [if_pos ⟨h1, h2⟩]

theorem structPack1_uint16 (v : Int) (h1 : 0 ≤ v) (h2 : v < 2 ^ 16) :
    structPack1 v "uint16" = .ok (bytesOfNat 2 v.toNat) := by
  show (if 0 ≤ v ∧ v < 2 ^ 16 then
      (Except.ok (bytesOfNat 2 v.toNat) : Except String (List Nat))
    else .error packErr) = Except.ok (bytesOfNat 2 v.toNat)
  rw [if_pos ⟨h1, h2⟩]

theorem structPack1_uchar (v : Int) (h1 : 0 ≤ v) (h2 : v < 2 ^ 8) :
    structPack1 v "uchar" = .ok [v.toNat] := by
  show (if 0 ≤ v ∧ v < 2 ^ 8 then
      (Except.ok [v.toNat] : Except String (List Nat))
    else .error packErr) = Except.ok [v.toNat]
  rw [if_pos ⟨h1, h2⟩]

theorem structPack1_float32 (v : Int) (h1 : 0 ≤ v) (h2 : v < 2 ^ 32) :
    structPack1 v "float32" = .ok (bytesOfNat 4 v.toNat) := by
  show (if 0 ≤ v ∧ v < 2 ^ 32 then
      (Except.ok (bytesOfNat 4 v.toNat) : Except String (List Nat))
    else .error packErr) = Except.ok (bytesOfNat 4 v.toNat)
  rw [if_pos ⟨h1, h2⟩]

/-- `np.int32` storage is the identity on in-range values. -/
theorem wrap32_id (v : Int) (h1 : -(2 ^ 31) ≤ v) (h2 : v < 2 ^ 31) : wrap32 v = v := by
  have h : (v + 2 ^ 31).emod (2 ^ 32) = v + 2 ^ 31 :=
    Int.emod_eq_of_lt (by omega) (by omega)
  unfold wrap32
  rw [h]
  ring

theorem mapM_pack_ok (L : List FieldDef) (val : FieldDef → Int) (g : FieldDef → List Nat)
    (h : ∀ e ∈ L, structPack1 (val e) e.ty = .ok (g e)) :
    L.mapM (fun e => structPack1 (val e) e.ty) = .ok (L.map g) := by
  induction L with
  | nil => rfl
  | cons e t ih =>
    rw [List.mapM_cons, h e (by simp)]
    simp only [ok_bind]
    rw [ih (fun x hx => h x (by simp [hx]))]
    simp

/-- The 68 bytes the header-block loop emits for the header dictionary
`setSegyHeaders(getDefaultSegyHeader(), ntraces, ns, dt, dsf)`:
each `SH_def` entry once, in declaration order. -/
def shBytes (ns dt dsf : Int) : List Nat :=
  List.replicate 16 0 ++ bytesOfNat 2 dt.toNat ++ [0, 0] ++ bytesOfNat 2 ns.toNat
    ++ [0, 0] ++ bytesOfNat 2 (dsf.emod (2 ^ 16)).toNat ++ List.replicate 34 0
    ++ [0, 100] ++ List.replicate 6 0

@[simp] theorem length_shBytes (ns dt dsf : Int) : (shBytes ns dt dsf).length = 68 := by
  simp [shBytes]

/-- Per-field bytes of the header block described by `shBytes`. -/
def shFieldBytes (ns dt dsf : Int) (e : FieldDef) : List Nat :=
  if e.name = "dt" then bytesOfNat 2 dt.toNat
  else if e.name = "ns" then bytesOfNat 2 ns.toNat
  else if e.name = "DataSampleFormat" then bytesOfNat 2 (dsf.emod (2 ^ 16)).toNat
  else if e.name = "SegyFormatRevisionNumber" then [0, 100]
  else if e.ty = "int32" then [0, 0, 0, 0]
  else [0, 0]

theorem packFields_SH_write (nt ns dt dsf : Int)
    (hns1 : 0 ≤ ns) (hns2 : ns < 2 ^ 16) (hdt1 : 0 ≤ dt) (hdt2 : dt < 2 ^ 16)
    (hdsf1 : -(2 ^ 15) ≤ dsf) (hdsf2 : dsf < 2 ^ 15) :
    packFields SH_def
        (fun e => dictGet (setSegyHeaders getDefaultSegyHeader nt ns dt dsf) e.name)
      = .ok (shBytes ns dt dsf) := by
  have helem : ∀ e ∈ SH_def,
      structPack1 (dictGet (setSegyHeaders getDefaultSegyHeader nt ns dt dsf) e.name) e.ty
        = .ok (shFieldBytes ns dt dsf e) := by
    intro e he
    have hdtp : structPack1 (dictGet (setSegyHeaders getDefaultSegyHeader nt ns dt dsf)
        "dt") "uint16" = .ok (bytesOfNat 2 dt.toNat) := by
      show structPack1 dt "uint16" = _
      exact structPack1_uint16 dt hdt1 hdt2
    have hnsp : structPack1 (dictGet (setSegyHeaders getDefaultSegyHeader nt ns dt dsf)
        "ns") "uint16" = .ok (bytesOfNat 2 ns.toNat) := by
      show structPack1 ns "uint16" = _
      exact structPack1_uint16 ns hns1 hns2
    have hdsfp : structPack1 (dictGet (setSegyHeaders getDefaultSegyHeader nt ns dt dsf)
        "DataSampleFormat") "int16" = .ok (bytesOfNat 2 (dsf.emod (2 ^ 16)).toNat) := by
      show structPack1 dsf "int16" = _
      exact structPack1_int16 dsf hdsf1 hdsf2
    simp only [SH_def, List.mem_cons, List.not_mem_nil, or_false] at he
    rcases he with rfl | rfl | rfl | rfl | rfl | rfl | rfl | rfl | rfl | rfl | rfl | rfl
      | rfl | rfl | rfl | rfl | rfl | rfl | rfl | rfl | rfl | rfl | rfl | rfl | rfl
      | rfl | rfl | rfl | rfl | rfl | rfl
    all_goals first
      | exact (rfl : structPack1 0 "int32" = Except.ok [0, 0, 0, 0])
      | exact (rfl : structPack1 0 "int16" = Except.ok [0, 0])
      | exact (rfl : structPack1 0 "uint16" = Except.ok [0, 0])
      | exact (rfl : structPack1 100 "uint16" = Except.ok [0, 100])
      | exact hdtp
      | exact hnsp
      | exact hdsfp
  unfold packFields
  rw [mapM_pack_ok SH_def _ (shFieldBytes ns dt dsf) helem]
  simp only [ok_bind, pure_eq_ok]
  rfl

/-- The 240 bytes the trace-header loop emits for trace `a` under the
synthesized trace-header values of `setSegyTraceHeaders`. -/
def sthBytes (ns dt : Int) (a : Nat) : List Nat :=
  bytesOfNat 4 (a + 1) ++ bytesOfNat 4 (a + 1) ++ [0, 0, 3, 232] ++ bytesOfNat 4 (a + 1)
    ++ List.replicate 98 0 ++ bytesOfNat 2 ns.toNat ++ bytesOfNat 2 dt.toNat
    ++ List.replicate 122 0

set_option maxRecDepth 8000 in
@[simp] theorem length_sthBytes (ns dt : Int) (a : Nat) : (sthBytes ns dt a).length = 240 := by
  simp [sthBytes]

/-- Per-field bytes of the synthesized trace header. -/
def sthFieldBytes (ns dt : Int) (a : Nat) (e : FieldDef) : List Nat :=
  if e.name = "TraceSequenceLine" ∨ e.name = "TraceSequenceFile" ∨ e.name = "TraceNumber" then
    bytesOfNat 4 (a + 1)
  else if e.name = "FieldRecord" then [0, 0, 3, 232]
  else if e.name = "ns" then bytesOfNat 2 ns.toNat
  else if e.name = "dt" then bytesOfNat 2 dt.toNat
  else if e.ty = "int32" then [0, 0, 0, 0]
  else [0, 0]

/-- The name/type discipline of `STH_def` needed to pack a synthesized
trace header. -/
theorem STH_def_tys : ∀ e ∈ STH_def,
    ((e.name = "TraceSequenceLine" ∨ e.name = "TraceSequenceFile" ∨ e.name = "TraceNumber")
        → e.ty = "int32")
      ∧ (e.name = "FieldRecord" → e.ty = "int32")
      ∧ (e.name = "ns" → e.ty = "uint16")
      ∧ (e.name = "dt" → e.ty = "uint16")
      ∧ (e.ty = "int32" ∨ e.ty = "int16" ∨ e.ty = "uint16") := by
  decide

set_option maxHeartbeats 2000000 in
set_option maxRecDepth 4000 in
theorem packFields_STH_write (ns dt : Int) (a : Nat)
    (hns1 : 0 ≤ ns) (hns2 : ns < 2 ^ 16) (hdt1 : 0 ≤ dt) (hdt2 : dt < 2 ^ 16)
    (ha : (a : Int) + 1 < 2 ^ 31) :
    packFields STH_def (fun e => sthSynthValue ns dt e.name a) = .ok (sthBytes ns dt a) := by
  have hseq : structPack1 (wrap32 ((a : Int) + 1)) "int32" = .ok (bytesOfNat 4 (a + 1)) := by
    rw [wrap32_id _ (by omega) ha, structPack1_int32 _ (by omega) ha]
    have h1 : ((a : Int) + 1).emod (2 ^ 32) = (a : Int) + 1 :=
      Int.emod_eq_of_lt (by omega) (by omega)
    have h2 : (((a : Int) + 1).emod (2 ^ 32)).toNat = a + 1 := by
      rw [h1]
      omega
    rw [h2]
  have hnsv : structPack1 (wrap32 ns) "uint16" = .ok (bytesOfNat 2 ns.toNat) := by
    rw [wrap32_id ns (by omega) (by omega)]
    exact structPack1_uint16 ns hns1 hns2
  have hdtv : structPack1 (wrap32 dt) "uint16" = .ok (bytesOfNat 2 dt.toNat) := by
    rw [wrap32_id dt (by omega) (by omega)]
    exact structPack1_uint16 dt hdt1 hdt2
  have helem : ∀ e ∈ STH_def,
      structPack1 (sthSynthValue ns dt e.name a) e.ty = .ok (sthFieldBytes ns dt a e) := by
    intro e he
    have hty := STH_def_tys e he
    by_cases h1 : e.name = "TraceSequenceLine" ∨ e.name = "TraceSequenceFile"
        ∨ e.name = "TraceNumber"
    · have hty32 := hty.1 h1
      have hval : sthSynthValue ns dt e.name a = wrap32 ((a : Int) + 1) := by
        rcases h1 with h | h | h <;> simp [sthSynthValue, h]
      have hfb : sthFieldBytes ns dt a e = bytesOfNat 4 (a + 1) := by
        simp [sthFieldBytes, h1]
      rw [hval, hty32, hfb]
      exact hseq
    · push_neg at h1
      by_cases h2 : e.name = "FieldRecord"
      · have hty32 := hty.2.1 h2
        have hval : sthSynthValue ns dt e.name a = wrap32 1000 := by
          simp [sthSynthValue, h1.1, h1.2.1, h2]
        have hfb : sthFieldBytes ns dt a e = [0, 0, 3, 232] := by
          simp [sthFieldBytes, h1.1, h1.2.1, h1.2.2, h2]
        rw [hval, hty32, hfb]
        exact (rfl : structPack1 (wrap32 1000) "int32" = Except.ok [0, 0, 3, 232])
      · by_cases h3 : e.name = "ns"
        · have htyu := hty.2.2.1 h3
          have hval : sthSynthValue ns dt e.name a = wrap32 ns := by
            simp [sthSynthValue, h1.1, h1.2.1, h1.2.2, h2, h3]
          have hfb : sthFieldBytes ns dt a e = bytesOfNat 2 ns.toNat := by
            simp [sthFieldBytes, h1.1, h1.2.1, h1.2.2, h2, h3]
          rw [hval, htyu, hfb]
          exact hnsv
        · by_cases h4 : e.name = "dt"
          · have htyu := hty.2.2.2.1 h4
            have hval : sthSynthValue ns dt e.name a = wrap32 dt := by
              simp [sthSynthValue, h1.1, h1.2.1, h1.2.2, h2, h3, h4]
            have hfb : sthFieldBytes ns dt a e = bytesOfNat 2 dt.toNat := by
              simp [sthFieldBytes, h1.1, h1.2.1, h1.2.2, h2, h3, h4]
            rw [hval, htyu, hfb]
            exact hdtv
          · have hval : sthSynthValue ns dt e.name a = wrap32 0 := by
              simp [sthSynthValue, h1.1, h1.2.1, h1.2.2, h2, h3, h4]
            rcases hty.2.2.2.2 with hty' | hty' | hty'
            · have hfb : sthFieldBytes ns dt a e = [0, 0, 0, 0] := by
                simp [sthFieldBytes, h1.1, h1.2.1, h1.2.2, h2, h3, h4, hty']
              rw [hval, hty', hfb]
              exact (rfl : structPack1 (wrap32 0) "int32" = Except.ok [0, 0, 0, 0])
            · have hfb : sthFieldBytes ns dt a e = [0, 0] := by
                simp [sthFieldBytes, h1.1, h1.2.1, h1.2.2, h2, h3, h4, hty']
              rw [hval, hty', hfb]
              exact (rfl : structPack1 (wrap32 0) "int16" = Except.ok [0, 0])
            · have hfb : sthFieldBytes ns dt a e = [0, 0] := by
                simp [sthFieldBytes, h1.1, h1.2.1, h1.2.2, h2, h3, h4, hty']
              rw [hval, hty', hfb]
              exact (rfl : structPack1 (wrap32 0) "uint16" = Except.ok [0, 0])
  unfold packFields
  rw [mapM_pack_ok STH_def _ (sthFieldBytes ns dt a) helem]
  simp only [ok_bind, pure_eq_ok]
  rfl

/-- A positioned write at or past the end of the file appends
(zero-filling the gap). -/
theorem overwriteAt_atEnd (buf bs : List Nat) (p : Nat) (h : buf.length ≤ p) :
    overwriteAt buf p bs = buf ++ List.replicate (p - buf.length) 0 ++ bs := by
  unfold overwriteAt
  rw [List.take_of_length_le h, List.drop_eq_nil_of_le (by omega)]
  simp

theorem overwriteAt_exact (buf bs : List Nat) :
    overwriteAt buf buf.length bs = buf ++ bs := by
  rw [overwriteAt_atEnd buf bs buf.length (le_refl _)]
  simp

/-- The per-trace loop, when every remaining iteration packs, writes
its blocks back-to-back at the current end of file. -/
theorem writeTraces_exact (src : NpDtype) (sthVal : String → Nat → Int) (dtypeStr : String)
    (ns tbs : Nat) (cols : List (List Int)) (blk : Nat → List Nat) :
    ∀ (r a idx : Nat) (f : PyFile), f.buf.length = idx →
    (∀ k, k < r →
      ∃ th col smp,
        packFields STH_def (fun e => sthVal e.name (a + k)) = .ok th
        ∧ colAt cols (a + k) = .ok col
        ∧ packSamples dtypeStr src ns col = .ok smp
        ∧ th ++ smp = blk (a + k)
        ∧ (blk (a + k)).length = tbs) →
    ∃ fN, writeTraces src sthVal dtypeStr ns tbs cols r a idx f = .ok fN
      ∧ fN.buf = f.buf ++ ((List.range r).map (fun k => blk (a + k))).flatten := by
  intro r
  induction r with
  | zero =>
    intro a idx f hf _
    exact ⟨f, rfl, by simp⟩
  | succ r ih =>
    intro a idx f hf hblk
    obtain ⟨th, col, smp, hth, hcol, hsmp, hcat, hlen⟩ := hblk 0 (Nat.succ_pos r)
    simp only [Nat.add_zero] at hth hcol hsmp hcat hlen
    have hstep : writeTraces src sthVal dtypeStr ns tbs cols (r + 1) a idx f = (do
        let thBytes ← packFields STH_def (fun e => sthVal e.name a)
        let c ← colAt cols a
        let smpB ← packSamples dtypeStr src ns c
        let f2 := fwrite (fseek f idx) (thBytes ++ smpB)
        writeTraces src sthVal dtypeStr ns tbs cols r (a + 1) (idx + tbs) f2) := rfl
    rw [hstep, hth]
    simp only [ok_bind]
    rw [hcol]
    simp only [ok_bind]
    rw [hsmp]
    simp only [ok_bind]
    have hbuf2 : (fwrite (fseek f idx) (th ++ smp)).buf = f.buf ++ (th ++ smp) := by
      show overwriteAt f.buf idx (th ++ smp) = _
      rw [← hf, overwriteAt_exact]
    have hlen2 : (fwrite (fseek f idx) (th ++ smp)).buf.length = idx + tbs := by
      have h1 : (th ++ smp).length = tbs := by rw [hcat]; exact hlen
      rw [hbuf2]
      simp only [List.length_append] at h1 ⊢
      omega
    have hblk2 : ∀ k, k < r →
        ∃ th' col' smp',
          packFields STH_def (fun e => sthVal e.name (a + 1 + k)) = .ok th'
          ∧ colAt cols (a + 1 + k) = .ok col'
          ∧ packSamples dtypeStr src ns col' = .ok smp'
          ∧ th' ++ smp' = blk (a + 1 + k)
          ∧ (blk (a + 1 + k)).length = tbs := by
      intro k hk
      have := hblk (k + 1) (by omega)
      rw [show a + (k + 1) = a + 1 + k from by omega] at this
      exact this
    obtain ⟨fN, hrun, hbufN⟩ := ih (a + 1) (idx + tbs) (fwrite (fseek f idx) (th ++ smp))
      hlen2 hblk2
    refine ⟨fN, hrun, ?_⟩
    rw [hbufN, hbuf2, List.range_succ_eq_map, List.map_cons, List.flatten_cons,
      Nat.add_zero, List.map_map]
    have hfun : (List.range r).map ((fun k => blk (a + k)) ∘ Nat.succ) =
        (List.range r).map (fun k => blk (a + 1 + k)) := by
      apply List.map_congr_left
      intro k _
      simp only [Function.comp_apply]
      exact congrArg blk (by omega)
    rw [hfun, hcat]
    simp [List.append_assoc]

/-- The whole per-trace loop from a seek position at or past the end
of file (the gap is zero-filled by the first positioned write). -/
theorem writeTraces_start (src : NpDtype) (sthVal : String → Nat → Int) (dtypeStr : String)
    (ns tbs : Nat) (cols : List (List Int)) (blk : Nat → List Nat) (m idx : Nat)
    (f : PyFile) (hf : f.buf.length ≤ idx)
    (hblk : ∀ k, k < m + 1 →
      ∃ th col smp,
        packFields STH_def (fun e => sthVal e.name k) = .ok th
        ∧ colAt cols k = .ok col
        ∧ packSamples dtypeStr src ns col = .ok smp
        ∧ th ++ smp = blk k
        ∧ (blk k).length = tbs) :
    ∃ fN, writeTraces src sthVal dtypeStr ns tbs cols (m + 1) 0 idx f = .ok fN
      ∧ fN.buf = f.buf ++ List.replicate (idx - f.buf.length) 0
          ++ ((List.range (m + 1)).map blk).flatten := by
  obtain ⟨th, col, smp, hth, hcol, hsmp, hcat, hlen⟩ := hblk 0 (Nat.succ_pos m)
  have hstep : writeTraces src sthVal dtypeStr ns tbs cols (m + 1) 0 idx f = (do
      let thBytes ← packFields STH_def (fun e => sthVal e.name 0)
      let c ← colAt cols 0
      let smpB ← packSamples dtypeStr src ns c
      let f2 : PyFile := fwrite (fseek f idx) (thBytes ++ smpB)
      writeTraces src sthVal dtypeStr ns tbs cols m (0 + 1) (idx + tbs) f2) := rfl
  rw [hstep, hth]
  simp only [ok_bind]
  rw [hcol]
  simp only [ok_bind]
  rw [hsmp]
  simp only [ok_bind]
  have hbuf2 : (fwrite (fseek f idx) (th ++ smp)).buf
      = f.buf ++ List.replicate (idx - f.buf.length) 0 ++ (th ++ smp) := by
    show overwriteAt f.buf idx (th ++ smp) = _
    exact overwriteAt_atEnd _ _ _ hf
  have hlen2 : (fwrite (fseek f idx) (th ++ smp)).buf.length = idx + tbs := by
    have h1 : (th ++ smp).length = tbs := by rw [hcat]; exact hlen
    rw [hbuf2]
    simp only [List.length_append, List.length_replicate] at h1 ⊢
    omega
  have hblk2 : ∀ k, k < m →
      ∃ th' col' smp',
        packFields STH_def (fun e => sthVal e.name (0 + 1 + k)) = .ok th'
        ∧ colAt cols (0 + 1 + k) = .ok col'
        ∧ packSamples dtypeStr src ns col' = .ok smp'
        ∧ th' ++ smp' = blk (0 + 1 + k)
        ∧ (blk (0 + 1 + k)).length = tbs := by
    intro k hk
    have := hblk (k + 1) (by omega)
    rw [show k + 1 = 0 + 1 + k from by omega] at this
    exact this
  obtain ⟨fN, hrun, hbufN⟩ := writeTraces_exact src sthVal dtypeStr ns tbs cols blk m
    (0 + 1) (idx + tbs) (fwrite (fseek f idx) (th ++ smp)) hlen2 hblk2
  refine ⟨fN, hrun, ?_⟩
  rw [hbufN, hbuf2, List.range_succ_eq_map, List.map_cons, List.flatten_cons, List.map_map]
  have hfun : (List.range m).map ((fun k => blk k) ∘ Nat.succ) =
      (List.range m).map (fun k => blk (0 + 1 + k)) := by
    apply List.map_congr_left
    intro k _
    simp only [Function.comp_apply]
    exact congrArg blk (by omega)
  rw [hfun, hcat]
  simp [List.append_assoc]

/-- `lookup2` of the bytes-per-sample table on a supported pair. -/
theorem dsfBps_of_case {d : Int} {bps : Nat} (h : DsfCase d bps) :
    lookup2 dsfBps 1 d = .ok bps := by
  rcases h with ⟨hd, hb⟩ | ⟨hd, hb⟩ | ⟨hd, hb⟩ | ⟨hd, hb⟩ | ⟨hd, hb⟩ <;>
    subst hd <;> subst hb <;> rfl

/-- The file `writeSegyStructure` produces: the textual header
(zero-padded to 3200 when shorter), the 68-byte header block, zero
fill to 3600, then the trace blocks back-to-back. -/
def mkSegyBuf (stfh shB : List Nat) (blocks : List (List Nat)) : List Nat :=
  stfh ++ List.replicate (3200 - stfh.length) 0 ++ shB
    ++ List.replicate (400 - shB.length) 0 ++ blocks.flatten

theorem writeSegyStructure_eq (g : NpGrid) (STFH : List Nat) (SH : List (String × Int))
    (sthVal : String → Nat → Int) (shB : List Nat) (bps : Nat) (blk : Nat → List Nat)
    (m : Nat)
    (hascii : STFH.all (fun b => b < 128) = true)
    (hstfh : STFH.length ≤ 3200)
    (hrev : getRevisionNumber SH = .ok 1)
    (hdsf : DsfCase (dictGet SH "DataSampleFormat") bps)
    (hsh : packFields SH_def (fun e => dictGet SH e.name) = .ok shB)
    (hshlen : shB.length ≤ 400)
    (hnt : (dictGet SH "ntraces").toNat = m + 1)
    (hblk : ∀ k, k < m + 1 →
      ∃ th col smp,
        packFields STH_def (fun e => sthVal e.name k) = .ok th
        ∧ colAt g.cols k = .ok col
        ∧ packSamples (dsfTyStr (dictGet SH "DataSampleFormat")) g.dtype
            ((dictGet SH "ns").toNat) col = .ok smp
        ∧ th ++ smp = blk k
        ∧ (blk k).length = bytes_STH + (dictGet SH "ns").toNat * bps) :
    writeSegyStructure g STFH SH sthVal =
      .ok (mkSegyBuf STFH shB ((List.range (m + 1)).map blk)) := by
  unfold writeSegyStructure
  rw [if_pos hascii, hrev]
  simp only [ok_bind]
  obtain ⟨descr, hdescr⟩ := dsfDescr_isOk hdsf
  rw [hdescr]
  simp only [ok_bind]
  rw [hsh]
  simp only [ok_bind]
  rw [dsfDatatype_dsfTyStr hdsf]
  simp only [ok_bind]
  rw [dsfBps_of_case hdsf]
  simp only [ok_bind]
  have hbuf1 : (fwrite (⟨[], 0⟩ : PyFile) STFH).buf = STFH := by
    show overwriteAt [] 0 STFH = STFH
    simp [overwriteAt]
  have hbuf2 : (fwrite (fseek (fwrite (⟨[], 0⟩ : PyFile) STFH) bytes_STFH) shB).buf
      = STFH ++ List.replicate (3200 - STFH.length) 0 ++ shB := by
    show overwriteAt (fwrite (⟨[], 0⟩ : PyFile) STFH).buf 3200 shB = _
    rw [hbuf1, overwriteAt_atEnd STFH shB 3200 hstfh]
  have hlen2 : (fwrite (fseek (fwrite (⟨[], 0⟩ : PyFile) STFH) bytes_STFH) shB).buf.length
      = 3200 + shB.length := by
    rw [hbuf2]
    simp only [List.length_append, List.length_replicate]
    omega
  rw [hnt]
  obtain ⟨fN, hrun, hbufN⟩ := writeTraces_start g.dtype sthVal
    (dsfTyStr (dictGet SH "DataSampleFormat")) ((dictGet SH "ns").toNat)
    (bytes_STH + (dictGet SH "ns").toNat * bps) g.cols blk m (bytes_STFH + bytes_SBFH)
    (fwrite (fseek (fwrite (⟨[], 0⟩ : PyFile) STFH) bytes_STFH) shB)
    (by rw [hlen2]; show 3200 + shB.length ≤ 3600; omega)
    hblk
  rw [hrun]
  simp only [ok_bind, pure_eq_ok]
  rw [hbufN, hbuf2]
  have h4 : bytes_STFH + bytes_SBFH
      - (STFH ++ List.replicate (3200 - STFH.length) 0 ++ shB).length = 400 - shB.length := by
    simp only [List.length_append, List.length_replicate, bytes_STFH, bytes_SBFH]
    omega
  rw [h4]
  unfold mkSegyBuf
  simp [List.append_assoc]

theorem colAt_ok (cols : List (List Int)) (k : Nat) (h : k < cols.length) :
    colAt cols k = .ok (cols.getD k []) := by
  have h1 : cols.get? k = some (cols.getD k []) := by
    rw [List.get?_eq_getElem?, List.getElem?_eq_getElem h, List.getD_eq_getElem cols [] h]
  unfold colAt
  rw [h1]

/-- **The encode pipeline, fully characterized.**  `writeSegy` on a
non-empty rectangular grid of a supported dtype, with an ASCII textual
header of at most 3200 bytes and in-range `ns`/`dt`, produces exactly
`mkSegyBuf`: textual header (zero-padded), the 68-byte header block at
3200, zero fill to 3600, then one `240 + ns·bps`-byte block per trace. -/
theorem writeSegy_eq (g : NpGrid) (dt dsf : Int) (stfh : List Nat) (bps : Nat)
    (smpB : Nat → List Nat) (m : Nat)
    (hascii : stfh.all (fun b => b < 128) = true)
    (hstfh : stfh.length ≤ 3200)
    (hdsf : getDSF_fromDataType g.dtype = .ok dsf)
    (hcase : DsfCase dsf bps)
    (hns : g.ns < 2 ^ 16)
    (hdt1 : 0 ≤ dt) (hdt2 : dt < 2 ^ 16)
    (hm : g.cols.length = m + 1)
    (hnt_small : g.cols.length < 2 ^ 31)
    (hsmp : ∀ k, k < g.cols.length →
      packSamples (dsfTyStr dsf) g.dtype g.ns (g.cols.getD k []) = .ok (smpB k)
        ∧ (smpB k).length = g.ns * bps) :
    writeSegy g dt stfh = .ok (mkSegyBuf stfh (shBytes (g.ns : Int) dt dsf)
      ((List.range (m + 1)).map (fun k => sthBytes (g.ns : Int) dt k ++ smpB k))) := by
  unfold writeSegy
  rw [hdsf]
  simp only [ok_bind]
  have hdsfg : dictGet (setSegyHeaders getDefaultSegyHeader (g.cols.length : Int)
      (g.ns : Int) dt dsf) "DataSampleFormat" = dsf := rfl
  have hnsg : dictGet (setSegyHeaders getDefaultSegyHeader (g.cols.length : Int)
      (g.ns : Int) dt dsf) "ns" = (g.ns : Int) := by
    unfold setSegyHeaders
    rw [dictGet_dictSet_ne _ _ _ _ (by decide), dictGet_dictSet_ne _ _ _ _ (by decide),
      dictGet_dictSet_same]
  have hntg : dictGet (setSegyHeaders getDefaultSegyHeader (g.cols.length : Int)
      (g.ns : Int) dt dsf) "ntraces" = (g.cols.length : Int) := by
    unfold setSegyHeaders
    rw [dictGet_dictSet_ne _ _ _ _ (by decide), dictGet_dictSet_ne _ _ _ _ (by decide),
      dictGet_dictSet_ne _ _ _ _ (by decide), dictGet_dictSet_same]
  have hdsfb : -(2 ^ 15) ≤ dsf ∧ dsf < 2 ^ 15 := by
    rcases hcase with ⟨h, _⟩ | ⟨h, _⟩ | ⟨h, _⟩ | ⟨h, _⟩ | ⟨h, _⟩ <;> subst h <;>
      exact ⟨by norm_num, by norm_num⟩
  apply writeSegyStructure_eq g stfh _ _ (shBytes (g.ns : Int) dt dsf) bps
    (fun k => sthBytes (g.ns : Int) dt k ++ smpB k) m hascii hstfh
  · rfl
  · rw [hdsfg]
    exact hcase
  · exact packFields_SH_write (g.cols.length : Int) (g.ns : Int) dt dsf
      (Int.natCast_nonneg _) (by exact_mod_cast hns) hdt1 hdt2 hdsfb.1 hdsfb.2
  · rw [length_shBytes]
    omega
  · rw [hntg, Int.toNat_natCast]
    exact hm
  · intro k hk
    have hkc : k < g.cols.length := by omega
    refine ⟨sthBytes (g.ns : Int) dt k, g.cols.getD k [], smpB k, ?_, ?_, ?_, rfl, ?_⟩
    · exact packFields_STH_write (g.ns : Int) dt k (Int.natCast_nonneg _)
        (by exact_mod_cast hns) hdt1 hdt2
        (by
          have hks : k + 1 < 2 ^ 31 := by omega
          exact_mod_cast Int.ofNat_lt.mpr hks)
    · exact colAt_ok g.cols k hkc
    · rw [hdsfg, hnsg, Int.toNat_natCast]
      exact (hsmp k hkc).1
    · rw [hnsg, Int.toNat_natCast]
      simp only [List.length_append, length_sthBytes]
      rw [(hsmp k hkc).2]
      rfl

/-! ### Reading the written buffer back: byte-level positioning -/

theorem sliceAt_of_decomp {B P X S : List Nat} (hB : B = P ++ (X ++ S)) (p j n : Nat)
    (hp : P.length = p) (h : j + n ≤ X.length) :
    sliceAt B (p + j) n = sliceAt X j n := by
  subst hB
  subst hp
  rw [← List.append_assoc]
  exact sliceAt_middle P X S j n h

theorem flatten_const_length (blocks : List (List Nat)) (tbs : Nat)
    (h : ∀ b ∈ blocks, b.length = tbs) :
    blocks.flatten.length = blocks.length * tbs := by
  induction blocks with
  | nil => simp
  | cons b bs ih =>
    simp only [List.flatten_cons, List.length_append, List.length_cons]
    rw [h b (by simp), ih (fun x hx => h x (by simp [hx]))]
    ring

theorem flatten_const_decomp (blocks : List (List Nat)) (tbs : Nat)
    (h : ∀ b ∈ blocks, b.length = tbs) :
    ∀ t, t < blocks.length →
    ∃ P S, blocks.flatten = P ++ (blocks.getD t [] ++ S) ∧ P.length = tbs * t := by
  induction blocks with
  | nil => intro t ht; simp at ht
  | cons b bs ih =>
    intro t ht
    cases t with
    | zero =>
      refine ⟨[], bs.flatten, ?_, by simp⟩
      simp
    | succ t =>
      obtain ⟨P, S, hflat, hP⟩ := ih (fun x hx => h x (by simp [hx])) t
        (by simp at ht; omega)
      refine ⟨b ++ P, S, ?_, ?_⟩
      · simp only [List.flatten_cons, hflat, List.getD_cons_succ, List.append_assoc]
      · simp only [List.length_append, hP, h b (by simp)]
        ring

/-- Slices inside the header block of a written buffer read `shB`. -/
theorem mkSegyBuf_slice_shB (stfh shB : List Nat) (blocks : List (List Nat))
    (hstfh : stfh.length ≤ 3200) (j n : Nat) (h : j + n ≤ shB.length) :
    sliceAt (mkSegyBuf stfh shB blocks) (3200 + j) n = sliceAt shB j n := by
  apply sliceAt_of_decomp
    (P := stfh ++ List.replicate (3200 - stfh.length) 0)
    (S := List.replicate (400 - shB.length) 0 ++ blocks.flatten)
    (by simp [mkSegyBuf, List.append_assoc]) 3200 j n
    (by simp only [List.length_append, List.length_replicate]; omega) h

/-- Slices inside the zero fill between header block and first trace. -/
theorem mkSegyBuf_slice_fill (stfh shB : List Nat) (blocks : List (List Nat))
    (hstfh : stfh.length ≤ 3200) (hshB : shB.length = 68) (j n : Nat) (h : j + n ≤ 332) :
    sliceAt (mkSegyBuf stfh shB blocks) (3268 + j) n = sliceAt (List.replicate 332 0) j n := by
  apply sliceAt_of_decomp
    (P := stfh ++ List.replicate (3200 - stfh.length) 0 ++ shB)
    (S := blocks.flatten)
    (by
      rw [show (332 : Nat) = 400 - shB.length from by omega]
      simp [mkSegyBuf, List.append_assoc])
    3268 j n
    (by simp only [List.length_append, List.length_replicate]; omega)
    (by simp only [List.length_replicate]; omega)

theorem sliceAt_replicate_two (n j : Nat) (h : j + 2 ≤ n) :
    sliceAt (List.replicate n 0) j 2 = [0, 0] := by
  rw [sliceAt_two, getD_replicate n 0 j, getD_replicate n 0 (j + 1)]
  simp

/-- Slices inside the sample region of trace `t` of a written buffer
whose trace blocks are `sthB k ++ smpB k`. -/
theorem mkSegyBuf_slice_smp (stfh shB : List Nat) (sthB smpB : Nat → List Nat)
    (tbs mtot : Nat)
    (hstfh : stfh.length ≤ 3200) (hshB : shB.length = 68)
    (hsthB : ∀ k, k < mtot → (sthB k).length = 240)
    (hblk : ∀ k, k < mtot → (sthB k ++ smpB k).length = tbs)
    (t : Nat) (ht : t < mtot) (j n : Nat) (h : j + n ≤ (smpB t).length) :
    sliceAt (mkSegyBuf stfh shB ((List.range mtot).map (fun k => sthB k ++ smpB k)))
        (3600 + tbs * t + 240 + j) n
      = sliceAt (smpB t) j n := by
  obtain ⟨P, S, hflat, hP⟩ := flatten_const_decomp
    ((List.range mtot).map (fun k => sthB k ++ smpB k)) tbs
    (by
      intro b hb
      simp only [List.mem_map, List.mem_range] at hb
      obtain ⟨k, hkm, hk⟩ := hb
      rw [← hk]
      exact hblk k hkm)
    t (by simp [ht])
  have hgetD : ((List.range mtot).map (fun k => sthB k ++ smpB k)).getD t []
      = sthB t ++ smpB t := by
    rw [List.getD_eq_getElem _ _ (by simp [ht])]
    simp
  rw [hgetD] at hflat
  apply sliceAt_of_decomp
    (P := (stfh ++ List.replicate (3200 - stfh.length) 0 ++ shB
      ++ List.replicate (400 - shB.length) 0) ++ P ++ sthB t)
    (S := S)
    (by
      show mkSegyBuf _ _ _ = _
      unfold mkSegyBuf
      rw [hflat]
      simp [List.append_assoc])
    (3600 + tbs * t + 240) j n
    (by
      simp only [List.length_append, List.length_replicate, hP, hsthB t ht]
      omega)
    h

theorem shBytes_slice_dt (ns dt dsf : Int) :
    sliceAt (shBytes ns dt dsf) 16 2 = bytesOfNat 2 dt.toNat := by
  have h := sliceAt_of_decomp (B := shBytes ns dt dsf)
    (P := List.replicate 16 0) (X := bytesOfNat 2 dt.toNat)
    (S := [0, 0] ++ bytesOfNat 2 ns.toNat ++ [0, 0]
      ++ bytesOfNat 2 (dsf.emod (2 ^ 16)).toNat ++ List.replicate 34 0
      ++ [0, 100] ++ List.replicate 6 0)
    (by simp [shBytes, List.append_assoc]) 16 0 2 (by simp) (by simp)
  rw [Nat.add_zero] at h
  rw [h]
  have h2 := sliceAt_eq_self (bytesOfNat 2 dt.toNat)
  rwa [length_bytesOfNat] at h2

theorem shBytes_slice_ns (ns dt dsf : Int) :
    sliceAt (shBytes ns dt dsf) 20 2 = bytesOfNat 2 ns.toNat := by
  have h := sliceAt_of_decomp (B := shBytes ns dt dsf)
    (P := List.replicate 16 0 ++ bytesOfNat 2 dt.toNat ++ [0, 0])
    (X := bytesOfNat 2 ns.toNat)
    (S := [0, 0] ++ bytesOfNat 2 (dsf.emod (2 ^ 16)).toNat ++ List.replicate 34 0
      ++ [0, 100] ++ List.replicate 6 0)
    (by simp [shBytes, List.append_assoc]) 20 0 2 (by simp) (by simp)
  rw [Nat.add_zero] at h
  rw [h]
  have h2 := sliceAt_eq_self (bytesOfNat 2 ns.toNat)
  rwa [length_bytesOfNat] at h2

theorem shBytes_slice_dsf (ns dt dsf : Int) :
    sliceAt (shBytes ns dt dsf) 24 2 = bytesOfNat 2 (dsf.emod (2 ^ 16)).toNat := by
  have h := sliceAt_of_decomp (B := shBytes ns dt dsf)
    (P := List.replicate 16 0 ++ bytesOfNat 2 dt.toNat ++ [0, 0]
      ++ bytesOfNat 2 ns.toNat ++ [0, 0])
    (X := bytesOfNat 2 (dsf.emod (2 ^ 16)).toNat)
    (S := List.replicate 34 0 ++ [0, 100] ++ List.replicate 6 0)
    (by simp [shBytes, List.append_assoc]) 24 0 2 (by simp) (by simp)
  rw [Nat.add_zero] at h
  rw [h]
  have h2 := sliceAt_eq_self (bytesOfNat 2 (dsf.emod (2 ^ 16)).toNat)
  rwa [length_bytesOfNat] at h2

theorem shBytes_slice_rev (ns dt dsf : Int) :
    sliceAt (shBytes ns dt dsf) 60 2 = [0, 100] := by
  have h := sliceAt_of_decomp (B := shBytes ns dt dsf)
    (P := List.replicate 16 0 ++ bytesOfNat 2 dt.toNat ++ [0, 0]
      ++ bytesOfNat 2 ns.toNat ++ [0, 0]
      ++ bytesOfNat 2 (dsf.emod (2 ^ 16)).toNat ++ List.replicate 34 0)
    (X := [0, 100])
    (S := List.replicate 6 0)
    (by simp [shBytes, List.append_assoc]) 60 0 2 (by simp) (by simp)
  rw [Nat.add_zero] at h
  rw [h]
  exact sliceAt_eq_self [0, 100]

/-- The written buffer reads back `dt` at byte 3216. -/
theorem mkSegyBuf_val_dt (stfh : List Nat) (blocks : List (List Nat)) (ns dt dsf : Int)
    (hstfh : stfh.length ≤ 3200) (hdt1 : 0 ≤ dt) (hdt2 : dt < 2 ^ 16) :
    uint16At (mkSegyBuf stfh (shBytes ns dt dsf) blocks) 3216 = dt := by
  unfold uint16At
  have h := mkSegyBuf_slice_shB stfh (shBytes ns dt dsf) blocks hstfh 16 2 (by simp)
  norm_num at h
  rw [h, shBytes_slice_dt, natOfBytes_bytesOfNat_of_lt (by omega : dt.toNat < 256 ^ 2)]
  omega

/-- The written buffer reads back `ns` at byte 3220. -/
theorem mkSegyBuf_val_ns (stfh : List Nat) (blocks : List (List Nat)) (ns dt dsf : Int)
    (hstfh : stfh.length ≤ 3200) (hns1 : 0 ≤ ns) (hns2 : ns < 2 ^ 16) :
    uint16At (mkSegyBuf stfh (shBytes ns dt dsf) blocks) 3220 = ns := by
  unfold uint16At
  have h := mkSegyBuf_slice_shB stfh (shBytes ns dt dsf) blocks hstfh 20 2 (by simp)
  norm_num at h
  rw [h, shBytes_slice_ns, natOfBytes_bytesOfNat_of_lt (by omega : ns.toNat < 256 ^ 2)]
  omega

/-- The written buffer reads back the data-sample-format code at
byte 3224. -/
theorem mkSegyBuf_val_dsf (stfh : List Nat) (blocks : List (List Nat)) (ns dt dsf : Int)
    (hstfh : stfh.length ≤ 3200) (hdsf1 : -(2 ^ 15) ≤ dsf) (hdsf2 : dsf < 2 ^ 15) :
    int16At (mkSegyBuf stfh (shBytes ns dt dsf) blocks) 3224 = dsf := by
  unfold int16At
  have h := mkSegyBuf_slice_shB stfh (shBytes ns dt dsf) blocks hstfh 24 2 (by simp)
  norm_num at h
  rw [h, shBytes_slice_dsf]
  have h2 := toSigned_roundtrip 2 (by norm_num) dsf (by norm_num; omega) (by norm_num; omega)
  norm_num at h2
  exact h2

/-- Byte 3500 of a written buffer — where the header schema declares
the revision field — is zero fill. -/
theorem mkSegyBuf_val_3500 (stfh : List Nat) (blocks : List (List Nat)) (ns dt dsf : Int)
    (hstfh : stfh.length ≤ 3200) :
    uint16At (mkSegyBuf stfh (shBytes ns dt dsf) blocks) 3500 = 0 := by
  unfold uint16At
  have h := mkSegyBuf_slice_fill stfh (shBytes ns dt dsf) blocks hstfh (by simp)
    232 2 (by omega)
  norm_num at h
  rw [h, sliceAt_replicate_two 332 232 (by omega), natOfBytes_two]
  norm_num

/-- Byte 3260 of a written buffer — declared `Unassigned1` by the
schema — holds the written revision value 100. -/
theorem mkSegyBuf_val_3260 (stfh : List Nat) (blocks : List (List Nat)) (ns dt dsf : Int)
    (hstfh : stfh.length ≤ 3200) :
    uint16At (mkSegyBuf stfh (shBytes ns dt dsf) blocks) 3260 = 100 := by
  unfold uint16At
  have h := mkSegyBuf_slice_shB stfh (shBytes ns dt dsf) blocks hstfh 60 2 (by simp)
  norm_num at h
  rw [h, shBytes_slice_rev, natOfBytes_two]
  norm_num

/-! ### Per-dtype sample packing and its decode inverse -/

/-- The four (format, bytes-per-sample) pairs the encoder can select. -/
def EncCase (d : Int) (bps : Nat) : Prop :=
  (d = 2 ∧ bps = 4) ∨ (d = 3 ∧ bps = 2) ∨ (d = 5 ∧ bps = 4) ∨ (d = 8 ∧ bps = 1)

theorem EncCase_DsfCase {d : Int} {bps : Nat} (h : EncCase d bps) : DsfCase d bps := by
  rcases h with h | h | h | h
  · exact Or.inr (Or.inl h)
  · exact Or.inr (Or.inr (Or.inl h))
  · exact Or.inr (Or.inr (Or.inr (Or.inl h)))
  · exact Or.inr (Or.inr (Or.inr (Or.inr h)))

/-- `getDSF_fromDataType` selects exactly these dtype/format pairs. -/
theorem getDSF_cases {dty : NpDtype} {dsf : Int}
    (h : getDSF_fromDataType dty = .ok dsf) :
    (dty = NpDtype.int32 ∧ dsf = 2) ∨ (dty = NpDtype.int16 ∧ dsf = 3)
      ∨ (dty = NpDtype.float32 ∧ dsf = 5) ∨ (dty = NpDtype.float64 ∧ dsf = 5)
      ∨ (dty = NpDtype.int8 ∧ dsf = 8) := by
  cases dty <;> simp [getDSF_fromDataType] at h <;> simp [h]

/-- What must hold of a source sample `v` (with `u` the value the file
stores: `v` itself except for the float64 narrowing) for the packing
to succeed — the `struct` range checks. -/
def sampleOkFor : NpDtype → Int → Int → Prop
  | NpDtype.int32, v, u => u = v ∧ -(2 ^ 31) ≤ v ∧ v < 2 ^ 31
  | NpDtype.int16, v, u => u = v ∧ -(2 ^ 15) ≤ v ∧ v < 2 ^ 15
  | NpDtype.float32, v, u => u = v ∧ 0 ≤ v ∧ v < 2 ^ 32
  | NpDtype.float64, v, u => f32ofF64 v = .ok u ∧ 0 ≤ u ∧ u < 2 ^ 32
  | NpDtype.int8, v, u => u = v ∧ 0 ≤ v ∧ v < 2 ^ 8
  | _, _, _ => False

/-- The bytes one stored sample value occupies per format. -/
def pbOf (dsf : Int) (u : Int) : List Nat :=
  if dsf = 2 then bytesOfNat 4 (u.emod (2 ^ 32)).toNat
  else if dsf = 3 then bytesOfNat 2 (u.emod (2 ^ 16)).toNat
  else if dsf = 5 then bytesOfNat 4 u.toNat
  else [u.toNat]

/-- The stored-value range per format. -/
def pbRange (dsf : Int) (u : Int) : Prop :=
  if dsf = 2 then -(2 ^ 31) ≤ u ∧ u < 2 ^ 31
  else if dsf = 3 then -(2 ^ 15) ≤ u ∧ u < 2 ^ 15
  else if dsf = 5 then 0 ≤ u ∧ u < 2 ^ 32
  else 0 ≤ u ∧ u < 2 ^ 8

theorem length_pbOf {dsf : Int} {bps : Nat} (h : EncCase dsf bps) (u : Int) :
    (pbOf dsf u).length = bps := by
  rcases h with ⟨h1, h2⟩ | ⟨h1, h2⟩ | ⟨h1, h2⟩ | ⟨h1, h2⟩ <;> subst h1 <;> subst h2 <;>
    simp [pbOf]

theorem ucharAdjust_id (v : Int) (h1 : 0 ≤ v) (h2 : v < 256) : ucharAdjust v = v := by
  unfold ucharAdjust
  split_ifs with h
  · have h5 := Int.add_mul_emod_self_left (v - 256) 256 1
    have h7 : v - 256 + 256 * 1 = v := by ring
    rw [h7] at h5
    have h6 : (v - 256).emod 256 = v.emod 256 := h5.symm
    rw [h6]
    exact Int.emod_eq_of_lt h1 h2
  · rfl

/-- Ranges of the stored value per source dtype. -/
theorem sampleOkFor_range {dty : NpDtype} {dsf : Int} {v u : Int}
    (hdsf : getDSF_fromDataType dty = .ok dsf) (h : sampleOkFor dty v u) :
    pbRange dsf u := by
  rcases getDSF_cases hdsf with ⟨h1, h2⟩ | ⟨h1, h2⟩ | ⟨h1, h2⟩ | ⟨h1, h2⟩ | ⟨h1, h2⟩ <;>
    subst h1 <;> subst h2 <;>
    simp only [sampleOkFor] at h <;>
    unfold pbRange <;> norm_num <;> omega

/-- One sample through the pack loop, per source dtype. -/
theorem packSampleOne_ok {dty : NpDtype} {dsf : Int} {v u : Int}
    (hdsf : getDSF_fromDataType dty = .ok dsf) (h : sampleOkFor dty v u) :
    packSampleOne (dsfTyStr dsf) dty v = .ok (pbOf dsf u) := by
  rcases getDSF_cases hdsf with ⟨h1, h2⟩ | ⟨h1, h2⟩ | ⟨h1, h2⟩ | ⟨h1, h2⟩ | ⟨h1, h2⟩ <;>
    subst h1 <;> subst h2 <;> simp only [sampleOkFor] at h
  · obtain ⟨hu, hr1, hr2⟩ := h
    subst hu
    show structPack1 u "int32" = _
    rw [structPack1_int32 u hr1 hr2]
    rfl
  · obtain ⟨hu, hr1, hr2⟩ := h
    subst hu
    show structPack1 u "int16" = _
    rw [structPack1_int16 u hr1 hr2]
    rfl
  · obtain ⟨hu, hr1, hr2⟩ := h
    subst hu
    show structPack1 u "float32" = _
    rw [structPack1_float32 u hr1 hr2]
    rfl
  · obtain ⟨hf, hr1, hr2⟩ := h
    show (do
        let w ← f32ofF64 v
        structPack1 w "float32") = _
    rw [hf]
    simp only [ok_bind]
    rw [structPack1_float32 u hr1 hr2]
    rfl
  · obtain ⟨hu, hr1, hr2⟩ := h
    subst hu
    show structPack1 u "uchar" = _
    rw [structPack1_uchar u hr1 hr2]
    rfl

theorem mapM_samples_ok (vals : List Int) (f : Int → Except String (List Nat))
    (pb : Int → List Nat) (h : ∀ v ∈ vals, f v = .ok (pb v)) :
    vals.mapM f = .ok (vals.map pb) := by
  induction vals with
  | nil => rfl
  | cons v t ih =>
    rw [List.mapM_cons, h v (by simp)]
    simp only [ok_bind]
    rw [ih (fun x hx => h x (by simp [hx]))]
    simp

theorem packSamples_ok (dtypeStr : String) (src : NpDtype) (ns : Nat) (col : List Int)
    (pb : Int → List Nat) (hlen : col.length = ns)
    (h : ∀ v ∈ col, packSampleOne dtypeStr src v = .ok (pb v)) :
    packSamples dtypeStr src ns col = .ok ((col.map pb).flatten) := by
  unfold packSamples
  rw [if_pos hlen, mapM_samples_ok col _ pb h]
  rfl

/-- The decoded (and sign-processed) sample equals the stored value
whenever the slice at its position holds its packed bytes. -/
theorem sampleDecode_pbOf {dsf : Int} {bps : Nat} (h : EncCase dsf bps) (u : Int)
    (hr : pbRange dsf u) (B : List Nat) (p : Nat)
    (hslice : sliceAt B p bps = pbOf dsf u) :
    sampleDecodeAt B dsf p = u := by
  rcases h with ⟨h1, h2⟩ | ⟨h1, h2⟩ | ⟨h1, h2⟩ | ⟨h1, h2⟩ <;> subst h1 <;> subst h2 <;>
    unfold pbRange at hr <;> norm_num at hr <;> unfold pbOf at hslice <;>
    norm_num at hslice
  · rw [show sampleDecodeAt B 2 p = decodeFixed "int32" (sliceAt B p 4) from rfl, hslice]
    exact decode_int32_roundtrip u hr.1 hr.2
  · rw [show sampleDecodeAt B 3 p = decodeFixed "int16" (sliceAt B p 2) from rfl, hslice]
    exact decode_int16_roundtrip u hr.1 hr.2
  · rw [show sampleDecodeAt B 5 p = decodeFixed "float32" (sliceAt B p 4) from rfl, hslice]
    exact decode_float32_roundtrip u hr.1 hr.2
  · rw [show sampleDecodeAt B 8 p = ucharAdjust (decodeFixed "uchar" (sliceAt B p 1)) from rfl,
      hslice, decode_uchar_roundtrip u hr.1 hr.2]
    exact ucharAdjust_id u hr.1 (by omega)

theorem length_mkSegyBuf (stfh shB : List Nat) (blocks : List (List Nat))
    (hstfh : stfh.length ≤ 3200) (hshB : shB.length ≤ 400) :
    (mkSegyBuf stfh shB blocks).length = 3600 + blocks.flatten.length := by
  simp only [mkSegyBuf, List.length_append, List.length_replicate]
  omega

/-- The decoded header of a written buffer resolves the same
bytes-per-sample the encoder used (revision raw 0 read at 3500,
format code read back at 3224). -/
theorem getBytePerSample_mkSegyBuf (stfh : List Nat) (blocks : List (List Nat))
    (ns dt dsf : Int) (bps : Nat)
    (hstfh : stfh.length ≤ 3200) (hcase : EncCase dsf bps)
    (hdsf1 : -(2 ^ 15) ≤ dsf) (hdsf2 : dsf < 2 ^ 15) :
    getBytePerSample (decodedSH (mkSegyBuf stfh (shBytes ns dt dsf) blocks)) = .ok bps := by
  have hrev : getRevisionNumber (decodedSH (mkSegyBuf stfh (shBytes ns dt dsf) blocks))
      = .ok 1 := by
    unfold getRevisionNumber
    rw [dictGet_decodedSH_rev, mkSegyBuf_val_3500 stfh blocks ns dt dsf hstfh]
    rfl
  unfold getBytePerSample
  rw [hrev]
  simp only [ok_bind]
  rw [dictGet_decodedSH_dsf, mkSegyBuf_val_dsf stfh blocks ns dt dsf hstfh hdsf1 hdsf2]
  exact dsfBps_of_case (EncCase_DsfCase hcase)

/-- **Round trip.**  Writing a non-empty rectangular grid of a
supported dtype with a format code other than 8 and decoding the
resulting buffer reproduces the stored per-sample values `w v`
(`w v = v` except for float64, where `w` is the float32 narrowing).
Format 8 (dtype int8) is excluded: its file is written, but reading
it back aborts at `np.empty` (`readSegy_uchar_err`). -/
theorem writeSegy_roundtrip (g : NpGrid) (dt dsf : Int) (stfh : List Nat) (bps : Nat)
    (w : Int → Int) (m : Nat)
    (hascii : stfh.all (fun b => b < 128) = true)
    (hstfh : stfh.length ≤ 3200)
    (hdsf : getDSF_fromDataType g.dtype = .ok dsf)
    (hdsf8 : dsf ≠ 8)
    (hcase : EncCase dsf bps)
    (hns2 : g.ns < 2 ^ 16)
    (hdt1 : 0 ≤ dt) (hdt2 : dt < 2 ^ 16)
    (hm : g.cols.length = m + 1)
    (hnt_small : g.cols.length < 2 ^ 31)
    (hrect : ∀ col ∈ g.cols, col.length = g.ns)
    (hvals : ∀ col ∈ g.cols, ∀ v ∈ col, sampleOkFor g.dtype v (w v)) :
    ∃ B r, writeSegy g dt stfh = .ok B ∧ readSegy B = .ok r
      ∧ r.data2d = g.cols.map (fun col => col.map w) := by
  have hbps_pos : 0 < bps := by
    rcases hcase with ⟨_, h⟩ | ⟨_, h⟩ | ⟨_, h⟩ | ⟨_, h⟩ <;> omega
  have hdsfb : -(2 ^ 15) ≤ dsf ∧ dsf < 2 ^ 15 := by
    rcases hcase with ⟨h, _⟩ | ⟨h, _⟩ | ⟨h, _⟩ | ⟨h, _⟩ <;> subst h <;>
      exact ⟨by norm_num, by norm_num⟩
  have hpblen : ∀ v : Int, (pbOf dsf (w v)).length = bps := fun v => length_pbOf hcase (w v)
  have hcolmem : ∀ k, k < g.cols.length → g.cols.getD k [] ∈ g.cols := by
    intro k hk
    rw [List.getD_eq_getElem _ _ hk]
    exact List.getElem_mem hk
  have hsmplen : ∀ k, k < g.cols.length →
      (((g.cols.getD k []).map (fun v => pbOf dsf (w v))).flatten).length = g.ns * bps := by
    intro k hk
    rw [flatten_const_length _ bps (by
      intro b hb
      simp only [List.mem_map] at hb
      obtain ⟨v, _, hv⟩ := hb
      rw [← hv]
      exact hpblen v)]
    rw [List.length_map, hrect _ (hcolmem k hk)]
  have hsmp : ∀ k, k < g.cols.length →
      packSamples (dsfTyStr dsf) g.dtype g.ns (g.cols.getD k []) =
          .ok (((g.cols.getD k []).map (fun v => pbOf dsf (w v))).flatten)
        ∧ (((g.cols.getD k []).map (fun v => pbOf dsf (w v))).flatten).length
            = g.ns * bps := by
    intro k hk
    refine ⟨?_, hsmplen k hk⟩
    exact packSamples_ok _ _ _ _ _ (hrect _ (hcolmem k hk))
      (fun v hv => packSampleOne_ok hdsf (hvals _ (hcolmem k hk) v hv))
  have hw := writeSegy_eq g dt dsf stfh bps
    (fun k => ((g.cols.getD k []).map (fun v => pbOf dsf (w v))).flatten) m hascii hstfh hdsf
    (EncCase_DsfCase hcase) hns2 hdt1 hdt2 hm hnt_small hsmp
  set B : List Nat := mkSegyBuf stfh (shBytes (g.ns : Int) dt dsf)
    ((List.range (m + 1)).map (fun k => sthBytes (g.ns : Int) dt k
      ++ ((g.cols.getD k []).map (fun v => pbOf dsf (w v))).flatten)) with hB
  have hblklen : ∀ b ∈ (List.range (m + 1)).map
      (fun k => sthBytes (g.ns : Int) dt k
        ++ ((g.cols.getD k []).map (fun v => pbOf dsf (w v))).flatten),
      b.length = 240 + g.ns * bps := by
    intro b hb
    simp only [List.mem_map, List.mem_range] at hb
    obtain ⟨k, hk, hkb⟩ := hb
    rw [← hkb]
    simp only [List.length_append, length_sthBytes]
    rw [hsmplen k (by omega)]
  have hBlen : B.length = 3600 + (m + 1) * (240 + g.ns * bps) := by
    rw [hB, length_mkSegyBuf _ _ _ hstfh (by simp),
      flatten_const_length _ _ hblklen]
    simp
  have hnsval : uint16At B 3220 = (g.ns : Int) :=
    mkSegyBuf_val_ns stfh _ (g.ns : Int) dt dsf hstfh (Int.natCast_nonneg _)
      (by exact_mod_cast hns2)
  have hdsfval : int16At B 3224 = dsf :=
    mkSegyBuf_val_dsf stfh _ (g.ns : Int) dt dsf hstfh hdsfb.1 hdsfb.2
  have hbpsd : getBytePerSample (decodedSH B) = .ok bps :=
    getBytePerSample_mkSegyBuf stfh _ (g.ns : Int) dt dsf bps hstfh hcase hdsfb.1 hdsfb.2
  have hnsN : (uint16At B 3220).toNat = g.ns := by
    rw [hnsval]
    exact Int.toNat_natCast _
  have htbs : bytes_STH + (uint16At B 3220).toNat * bps = 240 + g.ns * bps := by
    rw [hnsN]
    rfl
  have hlen36 : 3600 ≤ B.length := by omega
  have hrem : (B.length - 3600) % (bytes_STH + (uint16At B 3220).toNat * bps) < bps := by
    rw [htbs, show B.length - 3600 = (m + 1) * (240 + g.ns * bps) from by omega,
      Nat.mul_mod_left]
    exact hbps_pos
  have hntr : dictGet (shOf B bps) "ntraces" = ((m + 1 : Nat) : Int) := by
    rw [dictGet_shOf_ntraces]
    have hA : ((B.length : Int) - (bytes_SFH : Int)) = ((B.length - 3600 : Nat) : Int) := by
      simp only [bytes_SFH]
      push_cast
      omega
    have hT : (bytes_STH : Int) + uint16At B 3220 * (bps : Int)
        = ((240 + g.ns * bps : Nat) : Int) := by
      rw [hnsval]
      push_cast
      norm_num [bytes_STH]
    rw [hA, hT, ← Int.ofNat_tdiv]
    congr 1
    rw [show B.length - 3600 = (m + 1) * (240 + g.ns * bps) from by omega]
    exact Nat.mul_div_cancel (m + 1) (by omega)
  have hpos : 1 ≤ dictGet (shOf B bps) "ntraces" := by
    rw [hntr]
    exact_mod_cast Nat.succ_le_succ (Nat.zero_le m)
  obtain ⟨sth, hread⟩ := readSegy_ok B bps hlen36 hbpsd
    (by rw [hdsfval]; exact hdsf8) hpos hrem
  have hntrN : (dictGet (shOf B bps) "ntraces").toNat = m + 1 := by
    rw [hntr]
    exact Int.toNat_natCast _
  refine ⟨B, _, hw, hread, ?_⟩
  show (List.range (dictGet (shOf B bps) "ntraces").toNat).map (fun t =>
      (List.range (uint16At B 3220).toNat).map (fun s =>
        sampleDecodeAt B (int16At B 3224)
          (bytes_SFH + (bytes_STH + (uint16At B 3220).toNat * bps) * t + bytes_STH
            + s * bps)))
    = g.cols.map (fun col => col.map w)
  rw [hntrN, htbs, hnsN, hdsfval]
  simp only [bytes_SFH, bytes_STH]
  apply List.ext_getElem
  · simp [hm]
  · intro t h1 h2
    simp only [List.getElem_map, List.getElem_range, List.length_map,
      List.length_range] at h1 h2 ⊢
    have ht : t < m + 1 := by simpa using h1
    have htc : t < g.cols.length := by omega
    apply List.ext_getElem
    · simp [hrect _ (List.getElem_mem htc)]
    · intro s hs1 hs2
      simp only [List.getElem_map, List.getElem_range, List.length_map,
        List.length_range] at hs1 hs2 ⊢
      have hs : s < g.ns := by simpa using hs1
      have hsc : s < (g.cols[t]).length := by
        rw [hrect _ (List.getElem_mem htc)]
        exact hs
      have hgd : g.cols.getD t [] = g.cols[t] := List.getD_eq_getElem _ _ htc
      have hslice1 : sliceAt B (3600 + (240 + g.ns * bps) * t + 240 + s * bps) bps
          = sliceAt (((g.cols.getD t []).map (fun v => pbOf dsf (w v))).flatten)
              (s * bps) bps := by
        rw [hB]
        exact mkSegyBuf_slice_smp stfh (shBytes (g.ns : Int) dt dsf)
          (fun k => sthBytes (g.ns : Int) dt k)
          (fun k => ((g.cols.getD k []).map (fun v => pbOf dsf (w v))).flatten)
          (240 + g.ns * bps) (m + 1)
          hstfh (by simp) (fun k _ => length_sthBytes _ _ _)
          (by
            intro k hk
            simp only [List.length_append, length_sthBytes]
            rw [hsmplen k (by omega)])
          t ht (s * bps) bps
          (by
            rw [hsmplen t htc]
            have hs1' : s + 1 ≤ g.ns := hs
            calc s * bps + bps = (s + 1) * bps := by ring
              _ ≤ g.ns * bps := Nat.mul_le_mul_right bps hs1')
      obtain ⟨P, S, hflat, hP⟩ := flatten_const_decomp
        ((g.cols.getD t []).map (fun v => pbOf dsf (w v))) bps
        (by
          intro b hb
          simp only [List.mem_map] at hb
          obtain ⟨v, _, hv⟩ := hb
          rw [← hv]
          exact hpblen v)
        s (by rw [List.length_map, hgd]; exact hsc)
      have helem : ((g.cols.getD t []).map (fun v => pbOf dsf (w v))).getD s []
          = pbOf dsf (w (g.cols[t][s])) := by
        rw [List.getD_eq_getElem _ _ (by rw [List.length_map, hgd]; exact hsc),
          List.getElem_map]
        congr 2
        · simp only [hgd]
      rw [helem] at hflat
      have hslice2 : sliceAt (((g.cols.getD t []).map (fun v => pbOf dsf (w v))).flatten)
          (s * bps) bps = pbOf dsf (w (g.cols[t][s])) := by
        have h0 := sliceAt_of_decomp hflat (bps * s) 0 bps hP
          (by rw [hpblen]; omega)
        rw [Nat.add_zero] at h0
        rw [show s * bps = bps * s from Nat.mul_comm s bps, h0]
        have h2 := sliceAt_eq_self (pbOf dsf (w (g.cols[t][s])))
        rwa [hpblen] at h2
      exact sampleDecode_pbOf hcase (w (g.cols[t][s]))
        (sampleOkFor_range hdsf (hvals _ (List.getElem_mem htc) _ (List.getElem_mem hsc)))
        B _ (by rw [hslice1, hslice2])

/-! ## The reshape failure path of `readSegy` -/

/-- **Decode failure on trailing bytes.**  When at least one whole
sample of trailing bytes remains after the last full trace
(`bps ≤ (len − 3600) % traceByteSize`), the flat sample vector holds
more than `traceCount · (ns + ndummy)` entries and `np.reshape`
raises `ValueError`. -/
theorem readSegy_reshape_err (data : List Nat) (bps : Nat)
    (hlen : 3600 ≤ data.length)
    (hbps : getBytePerSample (decodedSH data) = .ok bps)
    (hne8 : int16At data 3224 ≠ 8)
    (hpos : 1 ≤ dictGet (shOf data bps) "ntraces")
    (hrem : bps ≤ (data.length - 3600) % (bytes_STH + (uint16At data 3220).toNat * bps)) :
    readSegy data = .error "ValueError: cannot reshape array" := by
  have hsh := getSegyHeaderSH_ok data bps hlen hbps
  have hbps2 := getBytePerSample_shOf data bps hbps
  have hinv := getBytePerSample_inv hbps2
  have hdsfd : dictGet (shOf data bps) "DataSampleFormat" = int16At data 3224 :=
    dictGet_decodedSH_dsf2 data bps
  have hcase : DsfCase (int16At data 3224) bps := by
    have h2 := hinv.2
    rw [hdsfd] at h2
    exact dsf_cases h2
  have hbvals : bps = 1 ∨ bps = 2 ∨ bps = 4 := getBytePerSample_vals hbps2
  have hbps_pos : 0 < bps := by omega
  have hdn : (bytes_STH / bps) * bps = 240 := by
    rcases hbvals with h | h | h <;> subst h <;> decide
  have hnsg : dictGet (shOf data bps) "ns" = uint16At data 3220 := dictGet_shOf_ns data bps
  have hns_cast : ((uint16At data 3220).toNat : Int) = uint16At data 3220 :=
    Int.toNat_of_nonneg (uint16At_nonneg data 3220)
  have hntr_cast :
      dictGet (shOf data bps) "ntraces" =
        (((data.length - 3600) / (bytes_STH + (uint16At data 3220).toNat * bps) : Nat) : Int) := by
    rw [dictGet_shOf_ntraces]
    have hA : ((data.length : Int) - (bytes_SFH : Int)) = ((data.length - 3600 : Nat) : Int) := by
      simp only [bytes_SFH]
      push_cast
      omega
    have hT : ((bytes_STH : Int) + uint16At data 3220 * (bps : Int)) =
        ((bytes_STH + (uint16At data 3220).toNat * bps : Nat) : Int) := by
      push_cast
      rw [hns_cast]
    rw [hA, hT]
    exact (Int.ofNat_tdiv _ _).symm
  have hntrN : (dictGet (shOf data bps) "ntraces").toNat =
      (data.length - 3600) / (bytes_STH + (uint16At data 3220).toNat * bps) := by
    rw [hntr_cast]
    exact Int.toNat_natCast _
  obtain ⟨sth, hsth⟩ := getSegyTraceHeaders_ok (shOf data bps) data bps hbps2
    (by
      intro j hj
      exact shOf_block_bound data bps hlen j hj)
    (by omega)
  have hnd_cast : Int.tdiv ((data.length : Int) - (bytes_SFH : Int)) ((bps : Nat) : Int) =
      (((data.length - 3600) / bps : Nat) : Int) := by
    have hA : ((data.length : Int) - (bytes_SFH : Int)) = ((data.length - 3600 : Nat) : Int) := by
      simp only [bytes_SFH]
      push_cast
      omega
    rw [hA]
    exact (Int.ofNat_tdiv _ _).symm
  have hsplit : data.length - 3600 =
      (dictGet (shOf data bps) "ntraces").toNat *
        (bytes_STH + (uint16At data 3220).toNat * bps) +
        (data.length - 3600) % (bytes_STH + (uint16At data 3220).toNat * bps) := by
    rw [hntrN, Nat.mul_comm]
    exact (Nat.div_add_mod _ _).symm
  have htb : bytes_STH + (uint16At data 3220).toNat * bps =
      ((uint16At data 3220).toNat + bytes_STH / bps) * bps := by
    have : ((uint16At data 3220).toNat + bytes_STH / bps) * bps =
        (uint16At data 3220).toNat * bps + bytes_STH / bps * bps := by ring
    rw [this, hdn]
    simp [bytes_STH]
    omega
  have hremdiv : 1 ≤ (data.length - 3600) %
      (bytes_STH + (uint16At data 3220).toNat * bps) / bps :=
    (Nat.one_le_div_iff hbps_pos).mpr hrem
  have hndN : (data.length - 3600) / bps =
      (dictGet (shOf data bps) "ntraces").toNat *
        ((uint16At data 3220).toNat + bytes_STH / bps) +
        (data.length - 3600) % (bytes_STH + (uint16At data 3220).toNat * bps) / bps := by
    conv_lhs => rw [hsplit]
    rw [htb]
    rw [show (dictGet (shOf data bps) "ntraces").toNat *
        (((uint16At data 3220).toNat + bytes_STH / bps) * bps) =
        bps * ((dictGet (shOf data bps) "ntraces").toNat *
          ((uint16At data 3220).toNat + bytes_STH / bps)) from by ring]
    rw [Nat.mul_add_div hbps_pos]
  -- unfold the pipeline
  unfold readSegy
  rw [hsh]
  simp only [ok_bind]
  rw [hsth]
  simp only [ok_bind]
  rw [hbps2]
  simp only [ok_bind]
  rw [hinv.1]
  simp only [ok_bind]
  obtain ⟨descr, hdescr⟩ := dsfDescr_isOk hcase
  rw [hdsfd, hdescr]
  simp only [ok_bind]
  rw [dsfDatatype_dsfTyStr hcase]
  simp only [ok_bind]
  rw [hnd_cast]
  rw [if_neg (by omega : ¬ (((data.length - 3600) / bps : Nat) : Int) < 0)]
  rw [Int.toNat_natCast]
  have hflatbound : bytes_SFH + ((data.length - 3600) / bps) * bps ≤ data.length := by
    have := Nat.div_mul_le_self (data.length - 3600) bps
    simp only [bytes_SFH]
    omega
  rw [getValueVec_dsf data (int16At data 3224) bps _ hcase hne8 hflatbound]
  simp only [ok_bind]
  rw [hnsg]
  unfold npReshape
  rw [if_neg (by
    rintro ⟨h0, hc⟩
    rw [List.length_map, List.length_range] at hc
    rw [hntr_cast, Int.toNat_natCast, ← hntrN] at hc
    omega)]
  simp only [error_bind]

/-- **Format-8 decode abort.**  When the decoded header carries
data-sample-format 8, `readSegy` reaches the sample decode with the
dtype string `uchar`, which `np.empty` rejects: the read aborts with
`TypeError` before any sample is decoded. -/
theorem readSegy_uchar_err (data : List Nat) (bps : Nat)
    (hlen : 3600 ≤ data.length)
    (hbps : getBytePerSample (decodedSH data) = .ok bps)
    (hd8 : int16At data 3224 = 8)
    (hpos : 1 ≤ dictGet (shOf data bps) "ntraces") :
    readSegy data = .error (npDtypeErr "uchar") := by
  have hsh := getSegyHeaderSH_ok data bps hlen hbps
  have hbps2 := getBytePerSample_shOf data bps hbps
  have hinv := getBytePerSample_inv hbps2
  have hdsfd : dictGet (shOf data bps) "DataSampleFormat" = int16At data 3224 :=
    dictGet_decodedSH_dsf2 data bps
  have hcase : DsfCase (int16At data 3224) bps := by
    have h2 := hinv.2
    rw [hdsfd] at h2
    exact dsf_cases h2
  obtain ⟨sth, hsth⟩ := getSegyTraceHeaders_ok (shOf data bps) data bps hbps2
    (by
      intro j hj
      exact shOf_block_bound data bps hlen j hj)
    (by omega)
  have hnd_cast : Int.tdiv ((data.length : Int) - (bytes_SFH : Int)) ((bps : Nat) : Int) =
      (((data.length - 3600) / bps : Nat) : Int) := by
    have hA : ((data.length : Int) - (bytes_SFH : Int)) = ((data.length - 3600 : Nat) : Int) := by
      simp only [bytes_SFH]
      push_cast
      omega
    rw [hA]
    exact (Int.ofNat_tdiv _ _).symm
  unfold readSegy
  rw [hsh]
  simp only [ok_bind]
  rw [hsth]
  simp only [ok_bind]
  rw [hbps2]
  simp only [ok_bind]
  rw [hinv.1]
  simp only [ok_bind]
  obtain ⟨descr, hdescr⟩ := dsfDescr_isOk hcase
  rw [hdsfd, hdescr]
  simp only [ok_bind]
  rw [dsfDatatype_dsfTyStr hcase]
  simp only [ok_bind]
  rw [hnd_cast]
  rw [if_neg (Int.not_lt.mpr (Int.natCast_nonneg _))]
  rw [hd8]
  rw [show dsfTyStr 8 = "uchar" from rfl]
  rw [getValueVec_uchar_err]
  simp only [error_bind]

/-! ## Concrete buffers for the claims -/

theorem getD_two (a b k : Nat) :
    ([a, b].getD k 0) = if k = 0 then a else if k = 1 then b else 0 := by
  match k with
  | 0 => rfl
  | 1 => rfl
  | (n + 2) => simp [List.getD]

/-- An all-zero header with data-sample-format 8 (bytes `[0, 8]` at
offset 3224) and `extra` zero bytes after the 3600-byte headers. -/
def hdr8 (extra : Nat) : List Nat :=
  List.replicate 3224 0 ++ [0, 8] ++ List.replicate (374 + extra) 0

theorem length_hdr8 (extra : Nat) : (hdr8 extra).length = 3600 + extra := by
  simp only [hdr8, List.length_append, List.length_replicate, List.length_cons,
    List.length_nil]
  omega

theorem wf_hdr8 (extra : Nat) : ∀ b ∈ hdr8 extra, b < 256 := by
  intro b hb
  simp only [hdr8, List.mem_append, List.mem_replicate, List.mem_cons,
    List.not_mem_nil, or_false] at hb
  rcases hb with (⟨_, h⟩ | h | h) | ⟨_, h⟩ <;> subst h <;> norm_num

theorem getD_hdr8 (extra p : Nat) :
    (hdr8 extra).getD p 0 = if p = 3225 then 8 else 0 := by
  unfold hdr8
  simp only [getD_append, getD_replicate, getD_two, List.length_append,
    List.length_replicate, List.length_cons, List.length_nil]
  split_ifs <;> omega

/-! ## The claims -/

/-- The revision resolver as one conditional. -/
theorem getRevisionNumber_eq_ite (SH : List (String × Int)) :
    getRevisionNumber SH =
      (if dictGet SH "SegyFormatRevisionNumber" = 0
          ∨ dictGet SH "SegyFormatRevisionNumber" = 100
          ∨ dictGet SH "SegyFormatRevisionNumber" = 1
          ∨ dictGet SH "SegyFormatRevisionNumber" = 256
        then .ok 1 else .error revErr) := by
  unfold getRevisionNumber
  by_cases h0 : dictGet SH "SegyFormatRevisionNumber" = 0
  · simp [h0]
  · by_cases h100 : dictGet SH "SegyFormatRevisionNumber" = 100
    · simp [h0, h100]
    · by_cases h1 : dictGet SH "SegyFormatRevisionNumber" = 1
      · simp [h0, h100, h1]
      · by_cases h256 : dictGet SH "SegyFormatRevisionNumber" = 256
        · simp [h0, h100, h1, h256]
        · simp [h0, h100, h1, h256]

theorem getRevisionNumber_err (SH : List (String × Int))
    (h : ¬(dictGet SH "SegyFormatRevisionNumber" = 0
        ∨ dictGet SH "SegyFormatRevisionNumber" = 100
        ∨ dictGet SH "SegyFormatRevisionNumber" = 1
        ∨ dictGet SH "SegyFormatRevisionNumber" = 256)) :
    getRevisionNumber SH = .error revErr := by
  rw [getRevisionNumber_eq_ite, if_neg h]

/-- **C2.**  Revision normalization is total exactly on the raw codes
0, 100, 1 and 256, each mapping to 1; any other raw value fails the
resolver with the unknown-revision error, and both the decode side
(`getBytePerSample`, the first consumer in `readSegy`) and the encode
side (`writeSegyStructure`, past its ASCII check) fail with that
error. -/
theorem claim_C2_revision_normalization :
    (∀ SH : List (String × Int),
      getRevisionNumber SH =
        (if dictGet SH "SegyFormatRevisionNumber" = 0
            ∨ dictGet SH "SegyFormatRevisionNumber" = 100
            ∨ dictGet SH "SegyFormatRevisionNumber" = 1
            ∨ dictGet SH "SegyFormatRevisionNumber" = 256
          then .ok 1 else .error revErr))
    ∧ (∀ SH : List (String × Int),
        ¬(dictGet SH "SegyFormatRevisionNumber" = 0
            ∨ dictGet SH "SegyFormatRevisionNumber" = 100
            ∨ dictGet SH "SegyFormatRevisionNumber" = 1
            ∨ dictGet SH "SegyFormatRevisionNumber" = 256) →
        getBytePerSample SH = .error revErr)
    ∧ (∀ (g : NpGrid) (stfh : List Nat) (SH : List (String × Int))
          (sthVal : String → Nat → Int),
        stfh.all (fun b => b < 128) = true →
        ¬(dictGet SH "SegyFormatRevisionNumber" = 0
            ∨ dictGet SH "SegyFormatRevisionNumber" = 100
            ∨ dictGet SH "SegyFormatRevisionNumber" = 1
            ∨ dictGet SH "SegyFormatRevisionNumber" = 256) →
        writeSegyStructure g stfh SH sthVal = .error revErr) := by
  refine ⟨getRevisionNumber_eq_ite, ?_, ?_⟩
  · intro SH h
    unfold getBytePerSample
    rw [getRevisionNumber_err SH h]
    rfl
  · intro g stfh SH sthVal hascii h
    unfold writeSegyStructure
    rw [if_pos hascii, getRevisionNumber_err SH h]
    rfl

/-- **C6.**  The legacy IBM float decoder maps `00 00 00 00` to
exactly 0 and `C2 64 00 00` to exactly −100. -/
theorem claim_C6_ibm_values :
    ibm2ieee [0, 0, 0, 0] = .ok 0 ∧ ibm2ieee [194, 100, 0, 0] = .ok (-100) := by
  constructor <;> norm_num [ibm2ieee, ibm2ieeeVal, List.getD]

/-- **C8 (amended).**  The write path accepts exactly the element
types int32, int16, float32, float64 and int8 (not uint8), selecting
format codes 2, 3, 5, 5 and 8; every other dtype fails with the
`TypeError`. -/
theorem claim_C8_supported_dtypes : ∀ dty : NpDtype,
    (getDSF_fromDataType dty = .error typeErr
      ↔ ¬(dty = NpDtype.int32 ∨ dty = NpDtype.int16 ∨ dty = NpDtype.float32
          ∨ dty = NpDtype.float64 ∨ dty = NpDtype.int8))
    ∧ (dty = NpDtype.int32 → getDSF_fromDataType dty = .ok 2)
    ∧ (dty = NpDtype.int16 → getDSF_fromDataType dty = .ok 3)
    ∧ ((dty = NpDtype.float32 ∨ dty = NpDtype.float64) → getDSF_fromDataType dty = .ok 5)
    ∧ (dty = NpDtype.int8 → getDSF_fromDataType dty = .ok 8) := by
  intro dty
  cases dty <;> refine ⟨?_, ?_, ?_, ?_, ?_⟩ <;> simp [getDSF_fromDataType]

/-- uint8 — in the specified supported write set — is rejected by the
dtype dispatch. -/
theorem claim_C8_counterexample :
    getDSF_fromDataType NpDtype.uint8 = .error typeErr := rfl

/-- The specified write set contains uint8, but encoding a uint8 grid
fails outright, so no uint8 grid round-trips. -/
theorem claim_C1_counterexample :
    writeSegy ⟨NpDtype.uint8, 1, [[0]]⟩ 1000 [] = .error typeErr := rfl

/-- **C1 (amended).**  For a non-empty rectangular grid whose dtype
the writer accepts and maps to a format code other than 8 (int32,
int16, float32 — each sample within its `struct` range — or float64),
with in-range `ns` and `dt` and an ASCII textual header of at most
3200 bytes, decode ∘ encode reproduces the grid's stored samples
exactly: the values themselves, except that float64 samples are first
narrowed to float32 (`w v` with `f32ofF64 v = .ok (w v)`).  The
remaining accepted dtype, int8 (format code 8), is written
successfully but its file cannot be decoded: `readSegy` aborts with
`TypeError` when `np.empty` rejects the dtype string `uchar`, so
decode ∘ encode reproduces no int8 grid. -/
theorem claim_C1_roundtrip (g : NpGrid) (dt dsf : Int) (stfh : List Nat) (bps : Nat)
    (w : Int → Int) (m : Nat)
    (hascii : stfh.all (fun b => b < 128) = true)
    (hstfh : stfh.length ≤ 3200)
    (hdsf : getDSF_fromDataType g.dtype = .ok dsf)
    (hdsf8 : dsf ≠ 8)
    (hcase : EncCase dsf bps)
    (hns2 : g.ns < 2 ^ 16)
    (hdt1 : 0 ≤ dt) (hdt2 : dt < 2 ^ 16)
    (hm : g.cols.length = m + 1)
    (hnt_small : g.cols.length < 2 ^ 31)
    (hrect : ∀ col ∈ g.cols, col.length = g.ns)
    (hvals : ∀ col ∈ g.cols, ∀ v ∈ col, sampleOkFor g.dtype v (w v)) :
    ∃ B r, writeSegy g dt stfh = .ok B ∧ readSegy B = .ok r
      ∧ r.data2d = g.cols.map (fun col => col.map w) :=
  writeSegy_roundtrip g dt dsf stfh bps w m hascii hstfh hdsf hdsf8 hcase hns2 hdt1 hdt2
    hm hnt_small hrect hvals

theorem claim_C1_witness :
    ((List.replicate 3200 65).all (fun b => b < 128) = true
      ∧ (List.replicate 3200 65).length ≤ 3200
      ∧ getDSF_fromDataType NpDtype.int16 = .ok 3
      ∧ (3 : Int) ≠ 8
      ∧ EncCase 3 2
      ∧ (1 : Nat) < 2 ^ 16
      ∧ (0 : Int) ≤ 1000 ∧ (1000 : Int) < 2 ^ 16
      ∧ ([[(5 : Int)]].length = 0 + 1)
      ∧ ([[(5 : Int)]].length < 2 ^ 31)
      ∧ (∀ col ∈ [[(5 : Int)]], col.length = 1)
      ∧ (∀ col ∈ [[(5 : Int)]], ∀ v ∈ col, sampleOkFor NpDtype.int16 v v))
    ∧ (∃ B r, writeSegy ⟨NpDtype.int16, 1, [[5]]⟩ 1000 (List.replicate 3200 65) = .ok B
        ∧ readSegy B = .ok r
        ∧ r.data2d = [[(5 : Int)]].map (fun col => col.map (fun v => v))) := by
  have hval5 : ∀ col ∈ [[(5 : Int)]], ∀ v ∈ col, sampleOkFor NpDtype.int16 v v := by
    intro col hcol
    simp only [List.mem_singleton] at hcol
    subst hcol
    intro v hv
    simp only [List.mem_singleton] at hv
    subst hv
    exact ⟨rfl, by norm_num, by norm_num⟩
  have hasc : (List.replicate 3200 65).all (fun b => b < 128) = true := by
    rw [List.all_eq_true]
    intro x hx
    rw [List.eq_of_mem_replicate hx]
    decide
  have hlen65 : (List.replicate 3200 65).length ≤ 3200 := by
    rw [List.length_replicate]
  have henc : EncCase 3 2 := Or.inr (Or.inl ⟨rfl, rfl⟩)
  refine ⟨⟨hasc, hlen65, rfl, by decide, henc, by decide, by decide, by decide, by decide,
    by decide, by decide, hval5⟩, ?_⟩
  exact claim_C1_roundtrip ⟨NpDtype.int16, 1, [[5]]⟩ 1000 3 (List.replicate 3200 65) 2
    (fun v => v) 0 hasc hlen65 rfl (by decide) henc (by decide) (by decide) (by decide)
    (by decide) (by decide) (by decide) hval5

/-! ### Inversion of a successful write (for C10) -/

theorem mapM_ok_inv {α β : Type} (vals : List α) (f : α → Except String β) (out : List β)
    (h : vals.mapM f = .ok out) : ∀ v ∈ vals, ∃ y, f v = .ok y := by
  induction vals generalizing out with
  | nil => intro v hv; simp at hv
  | cons a t ih =>
    intro v hv
    rw [List.mapM_cons] at h
    cases hf : f a with
    | error e => rw [hf] at h; simp at h
    | ok y =>
      rw [hf] at h
      simp only [ok_bind] at h
      cases hm : t.mapM f with
      | error e => rw [hm] at h; simp at h
      | ok out2 =>
        rcases List.mem_cons.mp hv with rfl | hvt
        · exact ⟨y, hf⟩
        · exact ih out2 hm v hvt

theorem packSamples_ok_inv {dtypeStr : String} {src : NpDtype} {ns : Nat}
    {col : List Int} {smp : List Nat}
    (h : packSamples dtypeStr src ns col = .ok smp) :
    ∀ v ∈ col, ∃ bs, packSampleOne dtypeStr src v = .ok bs := by
  unfold packSamples at h
  split_ifs at h with hl
  · cases hm : col.mapM (packSampleOne dtypeStr src) with
    | error e => rw [hm] at h; simp at h
    | ok parts => exact mapM_ok_inv col _ parts hm

/-- A successful per-trace loop packed every trace's samples. -/
theorem writeTraces_ok_inv (src : NpDtype) (sthVal : String → Nat → Int)
    (dtypeStr : String) (ns tbs : Nat) (cols : List (List Int)) :
    ∀ (r a idx : Nat) (f fN : PyFile),
    writeTraces src sthVal dtypeStr ns tbs cols r a idx f = .ok fN →
    ∀ k, k < r → ∃ col smp, colAt cols (a + k) = .ok col
      ∧ packSamples dtypeStr src ns col = .ok smp := by
  intro r
  induction r with
  | zero => intro a idx f fN h k hk; omega
  | succ r ih =>
    intro a idx f fN h k hk
    have hstep : writeTraces src sthVal dtypeStr ns tbs cols (r + 1) a idx f = (do
        let thBytes ← packFields STH_def (fun e => sthVal e.name a)
        let c ← colAt cols a
        let smpB ← packSamples dtypeStr src ns c
        let f2 : PyFile := fwrite (fseek f idx) (thBytes ++ smpB)
        writeTraces src sthVal dtypeStr ns tbs cols r (a + 1) (idx + tbs) f2) := rfl
    rw [hstep] at h
    cases hth : packFields STH_def (fun e => sthVal e.name a) with
    | error e => rw [hth] at h; simp at h
    | ok th =>
      rw [hth] at h
      simp only [ok_bind] at h
      cases hcol : colAt cols a with
      | error e => rw [hcol] at h; simp at h
      | ok c =>
        rw [hcol] at h
        simp only [ok_bind] at h
        cases hsm : packSamples dtypeStr src ns c with
        | error e => rw [hsm] at h; simp at h
        | ok smp =>
          rw [hsm] at h
          simp only [ok_bind] at h
          cases k with
          | zero => exact ⟨c, smp, by rw [Nat.add_zero]; exact hcol, hsm⟩
          | succ k2 =>
            obtain ⟨c2, s2, h1, h2⟩ := ih (a + 1) (idx + tbs) _ fN h k2 (by omega)
            exact ⟨c2, s2, by rw [show a + (k2 + 1) = a + 1 + k2 from by omega]; exact h1, h2⟩

/-- Packing a negative sample with the unsigned-byte format fails. -/
theorem packSampleOne_uchar_neg (dty : NpDtype) (v : Int)
    (hv : v < 0) :
    packSampleOne "uchar" dty v = .error packErr := by
  unfold packSampleOne
  rw [if_neg (by
    rintro ⟨h1, _⟩
    exact absurd h1 (by decide))]
  show (if 0 ≤ v ∧ v < 2 ^ 8 then (Except.ok [v.toNat] : Except String (List Nat))
    else .error packErr) = .error packErr
  rw [if_neg (by omega)]

/-- No `writeSegyStructure` call on an int8 grid with format code 8
and a negative sample anywhere can succeed. -/
theorem writeSegyStructure_neg_fails (g : NpGrid) (stfh : List Nat)
    (SH : List (String × Int)) (sthVal : String → Nat → Int)
    (hdty : g.dtype = NpDtype.int8)
    (hdsf : dictGet SH "DataSampleFormat" = 8)
    (hnt : (dictGet SH "ntraces").toNat = g.cols.length)
    (k : Nat) (hk : k < g.cols.length) (v : Int) (hv : v ∈ g.cols.getD k []) (hvn : v < 0) :
    ∀ out, writeSegyStructure g stfh SH sthVal ≠ .ok out := by
  intro out h
  unfold writeSegyStructure at h
  by_cases hascii : stfh.all (fun b => b < 128) = true
  · rw [if_pos hascii] at h
    cases hrev : getRevisionNumber SH with
    | error e => rw [hrev] at h; simp at h
    | ok revno =>
      have hr1 : revno = 1 := getRevisionNumber_ok_eq hrev
      subst hr1
      rw [hrev] at h
      simp only [ok_bind] at h
      rw [hdsf] at h
      rw [show lookup2 dsfDescr 1 8 = .ok "1-byte Integer" from rfl] at h
      simp only [ok_bind] at h
      cases hsb : packFields SH_def (fun e => dictGet SH e.name) with
      | error e => rw [hsb] at h; simp at h
      | ok shB =>
        rw [hsb] at h
        simp only [ok_bind] at h
        rw [show lookup2 dsfDatatype 1 8 = .ok "uchar" from rfl,
          show lookup2 dsfBps 1 8 = .ok 1 from rfl] at h
        simp only [ok_bind] at h
        cases hwt : writeTraces g.dtype sthVal "uchar" (dictGet SH "ns").toNat
            (bytes_STH + (dictGet SH "ns").toNat * 1) g.cols
            (dictGet SH "ntraces").toNat 0 (bytes_STFH + bytes_SBFH)
            (fwrite (fseek (fwrite (⟨[], 0⟩ : PyFile) stfh) bytes_STFH) shB) with
        | error e => rw [hwt] at h; simp at h
        | ok fN =>
          obtain ⟨col, smp, hcol, hsmp⟩ := writeTraces_ok_inv g.dtype sthVal "uchar"
            (dictGet SH "ns").toNat (bytes_STH + (dictGet SH "ns").toNat * 1) g.cols
            (dictGet SH "ntraces").toNat 0 (bytes_STFH + bytes_SBFH) _ fN hwt k
            (by omega)
          rw [Nat.zero_add, colAt_ok g.cols k hk] at hcol
          cases hcol
          obtain ⟨bs, hbs⟩ := packSamples_ok_inv hsmp v hv
          rw [hdty] at hbs
          rw [packSampleOne_uchar_neg NpDtype.int8 v hvn] at hbs
          cases hbs
  · rw [if_neg hascii] at h
    simp at h

/-- **C10.**  An int8 grid containing a negative sample can never be
encoded: format code 8 packs samples with the unsigned-byte `struct`
format, which rejects negative values. -/
theorem claim_C10_int8_negative (g : NpGrid) (dt : Int) (stfh : List Nat)
    (hdty : g.dtype = NpDtype.int8)
    (hneg : ∃ col ∈ g.cols, ∃ v ∈ col, v < 0) :
    ∃ msg, writeSegy g dt stfh = .error msg := by
  cases hw : writeSegy g dt stfh with
  | error e => exact ⟨e, rfl⟩
  | ok out =>
    exfalso
    obtain ⟨col, hcolmem, v, hvmem, hv⟩ := hneg
    obtain ⟨k, hk, hkcol⟩ := List.mem_iff_getElem.mp hcolmem
    unfold writeSegy at hw
    rw [hdty] at hw
    rw [show getDSF_fromDataType NpDtype.int8 = .ok 8 from rfl] at hw
    simp only [ok_bind] at hw
    refine writeSegyStructure_neg_fails g stfh _ _ hdty ?_ ?_ k hk v ?_ hv out hw
    · unfold setSegyHeaders
      exact dictGet_dictSet_same _ _ _
    · unfold setSegyHeaders
      rw [dictGet_dictSet_ne _ _ _ _ (by decide), dictGet_dictSet_ne _ _ _ _ (by decide),
        dictGet_dictSet_ne _ _ _ _ (by decide), dictGet_dictSet_same, Int.toNat_natCast]
    · rw [List.getD_eq_getElem _ _ hk, hkcol]
      exact hvmem

theorem claim_C10_witness :
    ((⟨NpDtype.int8, 1, [[-1]]⟩ : NpGrid).dtype = NpDtype.int8
      ∧ (∃ col ∈ (⟨NpDtype.int8, 1, [[-1]]⟩ : NpGrid).cols, ∃ v ∈ col, v < 0))
    ∧ ∃ msg, writeSegy ⟨NpDtype.int8, 1, [[-1]]⟩ 1000 [] = .error msg := by
  have hneg : ∃ col ∈ (⟨NpDtype.int8, 1, [[-1]]⟩ : NpGrid).cols, ∃ v ∈ col, v < 0 :=
    ⟨[-1], by simp, -1, by simp, by norm_num⟩
  exact ⟨⟨rfl, hneg⟩, claim_C10_int8_negative ⟨NpDtype.int8, 1, [[-1]]⟩ 1000 [] rfl hneg⟩

/-- **C9.**  The write path serializes the binary header as a single
68-byte block at 3200 (each schema field once, repeats ignored), not
a 400-byte block: the revision value 100 lands at offset 3260 — the
schema's `Unassigned1` slot — while offset 3500, where the schema
declares `SegyFormatRevisionNumber`, is zero fill, so a subsequent
read decodes revision 0, not the 100 that was written.  (The format
code at 3224 does land at its declared offset.) -/
theorem claim_C9_header_layout :
    ∃ B, writeSegy ⟨NpDtype.int16, 1, [[0]]⟩ 1000 (List.replicate 3200 32) = .ok B
      ∧ uint16At B 3260 = 100
      ∧ uint16At B 3500 = 0
      ∧ dictGet (decodedSH B) "SegyFormatRevisionNumber" = 0
      ∧ int16At B 3224 = 3
      ∧ B.length = 3842 := by
  have hasc : (List.replicate 3200 32).all (fun b => b < 128) = true := by
    rw [List.all_eq_true]
    intro x hx
    rw [List.eq_of_mem_replicate hx]
    decide
  have hlenr : (List.replicate 3200 32).length ≤ 3200 := by
    rw [List.length_replicate]
  have hsmp : ∀ k, k < (⟨NpDtype.int16, 1, [[0]]⟩ : NpGrid).cols.length →
      packSamples (dsfTyStr 3) (⟨NpDtype.int16, 1, [[0]]⟩ : NpGrid).dtype
          (⟨NpDtype.int16, 1, [[0]]⟩ : NpGrid).ns
          ((⟨NpDtype.int16, 1, [[0]]⟩ : NpGrid).cols.getD k []) = .ok [0, 0]
        ∧ ([0, 0] : List Nat).length = (⟨NpDtype.int16, 1, [[0]]⟩ : NpGrid).ns * 2 := by
    intro k hk
    have hk0 : k = 0 := by
      simp only [NpGrid.cols] at hk
      simp at hk
      omega
    subst hk0
    exact ⟨rfl, rfl⟩
  have hw := writeSegy_eq ⟨NpDtype.int16, 1, [[0]]⟩ 1000 3 (List.replicate 3200 32) 2
    (fun _ => [0, 0]) 0 hasc hlenr rfl (Or.inr (Or.inr (Or.inl ⟨rfl, rfl⟩)))
    (by decide) (by decide) (by decide) (by decide) (by decide) hsmp
  refine ⟨_, hw, ?_, ?_, ?_, ?_, ?_⟩
  · exact mkSegyBuf_val_3260 _ _ 1 1000 3 hlenr
  · exact mkSegyBuf_val_3500 _ _ 1 1000 3 hlenr
  · rw [dictGet_decodedSH_rev]
    exact mkSegyBuf_val_3500 _ _ 1 1000 3 hlenr
  · exact mkSegyBuf_val_dsf _ _ 1 1000 3 hlenr (by norm_num) (by norm_num)
  · rw [length_mkSegyBuf _ _ _ hlenr (by simp)]
    rw [flatten_const_length _ 242 (by
      intro b hb
      simp only [List.mem_map, List.mem_range] at hb
      obtain ⟨k, _, hk⟩ := hb
      rw [← hk]
      simp [List.length_append])]
    simp

theorem uint16At_hdr8_z (extra p : Nat) (h1 : p ≠ 3224) (h2 : p ≠ 3225) :
    uint16At (hdr8 extra) p = 0 := by
  rw [uint16At_eq, getD_hdr8, getD_hdr8, if_neg h2, if_neg (by omega : ¬ p + 1 = 3225)]
  rfl

theorem int16At_hdr8_dsf (extra : Nat) : int16At (hdr8 extra) 3224 = 8 := by
  rw [int16At, sliceAt_two, getD_hdr8, getD_hdr8]
  norm_num [natOfBytes_two, toSigned]

theorem getBytePerSample_hdr8 (extra : Nat) :
    getBytePerSample (decodedSH (hdr8 extra)) = .ok 1 := by
  have hrev : getRevisionNumber (decodedSH (hdr8 extra)) = .ok 1 := by
    unfold getRevisionNumber
    rw [dictGet_decodedSH_rev, uint16At_hdr8_z extra 3500 (by omega) (by omega)]
    rfl
  unfold getBytePerSample
  rw [hrev]
  simp only [ok_bind]
  rw [dictGet_decodedSH_dsf, int16At_hdr8_dsf]
  rfl

theorem ntraces_hdr8 (extra : Nat) :
    dictGet (shOf (hdr8 extra) 1) "ntraces" = ((extra / 240 : Nat) : Int) := by
  rw [dictGet_shOf_ntraces, uint16At_hdr8_z extra 3220 (by omega) (by omega)]
  have hA : (((hdr8 extra).length : Int) - (bytes_SFH : Int)) = ((extra : Nat) : Int) := by
    rw [length_hdr8]
    simp only [bytes_SFH]
    push_cast
    omega
  rw [hA]
  have hT : ((bytes_STH : Int) + 0 * ((1 : Nat) : Int)) = ((240 : Nat) : Int) := by
    norm_num [bytes_STH]
  rw [hT]
  exact (Int.ofNat_tdiv _ _).symm

/-- An all-zero header with data-sample-format 3 (bytes `[0, 3]` at
offset 3224, so 2 bytes per sample) and `extra` zero bytes after the
3600-byte headers. -/
def hdr3 (extra : Nat) : List Nat :=
  List.replicate 3224 0 ++ [0, 3] ++ List.replicate (374 + extra) 0

theorem length_hdr3 (extra : Nat) : (hdr3 extra).length = 3600 + extra := by
  simp only [hdr3, List.length_append, List.length_replicate, List.length_cons,
    List.length_nil]
  omega

theorem getD_hdr3 (extra p : Nat) :
    (hdr3 extra).getD p 0 = if p = 3225 then 3 else 0 := by
  unfold hdr3
  simp only [getD_append, getD_replicate, getD_two, List.length_append,
    List.length_replicate, List.length_cons, List.length_nil]
  split_ifs <;> omega

theorem uint16At_hdr3_z (extra p : Nat) (h1 : p ≠ 3224) (h2 : p ≠ 3225) :
    uint16At (hdr3 extra) p = 0 := by
  rw [uint16At_eq, getD_hdr3, getD_hdr3, if_neg h2, if_neg (by omega : ¬ p + 1 = 3225)]
  rfl

theorem int16At_hdr3_dsf (extra : Nat) : int16At (hdr3 extra) 3224 = 3 := by
  rw [int16At, sliceAt_two, getD_hdr3, getD_hdr3]
  norm_num [natOfBytes_two, toSigned]

theorem getBytePerSample_hdr3 (extra : Nat) :
    getBytePerSample (decodedSH (hdr3 extra)) = .ok 2 := by
  have hrev : getRevisionNumber (decodedSH (hdr3 extra)) = .ok 1 := by
    unfold getRevisionNumber
    rw [dictGet_decodedSH_rev, uint16At_hdr3_z extra 3500 (by omega) (by omega)]
    rfl
  unfold getBytePerSample
  rw [hrev]
  simp only [ok_bind]
  rw [dictGet_decodedSH_dsf, int16At_hdr3_dsf]
  rfl

theorem ntraces_hdr3 (extra : Nat) :
    dictGet (shOf (hdr3 extra) 2) "ntraces" = ((extra / 240 : Nat) : Int) := by
  rw [dictGet_shOf_ntraces, uint16At_hdr3_z extra 3220 (by omega) (by omega)]
  have hA : (((hdr3 extra).length : Int) - (bytes_SFH : Int)) = ((extra : Nat) : Int) := by
    rw [length_hdr3]
    simp only [bytes_SFH]
    push_cast
    omega
  rw [hA]
  have hT : ((bytes_STH : Int) + 0 * ((2 : Nat) : Int)) = ((240 : Nat) : Int) := by
    norm_num [bytes_STH]
  rw [hT]
  exact (Int.ofNat_tdiv _ _).symm

/-- With one whole trace and one whole dangling sample (2 bytes at
format 3) after it, `readSegy` fails in `np.reshape` — the trailing
bytes are not silently dropped. -/
theorem claim_C3_counterexample :
    readSegy (hdr3 242) = .error "ValueError: cannot reshape array" := by
  apply readSegy_reshape_err (hdr3 242) 2
  · rw [length_hdr3]
    omega
  · exact getBytePerSample_hdr3 242
  · rw [int16At_hdr3_dsf]
    norm_num
  · rw [ntraces_hdr3]
    norm_num
  · rw [length_hdr3, uint16At_hdr3_z 242 3220 (by omega) (by omega)]
    norm_num [bytes_STH]

/-- The derived trace count in closed Nat form. -/
theorem shOf_ntraces_natdiv (data : List Nat) (bps : Nat) (hlen : 3600 ≤ data.length) :
    dictGet (shOf data bps) "ntraces" =
      (((data.length - 3600) / (bytes_STH + (uint16At data 3220).toNat * bps) : Nat) : Int) := by
  rw [dictGet_shOf_ntraces]
  have hA : ((data.length : Int) - (bytes_SFH : Int)) = ((data.length - 3600 : Nat) : Int) := by
    simp only [bytes_SFH]
    push_cast
    omega
  have hT : ((bytes_STH : Int) + uint16At data 3220 * (bps : Int)) =
      ((bytes_STH + (uint16At data 3220).toNat * bps : Nat) : Int) := by
    push_cast
    rw [Int.toNat_of_nonneg (uint16At_nonneg data 3220)]
  rw [hA, hT]
  exact (Int.ofNat_tdiv _ _).symm

/-- **C3 (amended).**  The derived trace count is
`⌊(len − 3600) / traceByteSize⌋`; for the numpy-readable formats
(code ≠ 8; format 8 aborts earlier at `np.empty`) the remainder bytes
are silently dropped only when fewer than one sample (`bps` bytes)
remains — `readSegy` then succeeds on exactly that many traces —
while a remainder of at least one sample makes `np.reshape` raise
`ValueError`. -/
theorem claim_C3_trailing_bytes (data : List Nat) (bps : Nat)
    (hlen : 3600 ≤ data.length)
    (hbps : getBytePerSample (decodedSH data) = .ok bps)
    (hne8 : int16At data 3224 ≠ 8) :
    (getSegyHeaderSH data = .ok (shOf data bps)
      ∧ dictGet (shOf data bps) "ntraces" =
          (((data.length - 3600) / (bytes_STH + (uint16At data 3220).toNat * bps) : Nat) : Int))
    ∧ (1 ≤ dictGet (shOf data bps) "ntraces" →
        (data.length - 3600) % (bytes_STH + (uint16At data 3220).toNat * bps) < bps →
        ∃ sth, readSegy data = .ok
          ⟨(List.range (dictGet (shOf data bps) "ntraces").toNat).map (fun t =>
              (List.range (uint16At data 3220).toNat).map (fun s =>
                sampleDecodeAt data (int16At data 3224)
                  (bytes_SFH + (bytes_STH + (uint16At data 3220).toNat * bps) * t + bytes_STH
                    + s * bps))),
            shOf data bps, sth⟩)
    ∧ (1 ≤ dictGet (shOf data bps) "ntraces" →
        bps ≤ (data.length - 3600) % (bytes_STH + (uint16At data 3220).toNat * bps) →
        readSegy data = .error "ValueError: cannot reshape array") := by
  refine ⟨⟨getSegyHeaderSH_ok data bps hlen hbps, shOf_ntraces_natdiv data bps hlen⟩,
    ?_, ?_⟩
  · intro hpos hrem
    exact readSegy_ok data bps hlen hbps hne8 hpos hrem
  · intro hpos hrem
    exact readSegy_reshape_err data bps hlen hbps hne8 hpos hrem

theorem claim_C3_witness :
    (3600 ≤ (hdr3 241).length ∧ getBytePerSample (decodedSH (hdr3 241)) = .ok 2
      ∧ int16At (hdr3 241) 3224 ≠ 8)
    ∧ ((getSegyHeaderSH (hdr3 241) = .ok (shOf (hdr3 241) 2)
      ∧ dictGet (shOf (hdr3 241) 2) "ntraces" =
          ((((hdr3 241).length - 3600) /
            (bytes_STH + (uint16At (hdr3 241) 3220).toNat * 2) : Nat) : Int))
    ∧ (1 ≤ dictGet (shOf (hdr3 241) 2) "ntraces" →
        ((hdr3 241).length - 3600) % (bytes_STH + (uint16At (hdr3 241) 3220).toNat * 2) < 2 →
        ∃ sth, readSegy (hdr3 241) = .ok
          ⟨(List.range (dictGet (shOf (hdr3 241) 2) "ntraces").toNat).map (fun t =>
              (List.range (uint16At (hdr3 241) 3220).toNat).map (fun s =>
                sampleDecodeAt (hdr3 241) (int16At (hdr3 241) 3224)
                  (bytes_SFH + (bytes_STH + (uint16At (hdr3 241) 3220).toNat * 2) * t
                    + bytes_STH + s * 2))),
            shOf (hdr3 241) 2, sth⟩)
    ∧ (1 ≤ dictGet (shOf (hdr3 241) 2) "ntraces" →
        2 ≤ ((hdr3 241).length - 3600) % (bytes_STH + (uint16At (hdr3 241) 3220).toNat * 2) →
        readSegy (hdr3 241) = .error "ValueError: cannot reshape array")) := by
  have hlen : 3600 ≤ (hdr3 241).length := by
    rw [length_hdr3]
    omega
  have hne8 : int16At (hdr3 241) 3224 ≠ 8 := by
    rw [int16At_hdr3_dsf]
    norm_num
  exact ⟨⟨hlen, getBytePerSample_hdr3 241, hne8⟩,
    claim_C3_trailing_bytes (hdr3 241) 2 hlen (getBytePerSample_hdr3 241) hne8⟩

theorem claim_C4_witness :
    ((∀ b ∈ hdr8 240, b < 256)
      ∧ 3600 ≤ (hdr8 240).length
      ∧ getSegyHeaderSH (hdr8 240) = .ok (shOf (hdr8 240) 1)
      ∧ getBytePerSample (shOf (hdr8 240) 1) = .ok 1
      ∧ 1 ≤ dictGet (shOf (hdr8 240) 1) "ntraces")
    ∧ getSegyTraceHeader (shOf (hdr8 240) 1) (hdr8 240) dtFieldEntry 0 = .ok (.arr
        (if uint16At (hdr8 240)
            (bytes_SFH + (bytes_STH + (dictGet (shOf (hdr8 240) 1) "ns").toNat * 1) * 0 + 116)
            = 0
         then List.replicate (dictGet (shOf (hdr8 240) 1) "ntraces").toNat
           (dictGet (shOf (hdr8 240) 1) "dt")
         else (List.range (dictGet (shOf (hdr8 240) 1) "ntraces").toNat).map (fun j =>
           uint16At (hdr8 240)
             (bytes_SFH + (bytes_STH + (dictGet (shOf (hdr8 240) 1) "ns").toNat * 1) * j
               + 116)))) := by
  have hlen : 3600 ≤ (hdr8 240).length := by
    rw [length_hdr8]
    omega
  have hsh : getSegyHeaderSH (hdr8 240) = .ok (shOf (hdr8 240) 1) :=
    getSegyHeaderSH_ok (hdr8 240) 1 hlen (getBytePerSample_hdr8 240)
  have hbps : getBytePerSample (shOf (hdr8 240) 1) = .ok 1 :=
    getBytePerSample_shOf (hdr8 240) 1 (getBytePerSample_hdr8 240)
  have hpos : 1 ≤ dictGet (shOf (hdr8 240) 1) "ntraces" := by
    rw [ntraces_hdr8]
    norm_num
  exact ⟨⟨wf_hdr8 240, hlen, hsh, hbps, hpos⟩,
    claim_C4_dt_fallback (hdr8 240) (shOf (hdr8 240) 1) 1 (wf_hdr8 240) hlen hsh hbps hpos⟩

/-- A 1-based single-trace read of the `dt` field raises: the claimed
"single decoded value for trace i" is never returned for `dt`. -/
theorem claim_C5_counterexample :
    getSegyTraceHeader (shOf (hdr8 240) 1) (hdr8 240) dtFieldEntry 1 =
      .error "IndexError: invalid index to scalar variable" := by
  apply getSegyTraceHeader_single_dt (shOf (hdr8 240) 1) (hdr8 240) 1 1
    (getBytePerSample_shOf (hdr8 240) 1 (getBytePerSample_hdr8 240)) (le_refl 1)
  rw [length_hdr8, dictGet_shOf_ns, uint16At_hdr8_z 240 3220 (by omega) (by omega)]
  norm_num [bytes_SFH, bytes_STH]

/-- **C5 (amended).**  For every schema field other than `dt`:
`itrace = 0` returns the ordered sequence of the `traceCount` decoded
values, trace `j`'s at byte `3600 + j·traceByteSize + fieldOffset`,
and a 1-based `itrace` returns the single value decoded at
`3600 + (itrace − 1)·traceByteSize + fieldOffset`.  (For `dt` the
single-trace mode instead raises `IndexError` — see the
counterexample.) -/
theorem claim_C5_read_modes (SH : List (String × Int)) (data : List Nat) (e : FieldDef)
    (bps : Nat) (itrace : Nat)
    (hbps : getBytePerSample SH = .ok bps)
    (hsome : (dtype2csize.lookup e.ty).isSome)
    (hname : e.name ≠ "dt")
    (hi : 1 ≤ itrace)
    (hbj : ∀ j < (dictGet SH "ntraces").toNat,
      bytes_SFH + (bytes_STH + (dictGet SH "ns").toNat * bps) * j + e.pos + csizeD e.ty
        ≤ data.length)
    (hbi : bytes_SFH + (bytes_STH + (dictGet SH "ns").toNat * bps) * (itrace - 1) + e.pos
        + csizeD e.ty ≤ data.length) :
    getSegyTraceHeader SH data e 0 = .ok (.arr
      ((List.range (dictGet SH "ntraces").toNat).map (fun j =>
        decodeFixed e.ty (sliceAt data
          (bytes_SFH + (bytes_STH + (dictGet SH "ns").toNat * bps) * j + e.pos)
          (csizeD e.ty)))))
    ∧ getSegyTraceHeader SH data e itrace = .ok (.scalar
        (decodeFixed e.ty (sliceAt data
          (bytes_SFH + (bytes_STH + (dictGet SH "ns").toNat * bps) * (itrace - 1) + e.pos)
          (csizeD e.ty)))) :=
  ⟨getSegyTraceHeader_arr_ne_dt SH data e bps hbps hsome hbj hname,
    getSegyTraceHeader_single_ne_dt SH data e bps itrace hbps hsome hi hbi hname⟩

set_option maxRecDepth 4000 in
theorem claim_C5_witness :
    (getBytePerSample (shOf (hdr8 240) 1) = .ok 1
      ∧ (dtype2csize.lookup "int32").isSome
      ∧ ("TraceSequenceLine" : String) ≠ "dt"
      ∧ (1 : Nat) ≤ 1
      ∧ (∀ j < (dictGet (shOf (hdr8 240) 1) "ntraces").toNat,
          bytes_SFH + (bytes_STH + (dictGet (shOf (hdr8 240) 1) "ns").toNat * 1) * j + 0
            + csizeD "int32" ≤ (hdr8 240).length)
      ∧ bytes_SFH + (bytes_STH + (dictGet (shOf (hdr8 240) 1) "ns").toNat * 1) * (1 - 1) + 0
          + csizeD "int32" ≤ (hdr8 240).length)
    ∧ (getSegyTraceHeader (shOf (hdr8 240) 1) (hdr8 240)
          { name := "TraceSequenceLine", pos := 0, ty := "int32" } 0 = .ok (.arr
        ((List.range (dictGet (shOf (hdr8 240) 1) "ntraces").toNat).map (fun j =>
          decodeFixed "int32" (sliceAt (hdr8 240)
            (bytes_SFH + (bytes_STH + (dictGet (shOf (hdr8 240) 1) "ns").toNat * 1) * j + 0)
            (csizeD "int32")))))
      ∧ getSegyTraceHeader (shOf (hdr8 240) 1) (hdr8 240)
          { name := "TraceSequenceLine", pos := 0, ty := "int32" } 1 = .ok (.scalar
          (decodeFixed "int32" (sliceAt (hdr8 240)
            (bytes_SFH + (bytes_STH + (dictGet (shOf (hdr8 240) 1) "ns").toNat * 1) * (1 - 1)
              + 0)
            (csizeD "int32"))))) := by
  have hbps : getBytePerSample (shOf (hdr8 240) 1) = .ok 1 :=
    getBytePerSample_shOf (hdr8 240) 1 (getBytePerSample_hdr8 240)
  have hnsz : (dictGet (shOf (hdr8 240) 1) "ns").toNat = 0 := by
    rw [dictGet_shOf_ns, uint16At_hdr8_z 240 3220 (by omega) (by omega)]
    rfl
  have hntr : (dictGet (shOf (hdr8 240) 1) "ntraces").toNat = 1 := by
    rw [ntraces_hdr8]
    rfl
  have hbj : ∀ j < (dictGet (shOf (hdr8 240) 1) "ntraces").toNat,
      bytes_SFH + (bytes_STH + (dictGet (shOf (hdr8 240) 1) "ns").toNat * 1) * j + 0
        + csizeD "int32" ≤ (hdr8 240).length := by
    intro j hj
    rw [hntr] at hj
    rw [hnsz, length_hdr8]
    have hj0 : j = 0 := by omega
    subst hj0
    rw [show csizeD "int32" = 4 from rfl]
    norm_num [bytes_SFH, bytes_STH]
  have hbi : bytes_SFH + (bytes_STH + (dictGet (shOf (hdr8 240) 1) "ns").toNat * 1) * (1 - 1)
      + 0 + csizeD "int32" ≤ (hdr8 240).length := by
    rw [hnsz, length_hdr8, show csizeD "int32" = 4 from rfl]
    norm_num [bytes_SFH, bytes_STH]
  exact ⟨⟨hbps, by decide, by decide, le_refl 1, hbj, hbi⟩,
    claim_C5_read_modes (shOf (hdr8 240) 1) (hdr8 240)
      { name := "TraceSequenceLine", pos := 0, ty := "int32" } 1 1 hbps (by decide)
      (by decide) (le_refl 1) hbj hbi⟩

theorem getD_cons (a : Nat) (l : List Nat) (k : Nat) :
    (a :: l).getD k 0 = if k = 0 then a else l.getD (k - 1) 0 := by
  match k with
  | 0 => rfl
  | n + 1 => simp [List.getD]

theorem getD_nilz (k : Nat) : ([] : List Nat).getD k 0 = 0 := by
  simp [List.getD]

/-- A header with `ns = 1`, format code 8, one 240-byte zero trace
header and a single sample byte `b` at offset 3840. -/
def uch1 (b : Nat) : List Nat :=
  List.replicate 3220 0 ++ [0, 1, 0, 0, 0, 8] ++ List.replicate 614 0 ++ [b]

theorem length_uch1 (b : Nat) : (uch1 b).length = 3841 := by
  simp only [uch1, List.length_append, List.length_replicate, List.length_cons,
    List.length_nil]

theorem getD_uch1_3221 (b : Nat) : (uch1 b).getD 3221 0 = 1 := by
  simp only [uch1, getD_append, getD_replicate, getD_cons, List.length_append,
    List.length_replicate, List.length_cons, List.length_nil]
  norm_num

theorem getD_uch1_3225 (b : Nat) : (uch1 b).getD 3225 0 = 8 := by
  simp only [uch1, getD_append, getD_replicate, getD_cons, List.length_append,
    List.length_replicate, List.length_cons, List.length_nil]
  norm_num

theorem getD_uch1_3840 (b : Nat) : (uch1 b).getD 3840 0 = b := by
  simp only [uch1, getD_append, getD_replicate, getD_cons, List.length_append,
    List.length_replicate, List.length_cons, List.length_nil]
  norm_num

theorem getD_uch1_z (b p : Nat) (h1 : p ≠ 3221) (h2 : p ≠ 3225) (h3 : p ≠ 3840) :
    (uch1 b).getD p 0 = 0 := by
  simp only [uch1, getD_append, getD_replicate, getD_cons, getD_nilz, List.length_append,
    List.length_replicate, List.length_cons, List.length_nil]
  split_ifs <;> omega

theorem uint16At_uch1_ns (b : Nat) : uint16At (uch1 b) 3220 = 1 := by
  rw [uint16At_eq, getD_uch1_z b 3220 (by omega) (by omega) (by omega)]
  rw [show (3220 : Nat) + 1 = 3221 from rfl, getD_uch1_3221]
  rfl

theorem uint16At_uch1_rev (b : Nat) : uint16At (uch1 b) 3500 = 0 := by
  rw [uint16At_eq, getD_uch1_z b 3500 (by omega) (by omega) (by omega),
    getD_uch1_z b (3500 + 1) (by omega) (by omega) (by omega)]
  rfl

theorem int16At_uch1_dsf (b : Nat) : int16At (uch1 b) 3224 = 8 := by
  rw [int16At, sliceAt_two, getD_uch1_z b 3224 (by omega) (by omega) (by omega)]
  rw [show (3224 : Nat) + 1 = 3225 from rfl, getD_uch1_3225]
  norm_num [natOfBytes_two, toSigned]

theorem getBytePerSample_uch1 (b : Nat) :
    getBytePerSample (decodedSH (uch1 b)) = .ok 1 := by
  have hrev : getRevisionNumber (decodedSH (uch1 b)) = .ok 1 := by
    unfold getRevisionNumber
    rw [dictGet_decodedSH_rev, uint16At_uch1_rev]
    rfl
  unfold getBytePerSample
  rw [hrev]
  simp only [ok_bind]
  rw [dictGet_decodedSH_dsf, int16At_uch1_dsf]
  rfl

/-- **C7 (code bug).**  On a well-formed format-8 file holding the
single sample byte 200, `readSegy` does not return the −56 the
specification's two's-complement reinterpretation demands — but not
because the reinterpretation is merely miscomputed: the read aborts
before any sample is decoded, when `np.empty` inside `getValue`
rejects the dtype string `uchar` with `TypeError`.  The adjustment
at segypy.py:584 is unreachable, and even if it ran it would leave
200 unchanged (`ucharAdjust 200 = 200`), never producing −56. -/
theorem claim_C7_uchar_unsigned :
    readSegy (uch1 200) = .error (npDtypeErr "uchar")
      ∧ ucharAdjust 200 = 200 ∧ ((200 : Int) ≠ -56) := by
  have hlen : 3600 ≤ (uch1 200).length := by
    rw [length_uch1]
    omega
  have hnsN : (uint16At (uch1 200) 3220).toNat = 1 := by
    rw [uint16At_uch1_ns]
    rfl
  have hntr : dictGet (shOf (uch1 200) 1) "ntraces" = 1 := by
    rw [shOf_ntraces_natdiv (uch1 200) 1 hlen, length_uch1, hnsN]
    norm_num [bytes_STH]
  refine ⟨readSegy_uchar_err (uch1 200) 1 hlen (getBytePerSample_uch1 200)
    (int16At_uch1_dsf 200) (by rw [hntr]), ?_, by norm_num⟩
  decide

end Segypy
